import Mathlib

/-!
# TestFarmExpert: invoice validation in fixed-point cents

A shallow embedding of `src/main.go` (`parseToInt64`, `CalculateInvoiceTotal`,
`formatInt64ToString`) together with a model of the parts of Go's standard
library the three functions call (`math/big.Float`, `strconv.Atoi`,
`fmt.Errorf` with the verbs `%s`, `%d`, `%v`).

Conventions of the embedding:

* Go's `int64` and `int` (64-bit platform) are Lean `Int`s; every arithmetic
  operation the source performs on them is followed by `wrap64`
  (two's-complement wrap-around).
* A Go `(int64, error)` result is a pair `Int × Option String`; the second
  component is `none` for a nil error and `some msg` for an error whose
  `Error()` text is `msg`.
* A Go `string` is a Lean `String` (a sequence of Unicode scalar values, that
  is, a Go string holding valid UTF-8).  The number scanners of Go read bytes;
  every byte of a multi-byte character is `≥ 0x80`, is no digit, sign, point,
  separator or exponent letter, and stops the scan exactly as the character
  does here.
* A `big.Float` is kept as an integer mantissa and a binary exponent; only the
  rounding mode `ToNearestEven` (the mode of a zero-value `Float`) is modelled
  and the accuracy field is dropped, since the source never reads it.
* The text of a `strconv.Atoi` error quotes the offending string with
  `strconv.Quote`, which consults Go's Unicode tables of printable characters;
  for the code points above `0xFF` that table is the parameter `isPrintTab` of
  `Atoi`, `subtotalLoop` and `CalculateInvoiceTotal`.
-/

namespace TestFarmExpert

/-! ## Data model (`src/main.go`, lines 9-32) -/

/-- The struct `TaxCategory`. -/
structure TaxCategory where
  ID : String
  Percent : String
deriving DecidableEq, Repr

/-- The struct `TaxSubtotal`. -/
structure TaxSubtotal where
  TaxableAmount : String
  TaxAmount : String
  TaxCategory : TaxCategory
deriving DecidableEq, Repr

/-- The struct `TaxTotal`. -/
structure TaxTotal where
  TaxAmount : String
  TaxSubtotal : List TaxSubtotal
deriving DecidableEq, Repr

/-- The struct `Invoice`. -/
structure Invoice where
  LineExtensionAmount : String
  TaxTotal : TaxTotal
deriving DecidableEq, Repr

/-! ## Machine integers -/

/-- Smallest `int64`. -/
def minInt64 : Int := -(2 ^ 63)

/-- Largest `int64`. -/
def maxInt64 : Int := 2 ^ 63 - 1

/-- Two's-complement wrap-around of an integer into the `int64` range. -/
def wrap64 (x : Int) : Int := (x + 2 ^ 63) % 2 ^ 64 - 2 ^ 63

/-- The integer lies in the `int64` range. -/
def inInt64 (x : Int) : Prop := minInt64 ≤ x ∧ x ≤ maxInt64

instance (x : Int) : Decidable (inInt64 x) := by
  unfold inInt64; exact inferInstance

/-! ## `math/big`: natural-number helpers -/

/-- Helper of `bitLen`: halve until zero, counting the steps. -/
def bitLenAux : Nat → Nat → Nat
  | 0, _ => 0
  | fuel + 1, n => if n = 0 then 0 else bitLenAux fuel (n / 2) + 1

/-- `nat.bitLen`: the number of bits of `n` (0 for 0). -/
def bitLen (n : Nat) : Nat := bitLenAux n n

/-! ## `math/big.Float` -/

/-- The `form` of a `big.Float`. -/
inductive Form where
  | zero
  | finite
  | inf
deriving DecidableEq, Repr

/-- A `big.Float` with rounding mode `ToNearestEven`.  When `form` is `finite`
the value is `(-1)^neg * mant * 2^exp2` with `mant > 0`.  Go stores the
mantissa left-aligned as a fraction `0.mant` in `[0.5, 1)` with an exponent
`exp`; that exponent is `bexp` below. -/
structure BigFloat where
  prec : Nat
  neg : Bool
  form : Form
  mant : Nat
  exp2 : Int
deriving DecidableEq, Repr

/-- `big.MaxExp`, the largest exponent of a `big.Float` (`math.MaxInt32`). -/
def MaxExp : Int := 2 ^ 31 - 1

/-- `big.MinExp`, the smallest exponent of a `big.Float` (`math.MinInt32`). -/
def MinExp : Int := -(2 ^ 31)

/-- The exponent field `x.exp` of Go: `|x| = 0.mant * 2^exp` with
`0.5 ≤ 0.mant < 1`. -/
def BigFloat.bexp (x : BigFloat) : Int := x.exp2 + bitLen x.mant

/-- `(*Float).round(sbit)` for `ToNearestEven`: round the mantissa to `prec`
bits.  `sbit` tells that the exact value has further nonzero bits below the
mantissa.  The rounding bit is the first dropped bit, the sticky bit is the
disjunction of the bits below it; the mantissa is incremented when the
rounding bit is set and either the sticky bit or the last kept bit is set.  A
mantissa overflow bumps the exponent, and yields an infinity beyond `MaxExp`. -/
def BigFloat.round (z : BigFloat) (sbit : Bool) : BigFloat :=
  if z.form ≠ Form.finite then z
  else
    let bits := bitLen z.mant
    if bits ≤ z.prec then z
    else
      let r := bits - z.prec - 1
      let rbit := decide ((z.mant / 2 ^ r) % 2 = 1)
      let sticky := sbit || decide (z.mant % 2 ^ r ≠ 0)
      let m := z.mant / 2 ^ (r + 1)
      let inc := rbit && (sticky || decide (m % 2 = 1))
      if inc then
        if m + 1 = 2 ^ z.prec then
          if z.bexp ≥ MaxExp then { z with form := Form.inf }
          else { z with mant := 2 ^ (z.prec - 1), exp2 := z.exp2 + (r + 1) + 1 }
        else { z with mant := m + 1, exp2 := z.exp2 + (r + 1) }
      else { z with mant := m, exp2 := z.exp2 + (r + 1) }

/-- `(*Float).setExpAndRound`: install mantissa and exponent; an exponent below
`MinExp` underflows to zero, one above `MaxExp` overflows to an infinity,
otherwise the mantissa is rounded to the precision of `z`. -/
def BigFloat.setExpAndRound (z : BigFloat) (mant : Nat) (exp2 : Int) (sbit : Bool) :
    BigFloat :=
  let z1 : BigFloat := { z with mant := mant, exp2 := exp2 }
  if z1.bexp < MinExp then { z1 with form := Form.zero }
  else if z1.bexp > MaxExp then { z1 with form := Form.inf }
  else BigFloat.round { z1 with form := Form.finite } sbit

/-- `(*Float).umul`: `z = |x| * |y|` rounded to the precision of `z`. -/
def BigFloat.umul (z x y : BigFloat) : BigFloat :=
  z.setExpAndRound (x.mant * y.mant) (x.exp2 + y.exp2) false

/-- `(*Float).uquo`: `z = |x| / |y|` rounded to the precision of `z`.  Go
divides the mantissa of `x`, padded with zero words, by the mantissa of `y` so
that the integer quotient has more than `prec` bits, and passes a sticky bit
telling whether the remainder is nonzero; here the padding is `prec + 2` bits
beyond the length of the divisor, which gives a quotient of at least
`prec + 2` bits and therefore the same correctly rounded result. -/
def BigFloat.uquo (z x y : BigFloat) : BigFloat :=
  let k := z.prec + 2 + bitLen y.mant
  let q := (x.mant * 2 ^ k) / y.mant
  let r := (x.mant * 2 ^ k) % y.mant
  z.setExpAndRound q (x.exp2 - y.exp2 - k) (decide (r ≠ 0))

/-- `(*Float).Mul`: `z = x * y` rounded to the precision of `z` (a zero
precision of `z` is first set to the larger precision of the operands).  Go
panics on `0 * Inf`; no caller in this development reaches that case, which is
given the zero Go has stored in `z` at that point. -/
def BigFloat.Mul (z x y : BigFloat) : BigFloat :=
  let z1 : BigFloat :=
    { z with prec := if z.prec = 0 then max x.prec y.prec else z.prec,
             neg := x.neg != y.neg }
  if x.form = Form.finite ∧ y.form = Form.finite then z1.umul x y
  else if (x.form = Form.zero ∧ y.form = Form.inf) ∨
      (x.form = Form.inf ∧ y.form = Form.zero) then
    { z1 with form := Form.zero, neg := false }
  else if x.form = Form.inf ∨ y.form = Form.inf then { z1 with form := Form.inf }
  else { z1 with form := Form.zero }

/-- `(*Float).Quo`: `z = x / y` rounded to the precision of `z`.  Go panics on
`0 / 0` and `Inf / Inf`; no caller in this development reaches those cases,
which are given the zero Go has stored in `z` at that point. -/
def BigFloat.Quo (z x y : BigFloat) : BigFloat :=
  let z1 : BigFloat :=
    { z with prec := if z.prec = 0 then max x.prec y.prec else z.prec,
             neg := x.neg != y.neg }
  if x.form = Form.finite ∧ y.form = Form.finite then z1.uquo x y
  else if (x.form = Form.zero ∧ y.form = Form.zero) ∨
      (x.form = Form.inf ∧ y.form = Form.inf) then
    { z1 with form := Form.zero, neg := false }
  else if x.form = Form.zero ∨ y.form = Form.inf then { z1 with form := Form.zero }
  else { z1 with form := Form.inf }

/-- `(*Float).setBits64(neg, x)` on a `Float` of precision `prec` (64 when
`prec` is 0), the body of `SetUint64` and `SetInt64`: exact when `prec ≥ 64`,
rounded otherwise. -/
def BigFloat.setBits64 (prec : Nat) (neg : Bool) (x : Nat) : BigFloat :=
  let p := if prec = 0 then 64 else prec
  if x = 0 then { prec := p, neg := neg, form := Form.zero, mant := 0, exp2 := 0 }
  else BigFloat.round { prec := p, neg := neg, form := Form.finite, mant := x, exp2 := 0 } false

/-- `new(big.Float).SetInt64(x)`: the sign and the magnitude of `x` as a
`uint64` (Go negates in `int64`, so the smallest `int64` keeps its bit pattern
and converts to `2^63`). -/
def BigFloat.SetInt64 (x : Int) : BigFloat :=
  let u : Int := if x < 0 then wrap64 (-x) else x
  BigFloat.setBits64 0 (decide (x < 0)) (u % 2 ^ 64).toNat

/-- `big.NewFloat(100)`: the float64 value 100 as a `Float` of precision 53. -/
def hundred : BigFloat :=
  { prec := 53, neg := false, form := Form.finite, mant := 100, exp2 := 0 }

/-- The largest index of Go's table `pow5tab` of exact powers of five. -/
def pow5tabMax : Nat := 27

/-- The loop of `(*Float).pow5`: square-and-multiply, `z` rounded to its own
precision and the running square `f` to a precision 64 bits larger. -/
def pow5Loop : Nat → Nat → BigFloat → BigFloat → BigFloat
  | 0, _, z, _ => z
  | fuel + 1, n, z, f =>
    if n = 0 then z
    else pow5Loop fuel (n / 2) (if n % 2 = 1 then z.Mul z f else z) (f.Mul f f)

/-- `(*Float).pow5(n)` on a `Float` of precision `prec`: `5^n`, exact from the
table for `n ≤ 27`, otherwise computed from `5^27` by square-and-multiply. -/
def pow5 (prec : Nat) (n : Nat) : BigFloat :=
  if n ≤ pow5tabMax then BigFloat.setBits64 prec false (5 ^ n)
  else
    pow5Loop n (n - pow5tabMax) (BigFloat.setBits64 prec false (5 ^ pow5tabMax))
      (BigFloat.setBits64 (prec + 64) false 5)

/-! ### Scanning a number (`nat.scan`, `scanExponent`, `(*Float).scan`) -/

/-- `big.MaxBase`. -/
def MaxBase : Nat := 62

/-- The digit value of a character in `nat.scan` (bases up to 36): `0-9`,
`a-z` and `A-Z` count 0..35, anything else is `MaxBase + 1`. -/
def digitVal (ch : Char) : Nat :=
  if 48 ≤ ch.toNat ∧ ch.toNat ≤ 57 then ch.toNat - 48
  else if 97 ≤ ch.toNat ∧ ch.toNat ≤ 122 then ch.toNat - 97 + 10
  else if 65 ≤ ch.toNat ∧ ch.toNat ≤ 90 then ch.toNat - 65 + 10
  else MaxBase + 1

/-- The variable `prev` of the scanners: the kind of the previous character. -/
inductive Prev where
  | dot
  | digit
  | sep
deriving DecidableEq, Repr

/-- The result of `nat.scan`: the mantissa digits as a number, the base, the
digit count (minus the number of fractional digits when there is a radix
point), whether a syntax error was found, and the unread input. -/
structure NatScan where
  res : Nat
  base : Nat
  count : Int
  err : Bool
  rest : List Char
deriving DecidableEq, Repr

/-- The end of `nat.scan`: a separator not between digits and the absence of
digits are errors; with a radix point at digit position `dp` the count becomes
`dp - count`. -/
def natScanFinish (b z count : Nat) (dp : Option Nat) (prev : Prev) (invalSep : Bool)
    (rest : List Char) : NatScan :=
  { res := z, base := b,
    count := match dp with
      | some d => (d : Int) - (count : Int)
      | none => (count : Int),
    err := invalSep || decide (prev = Prev.sep) || decide (count = 0),
    rest := rest }

/-- The digit loop of `nat.scan` called with base 0 and `fracOk`: a `.` is
taken once, `_` is a separator, any other character is a digit of the base `b`
or ends the number (and is unread). -/
def natScanLoop (b : Nat) : List Char → Nat → Nat → Option Nat → Bool → Prev → Bool → NatScan
  | [], z, count, dp, _, prev, invalSep => natScanFinish b z count dp prev invalSep []
  | ch :: rest, z, count, dp, fracOk, prev, invalSep =>
    if ch = '.' ∧ fracOk = true then
      natScanLoop b rest z count (some count) false Prev.dot
        (invalSep || decide (prev = Prev.sep))
    else if ch = '_' then
      natScanLoop b rest z count dp fracOk Prev.sep (invalSep || decide (prev ≠ Prev.digit))
    else if digitVal ch ≥ b then natScanFinish b z count dp prev invalSep (ch :: rest)
    else natScanLoop b rest (z * b + digitVal ch) (count + 1) dp fracOk Prev.digit invalSep

/-- `nat.scan(r, 0, true)`: the base is 10 unless the number starts with one of
the prefixes `0b`, `0o`, `0x` (either case), which is not counted as a digit. -/
def natScan (s : List Char) : NatScan :=
  match s with
  | '0' :: c :: rest =>
    if c = 'b' ∨ c = 'B' then natScanLoop 2 rest 0 0 none true Prev.digit false
    else if c = 'o' ∨ c = 'O' then natScanLoop 8 rest 0 0 none true Prev.digit false
    else if c = 'x' ∨ c = 'X' then natScanLoop 16 rest 0 0 none true Prev.digit false
    else natScanLoop 10 (c :: rest) 0 1 none true Prev.digit false
  | '0' :: [] => natScanLoop 10 [] 0 1 none true Prev.digit false
  | _ => natScanLoop 10 s 0 0 none true Prev.dot false

/-- The result of `scanExponent`: exponent, exponent base (10 or 2), whether an
error was found, and the unread input. -/
structure ExpScan where
  exp : Int
  base : Nat
  err : Bool
  rest : List Char
deriving DecidableEq, Repr

/-- The digit loop of `scanExponent` (separators allowed): collects decimal
digits up to the first other character. -/
def expDigits : List Char → Nat → Bool → Prev → Bool → Nat × Bool × Prev × Bool × List Char
  | [], v, hasDigits, prev, invalSep => (v, hasDigits, prev, invalSep, [])
  | ch :: rest, v, hasDigits, prev, invalSep =>
    if 48 ≤ ch.toNat ∧ ch.toNat ≤ 57 then
      expDigits rest (v * 10 + (ch.toNat - 48)) true Prev.digit invalSep
    else if ch = '_' then
      expDigits rest v hasDigits Prev.sep (invalSep || decide (prev ≠ Prev.digit))
    else (v, hasDigits, prev, invalSep, ch :: rest)

/-- The part of `scanExponent` after the exponent letter: optional sign,
digits, then `strconv.ParseInt(digits, 10, 64)`, which fails outside the
`int64` range. -/
def scanExponentTail (base : Nat) (s : List Char) : ExpScan :=
  let neg := decide (s.head? = some '-')
  let s1 := if s.head? = some '+' ∨ s.head? = some '-' then s.tail else s
  match expDigits s1 0 false Prev.dot false with
  | (v, hasDigits, prev, invalSep, rest) =>
    let exp : Int := if neg then -(v : Int) else (v : Int)
    { exp := exp, base := base,
      err := !hasDigits || decide (¬ inInt64 exp) || invalSep || decide (prev = Prev.sep),
      rest := rest }

/-- `scanExponent(r, true, true)`: an exponent starts with `e`/`E` (base 10) or
`p`/`P` (base 2); without one the exponent is 0 and nothing is read. -/
def scanExponent (s : List Char) : ExpScan :=
  match s with
  | [] => { exp := 0, base := 10, err := false, rest := [] }
  | ch :: rest =>
    if ch = 'e' ∨ ch = 'E' then scanExponentTail 10 rest
    else if ch = 'p' ∨ ch = 'P' then scanExponentTail 2 rest
    else { exp := 0, base := 10, err := false, rest := s }

/-- `(*Float).scan(r, 0)` on a zero-value `Float` (precision 64): sign,
mantissa, exponent; the value `mant * 2^exp2 * 5^exp5` is formed by rounding
the mantissa when `exp5 = 0` and otherwise by one rounded division or
multiplication by `pow5 |exp5|` held at precision 128.  The sums of exponents,
`int64` in Go, do not overflow for any string that fits in memory.  Returns
`none` for an error, else the value and the unread input. -/
def BigFloat.scan (s : List Char) : Option (BigFloat × List Char) :=
  match s with
  | [] => none
  | c :: rest =>
    let neg := decide (c = '-')
    let s1 := if c = '-' ∨ c = '+' then rest else s
    let m := natScan s1
    if m.err then none
    else
      let e := scanExponent m.rest
      if e.err then none
      else if m.res = 0 then
        some ({ prec := 64, neg := neg, form := Form.zero, mant := 0, exp2 := 0 }, e.rest)
      else
        let d : Int := if m.count < 0 then m.count else 0
        let exp5a : Int := if m.base = 10 then d else 0
        let exp2a : Int := (bitLen m.res : Int) +
          (if m.base = 10 ∨ m.base = 2 then d else if m.base = 8 then d * 3 else d * 4)
        let exp5 : Int := if e.base = 10 then exp5a + e.exp else exp5a
        let exp2 : Int := exp2a + e.exp
        if MinExp ≤ exp2 ∧ exp2 ≤ MaxExp then
          let z : BigFloat :=
            { prec := 64, neg := neg, form := Form.finite, mant := m.res,
              exp2 := exp2 - (bitLen m.res : Int) }
          if exp5 = 0 then some (z.round false, e.rest)
          else if exp5 < 0 then some (z.Quo z (pow5 (64 + 64) (-exp5).toNat), e.rest)
          else some (z.Mul z (pow5 (64 + 64) exp5.toNat), e.rest)
        else none

/-- `(*Float).Parse(s, 0)` on a zero-value `Float`: the four spellings of an
infinity, or a number that takes up the whole string. -/
def BigFloat.Parse (s : String) : Option BigFloat :=
  if s = "Inf" ∨ s = "inf" ∨ s = "+Inf" ∨ s = "+inf" then
    some { prec := 64, neg := false, form := Form.inf, mant := 0, exp2 := 0 }
  else if s = "-Inf" ∨ s = "-inf" then
    some { prec := 64, neg := true, form := Form.inf, mant := 0, exp2 := 0 }
  else
    match BigFloat.scan s.toList with
    | some (f, []) => some f
    | _ => none

/-- `new(big.Float).SetString(s)`: `some f` when Go returns `(f, true)`. -/
def BigFloat.SetString (s : String) : Option BigFloat := BigFloat.Parse s

/-- `(*Float).Int64`: the value truncated toward zero, saturating at the ends
of the `int64` range (infinities included). -/
def BigFloat.Int64 (x : BigFloat) : Int :=
  match x.form with
  | Form.zero => 0
  | Form.inf => if x.neg then minInt64 else maxInt64
  | Form.finite =>
    if x.bexp ≤ 0 then 0
    else if x.bexp ≤ 63 then
      let i : Int := if 0 ≤ x.exp2 then (x.mant * 2 ^ x.exp2.toNat : Nat)
        else (x.mant / 2 ^ (-x.exp2).toNat : Nat)
      if x.neg then -i else i
    else if x.neg then minInt64
    else maxInt64

/-! ## `parseToInt64` (`src/main.go`, lines 35-46) -/

/-- The function `parseToInt64`: parse with `big.Float`, multiply by 100 at
precision 64, truncate to `int64`. -/
def parseToInt64 (value : String) : Int × Option String :=
  match BigFloat.SetString value with
  | none => (0, some ("invalid value: " ++ value))
  | some f => ((f.Mul f hundred).Int64, none)

/-! ## `strconv` and `fmt` -/

/-- The verb `%d` of `fmt` on an integer: base 10, `-` for negative values. -/
def fmtD (x : Int) : String :=
  if x < 0 then "-" ++ Nat.repr x.natAbs else Nat.repr x.natAbs

/-- `strconv.IsPrint`: closed form on Latin-1, and for the code points above
`0xFF` the range tables of Go's `strconv` package, taken as the parameter
`isPrintTab`. -/
def IsPrint (isPrintTab : Nat → Bool) (r : Char) : Bool :=
  let n := r.toNat
  if n ≤ 255 then
    if 32 ≤ n ∧ n ≤ 126 then true
    else if 161 ≤ n then decide (n ≠ 173)
    else false
  else isPrintTab n

/-- The hexadecimal digit `lowerhex[n]`. -/
def lowerhex (n : Nat) : Char := Nat.digitChar (n % 16)

/-- `strconv.appendEscapedRune` as called by `Quote` (double quote, neither
ASCII-only nor graphic-only). -/
def appendEscapedRune (isPrintTab : Nat → Bool) (r : Char) : List Char :=
  let n := r.toNat
  let bs := Char.ofNat 92
  if n = 34 ∨ n = 92 then [bs, r]
  else if IsPrint isPrintTab r then [r]
  else if n = 7 then [bs, 'a']
  else if n = 8 then [bs, 'b']
  else if n = 12 then [bs, 'f']
  else if n = 10 then [bs, 'n']
  else if n = 13 then [bs, 'r']
  else if n = 9 then [bs, 't']
  else if n = 11 then [bs, 'v']
  else if n < 32 ∨ n = 127 then [bs, 'x', lowerhex (n / 16), lowerhex n]
  else if n < 65536 then
    [bs, 'u', lowerhex (n / 4096), lowerhex (n / 256), lowerhex (n / 16), lowerhex n]
  else
    [bs, 'U', lowerhex (n / 268435456), lowerhex (n / 16777216), lowerhex (n / 1048576),
      lowerhex (n / 65536), lowerhex (n / 4096), lowerhex (n / 256), lowerhex (n / 16),
      lowerhex n]

/-- `strconv.Quote`: the string as a double-quoted Go literal. -/
def Quote (isPrintTab : Nat → Bool) (s : String) : String :=
  String.mk ([Char.ofNat 34] ++ (s.toList.map (appendEscapedRune isPrintTab)).flatten ++
    [Char.ofNat 34])

/-- The two errors of `strconv`'s integer parsers. -/
inductive NumErr where
  | invalid
  | outOfRange
deriving DecidableEq, Repr

/-- The loop of `strconv.ParseUint(s, 10, 64)`: a character that is no decimal
digit is `ErrSyntax`, a value beyond `2^64 - 1` is `ErrRange`, whichever comes
first from the left. -/
def parseUintLoop : List Char → Nat → Except NumErr Nat
  | [], n => Except.ok n
  | c :: cs, n =>
    if 48 ≤ c.toNat ∧ c.toNat ≤ 57 then
      if n * 10 + (c.toNat - 48) > 2 ^ 64 - 1 then Except.error NumErr.outOfRange
      else parseUintLoop cs (n * 10 + (c.toNat - 48))
    else Except.error NumErr.invalid

/-- `(*NumError).Error()` for the function name `Atoi`. -/
def atoiError (isPrintTab : Nat → Bool) (s : String) (e : NumErr) : String :=
  "strconv.Atoi: parsing " ++ Quote isPrintTab s ++ ": " ++
    (match e with
      | NumErr.invalid => "invalid syntax"
      | NumErr.outOfRange => "value out of range")

/-- `strconv.Atoi` where `int` has 64 bits: an optional sign and one or more
decimal digits, with a value in the `int64` range.  (The fast path of Go for
short strings computes the same result as `ParseInt(s, 10, 0)`.) -/
def Atoi (isPrintTab : Nat → Bool) (s : String) : Int × Option String :=
  let cs := s.toList
  let neg := decide (cs.head? = some '-')
  let body := if cs.head? = some '+' ∨ cs.head? = some '-' then cs.tail else cs
  if body = [] then (0, some (atoiError isPrintTab s NumErr.invalid))
  else
    match parseUintLoop body 0 with
    | Except.error NumErr.invalid => (0, some (atoiError isPrintTab s NumErr.invalid))
    | Except.error NumErr.outOfRange =>
      (if neg then minInt64 else maxInt64, some (atoiError isPrintTab s NumErr.outOfRange))
    | Except.ok un =>
      if neg = false ∧ un ≥ 2 ^ 63 then
        (maxInt64, some (atoiError isPrintTab s NumErr.outOfRange))
      else if neg = true ∧ un > 2 ^ 63 then
        (minInt64, some (atoiError isPrintTab s NumErr.outOfRange))
      else (if neg then -(un : Int) else (un : Int), none)

/-! ## `CalculateInvoiceTotal` (`src/main.go`, lines 49-100) -/

/-- The loop over `invoice.TaxTotal.TaxSubtotal` (lines 64-88), from index `i`
with the running sum `sumTaxSubtotal`: the error message of the first
`return 0, err` reached, or the sum after the last subtotal. -/
def subtotalLoop (isPrintTab : Nat → Bool) : List TaxSubtotal → Nat → Int → Except String Int
  | [], _, sumTaxSubtotal => Except.ok sumTaxSubtotal
  | subtotal :: rest, i, sumTaxSubtotal =>
    match parseToInt64 subtotal.TaxableAmount with
    | (_, some err) =>
      Except.error ("invalid TaxableAmount in TaxSubtotal[" ++ fmtD i ++ "]: " ++ err)
    | (taxableAmount, none) =>
      match parseToInt64 subtotal.TaxAmount with
      | (_, some err) =>
        Except.error ("invalid TaxAmount in TaxSubtotal[" ++ fmtD i ++ "]: " ++ err)
      | (taxAmount, none) =>
        match Atoi isPrintTab subtotal.TaxCategory.Percent with
        | (_, some err) =>
          Except.error ("invalid Percent in TaxSubtotal[" ++ fmtD i ++ "]: " ++ err)
        | (percent, none) =>
          let expectedTaxAmount := Int.tdiv (wrap64 (taxableAmount * percent)) 100
          if expectedTaxAmount ≠ taxAmount then
            Except.error ("incorrect tax calculation in TaxSubtotal[" ++ fmtD i ++ "]: " ++
              fmtD taxableAmount ++ " * " ++ fmtD percent ++ " / 100 != " ++ fmtD taxAmount)
          else subtotalLoop isPrintTab rest (i + 1) (wrap64 (sumTaxSubtotal + taxAmount))

/-- The function `CalculateInvoiceTotal`. -/
def CalculateInvoiceTotal (isPrintTab : Nat → Bool) (invoice : Invoice) : Int × Option String :=
  match parseToInt64 invoice.LineExtensionAmount with
  | (_, some err) => (0, some ("invalid LineExtensionAmount: " ++ err))
  | (lineExtAmount, none) =>
    match parseToInt64 invoice.TaxTotal.TaxAmount with
    | (_, some err) => (0, some ("invalid TaxAmount in TaxTotal: " ++ err))
    | (totalTaxAmount, none) =>
      match subtotalLoop isPrintTab invoice.TaxTotal.TaxSubtotal 0 0 with
      | Except.error msg => (0, some msg)
      | Except.ok sumTaxSubtotal =>
        if sumTaxSubtotal ≠ totalTaxAmount then
          (0, some ("total tax amount (" ++ fmtD totalTaxAmount ++
            ") does not match TaxSubtotal sum (" ++ fmtD sumTaxSubtotal ++ ")"))
        else (wrap64 (lineExtAmount + totalTaxAmount), none)

/-! ## `formatInt64ToString` (`src/main.go`, lines 103-113) -/

/-- The digits of `n` in base 10, padded with zeros on the left to `width`
digits (the digits `d.at(d.exp + i)` of the fraction in Go's `fmtF`). -/
def padDigits : Nat → Nat → List Char
  | 0, _ => []
  | width + 1, n => padDigits width (n / 10) ++ [Nat.digitChar (n % 10)]

/-- `x.Text('f', prec)`: the sign, then the exact decimal expansion of `|x|`
rounded to `prec` digits after the point, half to even (Go converts the binary
mantissa exactly to a decimal, `decimal.init`, rounds it on its digits,
`decimal.round`, and prints the integer digits, a point and `prec` fraction
digits, `fmtF`); an infinity is `+Inf` or `-Inf`. -/
def BigFloat.Text (x : BigFloat) (prec : Nat) : String :=
  let sign := if x.neg then "-" else ""
  match x.form with
  | Form.inf => sign ++ (if x.neg then "" else "+") ++ "Inf"
  | _ =>
    let num : Nat := if x.form = Form.zero then 0
      else if 0 ≤ x.exp2 then x.mant * 2 ^ x.exp2.toNat * 10 ^ prec
      else x.mant * 10 ^ prec
    let den : Nat := if x.form = Form.zero ∨ 0 ≤ x.exp2 then 1 else 2 ^ (-x.exp2).toNat
    let q := num / den
    let r := num % den
    let rounded := if 2 * r > den ∨ (2 * r = den ∧ q % 2 = 1) then q + 1 else q
    sign ++ Nat.repr (rounded / 10 ^ prec) ++
      (if prec = 0 then "" else "." ++ String.mk (padDigits prec (rounded % 10 ^ prec)))

/-- The function `formatInt64ToString`: the value as a `big.Float` of
precision 64, divided by `big.NewFloat(100)`, printed with two decimals. -/
def formatInt64ToString (value : Int) : String :=
  let f := BigFloat.SetInt64 value
  (f.Quo f hundred).Text 2

/-! ## Notions used to state the properties -/

/-- `parseToInt64` accepts the string (returns a nil error). -/
def parsesOK (s : String) : Prop := (parseToInt64 s).2 = none

instance (s : String) : Decidable (parsesOK s) := by
  unfold parsesOK; exact inferInstance

/-- `strconv.Atoi` accepts the string (returns a nil error). -/
def atoiOK (isPrintTab : Nat → Bool) (s : String) : Prop := (Atoi isPrintTab s).2 = none

instance (isPrintTab : Nat → Bool) (s : String) : Decidable (atoiOK isPrintTab s) := by
  unfold atoiOK; exact inferInstance

/-- The cents `parseToInt64` returns for the `TaxableAmount` of a subtotal. -/
def taxableCents (st : TaxSubtotal) : Int := (parseToInt64 st.TaxableAmount).1

/-- The cents `parseToInt64` returns for the `TaxAmount` of a subtotal. -/
def taxCents (st : TaxSubtotal) : Int := (parseToInt64 st.TaxAmount).1

/-- The integer `strconv.Atoi` returns for the `Percent` of a subtotal. -/
def percentOf (isPrintTab : Nat → Bool) (st : TaxSubtotal) : Int :=
  (Atoi isPrintTab st.TaxCategory.Percent).1

/-- The cents `parseToInt64` returns for `LineExtensionAmount`. -/
def lineCents (invoice : Invoice) : Int := (parseToInt64 invoice.LineExtensionAmount).1

/-- The cents `parseToInt64` returns for `TaxTotal.TaxAmount`. -/
def totalTaxCents (invoice : Invoice) : Int := (parseToInt64 invoice.TaxTotal.TaxAmount).1

/-- The three strings of a subtotal parse. -/
def subtotalParses (isPrintTab : Nat → Bool) (st : TaxSubtotal) : Prop :=
  parsesOK st.TaxableAmount ∧ parsesOK st.TaxAmount ∧ atoiOK isPrintTab st.TaxCategory.Percent

instance (isPrintTab : Nat → Bool) (st : TaxSubtotal) :
    Decidable (subtotalParses isPrintTab st) := by
  unfold subtotalParses; exact inferInstance

/-- The exact sum of the tax cents of a list of subtotals. -/
def taxSum (l : List TaxSubtotal) : Int := (l.map taxCents).sum

/-- A subtotal passes the four checks of the loop body, in the arithmetic of
the code: its three strings parse and the `int64` product of the taxable cents
and the percent, divided by 100 toward zero, is the tax cents. -/
def subtotalPasses (isPrintTab : Nat → Bool) (st : TaxSubtotal) : Prop :=
  subtotalParses isPrintTab st ∧
    Int.tdiv (wrap64 (taxableCents st * percentOf isPrintTab st)) 100 = taxCents st

instance (isPrintTab : Nat → Bool) (st : TaxSubtotal) :
    Decidable (subtotalPasses isPrintTab st) := by
  unfold subtotalPasses; exact inferInstance

/-- A subtotal satisfies the data-model invariant in exact integer arithmetic:
its three strings parse and taxable cents times percent, divided by 100 toward
zero, is the tax cents. -/
def subtotalExact (isPrintTab : Nat → Bool) (st : TaxSubtotal) : Prop :=
  subtotalParses isPrintTab st ∧
    Int.tdiv (taxableCents st * percentOf isPrintTab st) 100 = taxCents st

instance (isPrintTab : Nat → Bool) (st : TaxSubtotal) :
    Decidable (subtotalExact isPrintTab st) := by
  unfold subtotalExact; exact inferInstance

/-- The message of the tax-sum error (lines 92-93). -/
def taxSumMessage (total sum : Int) : String :=
  "total tax amount (" ++ fmtD total ++ ") does not match TaxSubtotal sum (" ++ fmtD sum ++ ")"

/-- The message of the tax-arithmetic error (lines 83-84) for index `i`, taxable
cents `a`, percent `p` and declared tax cents `t`. -/
def taxCalcMessage (i : Nat) (a p t : Int) : String :=
  "incorrect tax calculation in TaxSubtotal[" ++ fmtD i ++ "]: " ++
    fmtD a ++ " * " ++ fmtD p ++ " / 100 != " ++ fmtD t

/-- The error the specification assigns to a failing subtotal of index `i`: the
first failing check in the order TaxableAmount parse, TaxAmount parse, Percent
parse, tax arithmetic. -/
def firstFailureMessage (isPrintTab : Nat → Bool) (i : Nat) (st : TaxSubtotal) : String :=
  if ¬ parsesOK st.TaxableAmount then
    "invalid TaxableAmount in TaxSubtotal[" ++ fmtD i ++ "]: invalid value: " ++ st.TaxableAmount
  else if ¬ parsesOK st.TaxAmount then
    "invalid TaxAmount in TaxSubtotal[" ++ fmtD i ++ "]: invalid value: " ++ st.TaxAmount
  else if ¬ atoiOK isPrintTab st.TaxCategory.Percent then
    "invalid Percent in TaxSubtotal[" ++ fmtD i ++ "]: " ++
      (Atoi isPrintTab st.TaxCategory.Percent).2.getD ""
  else taxCalcMessage i (taxableCents st) (percentOf isPrintTab st) (taxCents st)

/-- No `int64` overflow happens while the loop runs over the subtotals from the
running sum `s`: for each subtotal that is reached and whose three strings
parse, the product taxable cents times percent fits, and when its arithmetic
check holds the new running sum fits and the rest of the loop has no overflow
either. -/
def loopNoOverflow (isPrintTab : Nat → Bool) : List TaxSubtotal → Int → Prop
  | [], _ => True
  | st :: rest, s =>
    subtotalParses isPrintTab st →
      inInt64 (taxableCents st * percentOf isPrintTab st) ∧
      (Int.tdiv (taxableCents st * percentOf isPrintTab st) 100 = taxCents st →
        inInt64 (s + taxCents st) ∧ loopNoOverflow isPrintTab rest (s + taxCents st))

instance decLoopNoOverflow (isPrintTab : Nat → Bool) :
    (l : List TaxSubtotal) → (s : Int) → Decidable (loopNoOverflow isPrintTab l s)
  | [], _ => isTrue trivial
  | st :: rest, s =>
    have : Decidable (loopNoOverflow isPrintTab rest (s + taxCents st)) :=
      decLoopNoOverflow isPrintTab rest (s + taxCents st)
    inferInstanceAs (Decidable (subtotalParses isPrintTab st →
      inInt64 (taxableCents st * percentOf isPrintTab st) ∧
      (Int.tdiv (taxableCents st * percentOf isPrintTab st) 100 = taxCents st →
        inInt64 (s + taxCents st) ∧ loopNoOverflow isPrintTab rest (s + taxCents st))))

/-- The valid invoice of the test suite (`TestCalculateInvoiceTotal/Valid
invoice`). -/
def validInvoice : Invoice :=
  ⟨"1500.00", ⟨"250.00",
    [⟨"1000.00", "200.00", ⟨"S", "20"⟩⟩, ⟨"500.00", "50.00", ⟨"R", "10"⟩⟩]⟩⟩

/-- The invoice of the test `Incorrect tax calculation`. -/
def wrongTaxInvoice : Invoice :=
  ⟨"1500.00", ⟨"200.00", [⟨"1000.00", "250.00", ⟨"S", "20"⟩⟩]⟩⟩

/-- The invoice of the test `Tax sum mismatch`. -/
def sumMismatchInvoice : Invoice :=
  ⟨"1500.00", ⟨"350.00",
    [⟨"1000.00", "200.00", ⟨"S", "20"⟩⟩, ⟨"500.00", "50.00", ⟨"R", "10"⟩⟩]⟩⟩

/-- An invoice whose only subtotal has the percent 184467440737095516: the
product `100 * 184467440737095516` is `2^64 - 16` and wraps to `-16`. -/
def overflowInvoice : Invoice :=
  ⟨"0.00", ⟨"0.00", [⟨"1.00", "0.00", ⟨"S", "184467440737095516"⟩⟩]⟩⟩

/-- An invoice with 101 equal subtotals of 92233720368547758 tax cents each:
their exact sum 9315605757223323558 exceeds the `int64` range and the running
sum of the code wraps to -9131138316486228058, the declared total. -/
def sumOverflowInvoice : Invoice :=
  ⟨"0.00", ⟨"-91311383164862280.58",
    List.replicate 101 ⟨"922337203685477.58", "922337203685477.58", ⟨"S", "100"⟩⟩⟩⟩

/-- The first character of a string, if any. -/
def firstChar (s : String) : Option Char := s.data.head?

/-- The character is an ASCII letter. -/
def isASCIILetter (c : Char) : Prop :=
  (65 ≤ c.toNat ∧ c.toNat ≤ 90) ∨ (97 ≤ c.toNat ∧ c.toNat ≤ 122)

instance (c : Char) : Decidable (isASCIILetter c) := by
  unfold isASCIILetter; exact inferInstance

/-- The character is a decimal digit. -/
def isDecDigit (c : Char) : Prop := 48 ≤ c.toNat ∧ c.toNat ≤ 57

instance (c : Char) : Decidable (isDecDigit c) := by
  unfold isDecDigit; exact inferInstance

/-- The invoice with its list of subtotals replaced. -/
def withSubtotals (invoice : Invoice) (l : List TaxSubtotal) : Invoice :=
  { invoice with TaxTotal := { invoice.TaxTotal with TaxSubtotal := l } }

/-- The string is an optional `+` or `-` followed by one or more decimal
digits. -/
def isPlainInt (s : String) : Prop :=
  (if s.toList.head? = some '+' ∨ s.toList.head? = some '-' then s.toList.tail
    else s.toList) ≠ [] ∧
  ∀ c ∈ (if s.toList.head? = some '+' ∨ s.toList.head? = some '-' then s.toList.tail
    else s.toList), isDecDigit c

instance (s : String) : Decidable (isPlainInt s) := by
  unfold isPlainInt; exact inferInstance

/-- The float with the opposite sign. -/
def BigFloat.negate (f : BigFloat) : BigFloat := { f with neg := !f.neg }

/-- The integer lies strictly inside the `int64` range. -/
def strictInt64 (x : Int) : Prop := minInt64 < x ∧ x < maxInt64

instance (x : Int) : Decidable (strictInt64 x) := by
  unfold strictInt64; exact inferInstance

/-- The characters `cs` are an unsigned decimal number with the integer digits
`ip` and the fractional digits `fp`: one or more digits, optionally followed by
a point and digits. -/
def isUnsignedDecimalOf (cs ip fp : List Char) : Prop :=
  ip ≠ [] ∧ (∀ c ∈ ip, isDecDigit c) ∧ (∀ c ∈ fp, isDecDigit c) ∧
    ((cs = ip ∧ fp = []) ∨ cs = ip ++ '.' :: fp)

/-- The string is an unsigned decimal number. -/
def isUnsignedDecimal (s : String) : Prop :=
  ∃ ip fp : List Char, isUnsignedDecimalOf s.toList ip fp

/-- The subtotal with `-` put in front of its two monetary strings. -/
def negateSubtotal (st : TaxSubtotal) : TaxSubtotal :=
  { st with TaxableAmount := "-" ++ st.TaxableAmount, TaxAmount := "-" ++ st.TaxAmount }

/-- The invoice with `-` put in front of every monetary string (the percents are
unchanged). -/
def negateInvoice (invoice : Invoice) : Invoice :=
  { LineExtensionAmount := "-" ++ invoice.LineExtensionAmount,
    TaxTotal := { TaxAmount := "-" ++ invoice.TaxTotal.TaxAmount,
                  TaxSubtotal := invoice.TaxTotal.TaxSubtotal.map negateSubtotal } }

/-- The binary exponent `exp2` that `(*Float).scan` computes from the scanned
mantissa and exponent. -/
def scanExp2 (m : NatScan) (e : ExpScan) : Int :=
  (bitLen m.res : Int) +
    (if m.base = 10 ∨ m.base = 2 then (if m.count < 0 then m.count else 0)
      else if m.base = 8 then (if m.count < 0 then m.count else 0) * 3
      else (if m.count < 0 then m.count else 0) * 4) + e.exp

/-- The decimal exponent `exp5` that `(*Float).scan` computes from the scanned
mantissa and exponent. -/
def scanExp5 (m : NatScan) (e : ExpScan) : Int :=
  if e.base = 10 then (if m.base = 10 then (if m.count < 0 then m.count else 0) else 0) + e.exp
  else (if m.base = 10 then (if m.count < 0 then m.count else 0) else 0)

/-- The end of `(*Float).scan` for a nonzero mantissa `mres`: the range check of
the binary exponent and the application of the decimal exponent. -/
def scanFinish (neg : Bool) (mres : Nat) (exp2 exp5 : Int) (rest : List Char) :
    Option (BigFloat × List Char) :=
  if MinExp ≤ exp2 ∧ exp2 ≤ MaxExp then
    if exp5 = 0 then
      some (BigFloat.round ⟨64, neg, Form.finite, mres, exp2 - (bitLen mres : Int)⟩ false, rest)
    else if exp5 < 0 then
      some (BigFloat.Quo ⟨64, neg, Form.finite, mres, exp2 - (bitLen mres : Int)⟩
        ⟨64, neg, Form.finite, mres, exp2 - (bitLen mres : Int)⟩ (pow5 (64 + 64) (-exp5).toNat),
        rest)
    else
      some (BigFloat.Mul ⟨64, neg, Form.finite, mres, exp2 - (bitLen mres : Int)⟩
        ⟨64, neg, Form.finite, mres, exp2 - (bitLen mres : Int)⟩ (pow5 (64 + 64) exp5.toNat),
        rest)
  else none

/-- The body of `(*Float).scan` after the sign `neg` has been read, on the
remaining input `s1`. -/
def scanBody (neg : Bool) (s1 : List Char) : Option (BigFloat × List Char) :=
  if (natScan s1).err = true then none
  else if (scanExponent (natScan s1).rest).err = true then none
  else if (natScan s1).res = 0 then
    some (⟨64, neg, Form.zero, 0, 0⟩, (scanExponent (natScan s1).rest).rest)
  else
    scanFinish neg (natScan s1).res (scanExp2 (natScan s1) (scanExponent (natScan s1).rest))
      (scanExp5 (natScan s1) (scanExponent (natScan s1).rest))
      (scanExponent (natScan s1).rest).rest

/-- The number written by a list of decimal digits, continuing from the value
`z` of the digits read so far. -/
def digitsVal (z : Nat) (ds : List Char) : Nat :=
  ds.foldl (fun v c => v * 10 + (c.toNat - 48)) z

/-- The number written by a list of decimal digits. -/
def decimalValue (ds : List Char) : Nat := digitsVal 0 ds

/-- The value of a finite float whose exponent `exp2` is not negative. -/
def BigFloat.natValue (x : BigFloat) : Nat := x.mant * 2 ^ x.exp2.toNat

/-- The float is finite, positive, of precision `p`, an integer, and at most
`5^a * (2^128 / (2^128 - 1))^c`: a power of five after at most `c` roundings
at 128 bits or more. -/
def approxPow5 (x : BigFloat) (p a c : Nat) : Prop :=
  x.form = Form.finite ∧ x.prec = p ∧ x.neg = false ∧ 0 < x.mant ∧ 0 ≤ x.exp2 ∧
    x.natValue * (2 ^ 128 - 1) ^ c ≤ 5 ^ a * (2 ^ 128) ^ c

/-- A mantissa below `2^64` and an exponent of a value `M * 2^e` whose product
with 100, rounded to 64 bits, is `2^63` or more: the value is at least
`2^63 / 100`, or it is the largest 64-bit float below `2^63 / 100`, for which
`100 * M * 2^(-7)` is `2^63 - 0.1875`, or above it in its binade. -/
def nearSaturation (M : Nat) (e : Int) : Prop :=
  0 < M ∧ M < 2 ^ 64 ∧
    ((0 ≤ e ∧ 2 ^ 63 ≤ 100 * M * 2 ^ e.toNat) ∨ (e < 0 ∧ 2 ^ 63 * 2 ^ (-e).toNat ≤ 100 * M) ∨
      (e = -7 ∧ 11805916207174113034 ≤ M))

/-- The float is an infinity of sign `neg`, or a finite float of precision 64
and sign `neg` close enough to saturation. -/
def saturating (f : BigFloat) (neg : Bool) : Prop :=
  (f.form = Form.inf ∧ f.neg = neg) ∨
    ∃ M e, f = ⟨64, neg, Form.finite, M, e⟩ ∧ nearSaturation M e

/-- The binary exponent that `(*Float).scan` checks against the exponent range
for a decimal number with integer digits `ip` and fractional digits `fp`: the
length in bits of the integer written by all the digits, less the number of
fractional digits. -/
def decimalExp2 (ip fp : List Char) : Int :=
  (bitLen (decimalValue (ip ++ fp)) : Int) - (fp.length : Int)

/-- A string of 700000000 digits `9`. -/
def longNines : String := String.mk ('9' :: List.replicate 699999999 '9')

/-! ## Basic facts -/

theorem parseToInt64_error (s : String) (h : ¬ parsesOK s) :
    parseToInt64 s = (0, some ("invalid value: " ++ s)) := by
  unfold parsesOK parseToInt64 at h
  unfold parseToInt64
  cases hs : BigFloat.SetString s with
  | none => rfl
  | some f => rw [hs] at h; exact absurd rfl h

theorem parseToInt64_ok (s : String) (h : parsesOK s) :
    parseToInt64 s = ((parseToInt64 s).1, none) := by
  unfold parsesOK at h
  exact Prod.ext rfl h

theorem Atoi_ok (isPrintTab : Nat → Bool) (s : String) (h : atoiOK isPrintTab s) :
    Atoi isPrintTab s = ((Atoi isPrintTab s).1, none) := by
  unfold atoiOK at h
  exact Prod.ext rfl h

theorem Atoi_error (isPrintTab : Nat → Bool) (s : String) (h : ¬ atoiOK isPrintTab s) :
    Atoi isPrintTab s = ((Atoi isPrintTab s).1, some ((Atoi isPrintTab s).2.getD "")) := by
  unfold atoiOK at h
  cases hs : (Atoi isPrintTab s).2 with
  | none => exact absurd hs h
  | some m => exact Prod.ext rfl (by simp [hs])

theorem wrap64_of_inInt64 (x : Int) (h : inInt64 x) : wrap64 x = x := by
  unfold inInt64 minInt64 maxInt64 at h
  unfold wrap64
  omega

theorem wrap64_add_wrap64 (x y : Int) : wrap64 (wrap64 x + y) = wrap64 (x + y) := by
  unfold wrap64
  omega

/-- One step of the loop on a subtotal that passes its checks. -/
theorem subtotalLoop_pass (isPrintTab : Nat → Bool) (st : TaxSubtotal)
    (rest : List TaxSubtotal) (i : Nat) (s : Int) (h : subtotalPasses isPrintTab st) :
    subtotalLoop isPrintTab (st :: rest) i s =
      subtotalLoop isPrintTab rest (i + 1) (wrap64 (s + taxCents st)) := by
  obtain ⟨⟨h1, h2, h3⟩, h4⟩ := h
  unfold taxableCents percentOf taxCents at h4
  rw [subtotalLoop, parseToInt64_ok _ h1, parseToInt64_ok _ h2, Atoi_ok _ _ h3]
  simp only [h4, ne_eq, not_true_eq_false, if_false, taxCents]

/-- One step of the loop on a subtotal that fails a check: the loop stops with
the error of the first failing check. -/
theorem subtotalLoop_fail (isPrintTab : Nat → Bool) (st : TaxSubtotal)
    (rest : List TaxSubtotal) (i : Nat) (s : Int) (h : ¬ subtotalPasses isPrintTab st) :
    subtotalLoop isPrintTab (st :: rest) i s =
      Except.error (firstFailureMessage isPrintTab i st) := by
  unfold firstFailureMessage
  by_cases h1 : parsesOK st.TaxableAmount
  · by_cases h2 : parsesOK st.TaxAmount
    · by_cases h3 : atoiOK isPrintTab st.TaxCategory.Percent
      · have h4 : ¬ Int.tdiv (wrap64 ((parseToInt64 st.TaxableAmount).1 *
            (Atoi isPrintTab st.TaxCategory.Percent).1)) 100 = (parseToInt64 st.TaxAmount).1 :=
          fun h4 => h ⟨⟨h1, h2, h3⟩, h4⟩
        rw [subtotalLoop, parseToInt64_ok _ h1, parseToInt64_ok _ h2, Atoi_ok _ _ h3]
        simp only [h1, h2, h3, h4, ne_eq, not_true_eq_false, not_false_eq_true, if_true,
          if_false, taxCalcMessage, taxableCents, percentOf, taxCents]
      · rw [subtotalLoop, parseToInt64_ok _ h1, parseToInt64_ok _ h2, Atoi_error _ _ h3]
        simp only [h1, h2, h3, not_true_eq_false, not_false_eq_true, if_true, if_false,
          Option.getD_some]
    · rw [subtotalLoop, parseToInt64_ok _ h1, parseToInt64_error _ h2]
      simp only [h1, h2, not_true_eq_false, not_false_eq_true, if_true, if_false]
      rw [String.append_assoc _ "]: " _, ← String.append_assoc "]: " _ _,
        ← String.append_assoc _ _ st.TaxAmount]
      rfl
  · rw [subtotalLoop, parseToInt64_error _ h1]
    simp only [h1, not_false_eq_true, if_true]
    rw [String.append_assoc _ "]: " _, ← String.append_assoc "]: " _ _,
      ← String.append_assoc _ _ st.TaxableAmount]
    rfl

/-- The loop over a prefix of passing subtotals followed by a failing one stops
at the failing one, whatever follows. -/
theorem subtotalLoop_first_failure (isPrintTab : Nat → Bool) (pre : List TaxSubtotal)
    (st : TaxSubtotal) (post : List TaxSubtotal) (i : Nat) (s : Int)
    (hpre : ∀ x ∈ pre, subtotalPasses isPrintTab x) (h : ¬ subtotalPasses isPrintTab st) :
    subtotalLoop isPrintTab (pre ++ st :: post) i s =
      Except.error (firstFailureMessage isPrintTab (i + pre.length) st) := by
  induction pre generalizing i s with
  | nil => simpa using subtotalLoop_fail isPrintTab st post i s h
  | cons x pre ih =>
    rw [List.cons_append, subtotalLoop_pass isPrintTab x _ i s (hpre x (List.mem_cons_self _ _)),
      ih (i + 1) _ (fun y hy => hpre y (List.mem_cons_of_mem _ hy))]
    simp only [List.length_cons]
    congr 2
    omega

/-- The loop over passing subtotals returns the wrapped sum. -/
theorem subtotalLoop_all_pass (isPrintTab : Nat → Bool) (l : List TaxSubtotal) (i : Nat)
    (s : Int) (h : ∀ x ∈ l, subtotalPasses isPrintTab x) :
    subtotalLoop isPrintTab l i s = Except.ok (wrap64 (wrap64 s + taxSum l)) ∨
      (l = [] ∧ subtotalLoop isPrintTab l i s = Except.ok s) := by
  induction l generalizing i s with
  | nil => right; exact ⟨rfl, rfl⟩
  | cons x l ih =>
    left
    rw [subtotalLoop_pass isPrintTab x l i s (h x (List.mem_cons_self _ _))]
    rcases ih (i + 1) (wrap64 (s + taxCents x))
        (fun y hy => h y (List.mem_cons_of_mem _ hy)) with h1 | ⟨h1, h2⟩
    · rw [h1]
      congr 1
      simp only [taxSum, List.map_cons, List.sum_cons]
      unfold wrap64
      omega
    · rw [h2, h1]
      congr 1
      simp only [taxSum, List.map_cons, List.sum_cons, List.map_nil, List.sum_nil]
      unfold wrap64
      omega

theorem invalid_LineExtensionAmount (isPrintTab : Nat → Bool) (invoice : Invoice)
    (h : ¬ parsesOK invoice.LineExtensionAmount) :
    CalculateInvoiceTotal isPrintTab invoice =
      (0, some ("invalid LineExtensionAmount: invalid value: " ++
        invoice.LineExtensionAmount)) := by
  unfold CalculateInvoiceTotal
  rw [parseToInt64_error _ h]
  show (0, some (_ ++ (_ ++ _))) = _
  rw [← String.append_assoc]
  rfl

theorem invalid_TaxTotal_TaxAmount (isPrintTab : Nat → Bool) (invoice : Invoice)
    (hline : parsesOK invoice.LineExtensionAmount)
    (h : ¬ parsesOK invoice.TaxTotal.TaxAmount) :
    CalculateInvoiceTotal isPrintTab invoice =
      (0, some ("invalid TaxAmount in TaxTotal: invalid value: " ++
        invoice.TaxTotal.TaxAmount)) := by
  unfold CalculateInvoiceTotal
  rw [parseToInt64_ok _ hline, parseToInt64_error _ h]
  show (0, some (_ ++ (_ ++ _))) = _
  rw [← String.append_assoc]
  rfl

/-- The loop started as in `CalculateInvoiceTotal` over passing subtotals returns
the sum of the tax cents wrapped to `int64`. -/
theorem subtotalLoop_zero (isPrintTab : Nat → Bool) (l : List TaxSubtotal)
    (h : ∀ x ∈ l, subtotalPasses isPrintTab x) :
    subtotalLoop isPrintTab l 0 0 = Except.ok (wrap64 (taxSum l)) := by
  rcases subtotalLoop_all_pass isPrintTab l 0 0 h with h1 | ⟨h1, h2⟩
  · rw [h1]
    congr 1
    unfold wrap64
    omega
  · rw [h2, h1]
    rfl

/-- A list either satisfies a property throughout or splits at a first element
that violates it. -/
theorem list_all_or_first {α : Type} (P : α → Prop) (l : List α) :
    (∀ x ∈ l, P x) ∨
      ∃ pre st post, l = pre ++ st :: post ∧ (∀ x ∈ pre, P x) ∧ ¬ P st := by
  induction l with
  | nil => left; intro x hx; exact absurd hx (List.not_mem_nil x)
  | cons a l ih =>
    by_cases ha : P a
    · rcases ih with h | ⟨pre, st, post, h1, h2, h3⟩
      · left
        intro x hx
        rcases List.mem_cons.mp hx with rfl | hx
        · exact ha
        · exact h x hx
      · right
        refine ⟨a :: pre, st, post, by rw [h1]; rfl, ?_, h3⟩
        intro x hx
        rcases List.mem_cons.mp hx with rfl | hx
        · exact ha
        · exact h2 x hx
    · right
      exact ⟨[], a, l, rfl, fun x hx => absurd hx (List.not_mem_nil x), ha⟩

/-- The function after its two header parses succeeded. -/
theorem CalculateInvoiceTotal_of_headers (isPrintTab : Nat → Bool) (invoice : Invoice)
    (hl : parsesOK invoice.LineExtensionAmount) (ht : parsesOK invoice.TaxTotal.TaxAmount) :
    CalculateInvoiceTotal isPrintTab invoice =
      match subtotalLoop isPrintTab invoice.TaxTotal.TaxSubtotal 0 0 with
      | Except.error msg => (0, some msg)
      | Except.ok sumTaxSubtotal =>
        if sumTaxSubtotal ≠ totalTaxCents invoice then
          (0, some (taxSumMessage (totalTaxCents invoice) sumTaxSubtotal))
        else (wrap64 (lineCents invoice + totalTaxCents invoice), none) := by
  rw [CalculateInvoiceTotal, parseToInt64_ok _ hl, parseToInt64_ok _ ht]
  rfl

/-- With valid headers and a first failing subtotal the function returns 0 and
the error of that subtotal. -/
theorem CalculateInvoiceTotal_first_failure (isPrintTab : Nat → Bool) (invoice : Invoice)
    (pre : List TaxSubtotal) (st : TaxSubtotal) (post : List TaxSubtotal)
    (hl : parsesOK invoice.LineExtensionAmount) (ht : parsesOK invoice.TaxTotal.TaxAmount)
    (hsub : invoice.TaxTotal.TaxSubtotal = pre ++ st :: post)
    (hpre : ∀ x ∈ pre, subtotalPasses isPrintTab x) (h : ¬ subtotalPasses isPrintTab st) :
    CalculateInvoiceTotal isPrintTab invoice =
      (0, some (firstFailureMessage isPrintTab pre.length st)) := by
  rw [CalculateInvoiceTotal_of_headers _ _ hl ht, hsub,
    subtotalLoop_first_failure isPrintTab pre st post 0 0 hpre h]
  simp

/-- With valid headers and passing subtotals the function compares the wrapped
sum with the declared total. -/
theorem CalculateInvoiceTotal_all_pass (isPrintTab : Nat → Bool) (invoice : Invoice)
    (hl : parsesOK invoice.LineExtensionAmount) (ht : parsesOK invoice.TaxTotal.TaxAmount)
    (h : ∀ x ∈ invoice.TaxTotal.TaxSubtotal, subtotalPasses isPrintTab x) :
    CalculateInvoiceTotal isPrintTab invoice =
      if wrap64 (taxSum invoice.TaxTotal.TaxSubtotal) ≠ totalTaxCents invoice then
        (0, some (taxSumMessage (totalTaxCents invoice)
          (wrap64 (taxSum invoice.TaxTotal.TaxSubtotal))))
      else (wrap64 (lineCents invoice + totalTaxCents invoice), none) := by
  rw [CalculateInvoiceTotal_of_headers _ _ hl ht, subtotalLoop_zero isPrintTab _ h]

theorem firstChar_append (a b : String) (h : a.data ≠ []) :
    firstChar (a ++ b) = firstChar a := by
  unfold firstChar
  rw [String.data_append]
  cases hd : a.data with
  | nil => exact absurd hd h
  | cons c cs => rfl

theorem firstChar_taxSumMessage (x y : Int) : firstChar (taxSumMessage x y) = some 't' := by
  unfold taxSumMessage
  rw [String.append_assoc, String.append_assoc, String.append_assoc,
    firstChar_append _ _ (by decide)]
  decide

theorem firstChar_firstFailureMessage (isPrintTab : Nat → Bool) (i : Nat) (st : TaxSubtotal) :
    firstChar (firstFailureMessage isPrintTab i st) = some 'i' := by
  unfold firstFailureMessage taxCalcMessage
  split_ifs
  all_goals
    simp only [String.append_assoc]
    rw [firstChar_append _ _ (by decide)]
    decide

/-- A successful result of the function means valid headers, passing subtotals
and a wrapped sum equal to the declared total. -/
theorem CalculateInvoiceTotal_ok_inv (isPrintTab : Nat → Bool) (invoice : Invoice)
    (h : (CalculateInvoiceTotal isPrintTab invoice).2 = none) :
    parsesOK invoice.LineExtensionAmount ∧ parsesOK invoice.TaxTotal.TaxAmount ∧
      (∀ x ∈ invoice.TaxTotal.TaxSubtotal, subtotalPasses isPrintTab x) ∧
      wrap64 (taxSum invoice.TaxTotal.TaxSubtotal) = totalTaxCents invoice := by
  by_cases hl : parsesOK invoice.LineExtensionAmount
  · by_cases ht : parsesOK invoice.TaxTotal.TaxAmount
    · rcases list_all_or_first (subtotalPasses isPrintTab) invoice.TaxTotal.TaxSubtotal with
        hall | ⟨pre, st, post, h1, h2, h3⟩
      · refine ⟨hl, ht, hall, ?_⟩
        rw [CalculateInvoiceTotal_all_pass _ _ hl ht hall] at h
        by_contra hne
        rw [if_pos hne] at h
        cases h
      · rw [CalculateInvoiceTotal_first_failure _ _ pre st post hl ht h1 h2 h3] at h
        cases h
    · rw [invalid_TaxTotal_TaxAmount _ _ hl ht] at h
      cases h
  · rw [invalid_LineExtensionAmount _ _ hl] at h
    cases h

/-- Without overflow the checks of the code are the exact checks, and the exact
sum of the tax cents stays in the `int64` range. -/
theorem loopNoOverflow_spec (isPrintTab : Nat → Bool) (l : List TaxSubtotal) (s : Int)
    (h : loopNoOverflow isPrintTab l s) :
    ((∀ x ∈ l, subtotalPasses isPrintTab x) ↔ (∀ x ∈ l, subtotalExact isPrintTab x)) ∧
      ((∀ x ∈ l, subtotalExact isPrintTab x) → l ≠ [] → inInt64 (s + taxSum l)) := by
  induction l generalizing s with
  | nil => exact ⟨by simp, fun _ h => absurd rfl h⟩
  | cons st rest ih =>
    have hstep : subtotalParses isPrintTab st →
        (subtotalPasses isPrintTab st ↔ subtotalExact isPrintTab st) := by
      intro hp
      have hfit := (h hp).1
      unfold subtotalPasses subtotalExact
      rw [wrap64_of_inInt64 _ hfit]
    have hrest : subtotalExact isPrintTab st →
        inInt64 (s + taxCents st) ∧ loopNoOverflow isPrintTab rest (s + taxCents st) :=
      fun he => (h he.1).2 he.2
    refine ⟨?_, ?_⟩
    · rw [List.forall_mem_cons, List.forall_mem_cons]
      constructor
      · rintro ⟨h1, h2⟩
        have he := (hstep h1.1).mp h1
        exact ⟨he, ((ih _ (hrest he).2).1).mp h2⟩
      · rintro ⟨h1, h2⟩
        exact ⟨(hstep h1.1).mpr h1, ((ih _ (hrest h1).2).1).mpr h2⟩
    · intro hall _
      rw [List.forall_mem_cons] at hall
      have hr := hrest hall.1
      by_cases hnil : rest = []
      · subst hnil
        simpa [taxSum] using hr.1
      · have := (ih _ hr.2).2 hall.2 hnil
        simpa [taxSum, add_assoc] using this

/-! ## Facts on `big.Float` rounding and on the formatter -/

theorem size_succ_div (n : Nat) (h : n ≠ 0) : Nat.size n = Nat.size (n / 2) + 1 := by
  apply le_antisymm
  · rw [Nat.size_le]
    have := Nat.lt_size_self (n / 2)
    rw [pow_succ]
    omega
  · rw [Nat.succ_le, Nat.lt_size]
    by_cases h2 : n / 2 = 0
    · rw [h2]
      simp
      omega
    · have h3 : Nat.size (n / 2) - 1 < Nat.size (n / 2) := by
        have := Nat.size_pos.mpr (Nat.pos_of_ne_zero h2)
        omega
      rw [Nat.lt_size] at h3
      have h4 : 2 ^ Nat.size (n / 2) = 2 * 2 ^ (Nat.size (n / 2) - 1) := by
        have := Nat.size_pos.mpr (Nat.pos_of_ne_zero h2)
        rw [← pow_succ']
        congr 1
        omega
      omega

theorem bitLenAux_eq_size (fuel n : Nat) (h : n ≤ fuel) : bitLenAux fuel n = Nat.size n := by
  induction fuel generalizing n with
  | zero =>
    have : n = 0 := by omega
    subst this
    simp [bitLenAux]
  | succ fuel ih =>
    unfold bitLenAux
    by_cases hn : n = 0
    · subst hn; simp
    · rw [if_neg hn, ih (n / 2) (by omega), ← size_succ_div n hn]

theorem bitLen_eq_size (n : Nat) : bitLen n = Nat.size n :=
  bitLenAux_eq_size n n le_rfl

theorem bitLen_le_iff (n k : Nat) : bitLen n ≤ k ↔ n < 2 ^ k := by
  rw [bitLen_eq_size, Nat.size_le]

theorem lt_bitLen_iff (n k : Nat) : k < bitLen n ↔ 2 ^ k ≤ n := by
  rw [bitLen_eq_size, Nat.lt_size]

/-- Arithmetic core of rounding to nearest even: `q` is cut by `t = r + 1` bits
to `m`, incremented according to the rounding and sticky bits. -/
theorem round_core (q r : Nat) (sbit : Bool) :
    let m := q / 2 ^ (r + 1)
    let inc := decide ((q / 2 ^ r) % 2 = 1) &&
      (sbit || decide (q % 2 ^ r ≠ 0) || decide (m % 2 = 1))
    let M := if inc = true then m + 1 else m
    2 * (M * 2 ^ (r + 1)) ≤ 2 * q + 2 ^ (r + 1) ∧
      2 * q + (if sbit = true then 2 else 0) ≤ 2 * (M * 2 ^ (r + 1)) + 2 ^ (r + 1) := by
  intro m inc M
  have hP : 0 < 2 ^ r := Nat.pow_pos (by norm_num)
  have h2 : 2 ^ (r + 1) = 2 * 2 ^ r := by rw [pow_succ]; ring
  have hq : 2 ^ (r + 1) * m + q % 2 ^ (r + 1) = q := Nat.div_add_mod q (2 ^ (r + 1))
  have hmod : q % 2 ^ (r + 1) = q % 2 ^ r + 2 ^ r * (q / 2 ^ r % 2) := by
    rw [pow_succ]; exact Nat.mod_mul
  have hlt : q % 2 ^ r < 2 ^ r := Nat.mod_lt _ hP
  have hb : q / 2 ^ r % 2 = 0 ∨ q / 2 ^ r % 2 = 1 := by omega
  have hm1 : (m + 1) * 2 ^ (r + 1) = 2 ^ (r + 1) * m + 2 ^ (r + 1) := by ring
  have hm0 : m * 2 ^ (r + 1) = 2 ^ (r + 1) * m := by ring
  by_cases hinc : inc = true
  · have hM : M = m + 1 := if_pos hinc
    rw [hM, hm1]
    simp only [inc, Bool.and_eq_true, Bool.or_eq_true, decide_eq_true_eq] at hinc
    obtain ⟨hr, _⟩ := hinc
    rw [hr] at hmod
    constructor
    · omega
    · split_ifs <;> omega
  · have hM : M = m := if_neg hinc
    rw [hM, hm0]
    simp only [inc, Bool.and_eq_true, Bool.or_eq_true, decide_eq_true_eq, not_and, not_or] at hinc
    rcases hb with hb | hb
    · rw [hb] at hmod
      constructor
      · omega
      · split_ifs <;> omega
    · obtain ⟨⟨hs, hst⟩, _⟩ := hinc hb
      rw [hb] at hmod
      have hst' : q % 2 ^ r = 0 := by
        by_contra hne
        exact hst hne
      constructor
      · omega
      · rw [if_neg hs]
        omega

/-- Rounding a finite value whose mantissa is longer than the precision: the
result is finite with a mantissa `M` of exactly `prec` bits and an exponent
raised by `t`, within half a unit in the last place of the input. -/
theorem round_spec (z : BigFloat) (sbit : Bool) (hf : z.form = Form.finite)
    (hp : 0 < z.prec) (hbits : z.prec < bitLen z.mant) (hexp : z.bexp < MaxExp) :
    ∃ M t : Nat, z.round sbit = { z with mant := M, exp2 := z.exp2 + (t : Int) } ∧ 0 < t ∧
      2 ^ (z.prec - 1) ≤ M ∧ M < 2 ^ z.prec ∧
      2 * (M * 2 ^ t) ≤ 2 * z.mant + 2 ^ t ∧
      2 * z.mant + (if sbit = true then 2 else 0) ≤ 2 * (M * 2 ^ t) + 2 ^ t := by
  obtain ⟨hc1, hc2⟩ := round_core z.mant (bitLen z.mant - z.prec - 1) sbit
  generalize hr : bitLen z.mant - z.prec - 1 = r at hc1 hc2
  generalize (if sbit = true then 2 else 0) = c at hc2 ⊢
  have hpos : 0 < 2 ^ (r + 1) := Nat.pow_pos (by norm_num)
  have hlo : 2 ^ (z.prec - 1) * 2 ^ (r + 1) ≤ z.mant := by
    have := (lt_bitLen_iff z.mant (bitLen z.mant - 1)).mp (by omega)
    rw [← pow_add]
    rwa [show bitLen z.mant - 1 = z.prec - 1 + (r + 1) by omega] at this
  have hhi : z.mant < 2 ^ z.prec * 2 ^ (r + 1) := by
    rw [← pow_add]
    exact (bitLen_le_iff _ _).mp (by omega)
  have hm_lo : 2 ^ (z.prec - 1) ≤ z.mant / 2 ^ (r + 1) :=
    (Nat.le_div_iff_mul_le hpos).mpr hlo
  have hm_hi : z.mant / 2 ^ (r + 1) < 2 ^ z.prec :=
    (Nat.div_lt_iff_lt_mul hpos).mpr hhi
  have hpp : 2 ^ z.prec = 2 * 2 ^ (z.prec - 1) := by
    rw [← pow_succ']
    congr 1
    omega
  unfold BigFloat.round
  rw [if_neg (by simp [hf]), if_neg (not_le.mpr hbits)]
  simp only [hr]
  split_ifs with hinc hcarry hov
  · exact absurd hov (not_le.mpr hexp)
  · refine ⟨2 ^ (z.prec - 1), r + 1 + 1, ?_, by omega, le_rfl, by omega, ?_, ?_⟩
    · simp only [Nat.cast_add, Nat.cast_one, add_assoc]
    · rw [if_pos hinc, hcarry, hpp] at hc1
      rw [pow_succ _ (r + 1)]
      have e : 2 ^ (z.prec - 1) * (2 ^ (r + 1) * 2) = 2 * 2 ^ (z.prec - 1) * 2 ^ (r + 1) := by
        ring
      rw [e]
      omega
    · rw [if_pos hinc, hcarry, hpp] at hc2
      rw [pow_succ _ (r + 1)]
      have e : 2 ^ (z.prec - 1) * (2 ^ (r + 1) * 2) = 2 * 2 ^ (z.prec - 1) * 2 ^ (r + 1) := by
        ring
      rw [e]
      omega
  · refine ⟨z.mant / 2 ^ (r + 1) + 1, r + 1, ?_, by omega, by omega, by omega, ?_, ?_⟩
    · simp only [Nat.cast_add, Nat.cast_one]
    · rw [if_pos hinc] at hc1
      exact hc1
    · rw [if_pos hinc] at hc2
      exact hc2
  · refine ⟨z.mant / 2 ^ (r + 1), r + 1, ?_, by omega, hm_lo, hm_hi, ?_, ?_⟩
    · simp only [Nat.cast_add, Nat.cast_one]
    · rw [if_neg hinc] at hc1
      exact hc1
    · rw [if_neg hinc] at hc2
      exact hc2

theorem bitLen_hundred : bitLen 100 = 7 := by decide

theorem quo_bound_upper (A X P : Nat) (h1 : 2 * X ≤ 2 * (A / 100) + P) :
    200 * X ≤ 2 * A + 100 * P := by
  omega

theorem quo_bound_lower (A X P c : Nat) (h2 : 2 * (A / 100) + c ≤ 2 * X + P)
    (hc : A % 100 ≠ 0 → c = 2) : 2 * A ≤ 200 * X + 100 * P := by
  by_cases h : A % 100 = 0
  · omega
  · have := hc h
    omega

/-- The quotient by `big.NewFloat(100)` of a positive integer below `2^63 + 1`
held at precision 64: a finite value `M * 2^(-s)` with `s ≥ 7` within
`50 * 2^(-s)` of `a / 100`. -/
theorem Quo_hundred_spec (a : Nat) (neg : Bool) (ha : 0 < a) (hb : a ≤ 2 ^ 63) :
    ∃ M s : Nat,
      BigFloat.Quo { prec := 64, neg := neg, form := Form.finite, mant := a, exp2 := 0 }
          { prec := 64, neg := neg, form := Form.finite, mant := a, exp2 := 0 } hundred =
        { prec := 64, neg := neg, form := Form.finite, mant := M, exp2 := -(s : Int) } ∧
      7 ≤ s ∧ 200 * M ≤ 2 * (a * 2 ^ s) + 100 ∧ 2 * (a * 2 ^ s) ≤ 200 * M + 100 := by
  have hq_lo : 2 ^ 66 ≤ a * 2 ^ 73 / 100 := by
    rw [Nat.le_div_iff_mul_le (by norm_num)]
    have : 2 ^ 66 * 100 ≤ 1 * 2 ^ 73 := by norm_num
    exact le_trans this (Nat.mul_le_mul_right _ ha)
  have hq_hi : a * 2 ^ 73 / 100 < 2 ^ 130 := by
    rw [Nat.div_lt_iff_lt_mul (by norm_num)]
    have : 2 ^ 63 * 2 ^ 73 < 2 ^ 130 * 100 := by norm_num
    exact lt_of_le_of_lt (Nat.mul_le_mul_right _ hb) this
  have hbl_lo : 66 < bitLen (a * 2 ^ 73 / 100) := (lt_bitLen_iff _ _).mpr hq_lo
  have hbl_hi : bitLen (a * 2 ^ 73 / 100) ≤ 130 := (bitLen_le_iff _ _).mpr hq_hi
  obtain ⟨M, t, hround, ht, hMlo, hMhi, h1, h2⟩ :=
    round_spec ⟨64, neg, Form.finite, a * 2 ^ 73 / 100, -73⟩
      (decide (a * 2 ^ 73 % 100 ≠ 0)) rfl (by norm_num)
      (by show 64 < bitLen (a * 2 ^ 73 / 100); omega)
      (by show (-73 : Int) + bitLen (a * 2 ^ 73 / 100) < MaxExp; unfold MaxExp; omega)
  simp only at hround h1 h2 hMlo hMhi
  have hP : 0 < 2 ^ t := Nat.pow_pos (by norm_num)
  have hX : 2 ^ 63 * 2 ^ t ≤ M * 2 ^ t := Nat.mul_le_mul_right _ hMlo
  have ht66 : t ≤ 66 := by
    by_contra hcon
    have h67 : 2 ^ 67 ≤ 2 ^ t := Nat.pow_le_pow_right (by norm_num) (by omega)
    omega
  have hpow : a * 2 ^ (73 - t) * 2 ^ t = a * 2 ^ 73 := by
    rw [mul_assoc, ← pow_add]
    congr 2
    omega
  have hb1 : 200 * M ≤ 2 * (a * 2 ^ (73 - t)) + 100 := by
    apply Nat.le_of_mul_le_mul_right _ hP
    have e1 : 200 * M * 2 ^ t = 200 * (M * 2 ^ t) := by ring
    have e2 : (2 * (a * 2 ^ (73 - t)) + 100) * 2 ^ t =
        2 * (a * 2 ^ (73 - t) * 2 ^ t) + 100 * 2 ^ t := by ring
    rw [e1, e2, hpow]
    exact quo_bound_upper _ _ _ h1
  have hb2 : 2 * (a * 2 ^ (73 - t)) ≤ 200 * M + 100 := by
    apply Nat.le_of_mul_le_mul_right _ hP
    have e1 : (200 * M + 100) * 2 ^ t = 200 * (M * 2 ^ t) + 100 * 2 ^ t := by ring
    have e2 : 2 * (a * 2 ^ (73 - t)) * 2 ^ t = 2 * (a * 2 ^ (73 - t) * 2 ^ t) := by ring
    rw [e1, e2, hpow]
    refine quo_bound_lower _ _ _ _ h2 ?_
    intro hR
    exact if_pos (decide_eq_true hR)
  refine ⟨M, 73 - t, ?_, by omega, hb1, hb2⟩
  have e1 : (if (64 : ℕ) = 0 then (64 : ℕ) ⊔ 53 else 64) = 64 := rfl
  have e3 : (neg != false) = neg := by cases neg <;> rfl
  have e4 : (0 : Int) - 0 - ((64 + 2 + 7 : ℕ) : Int) = -73 := by norm_num
  have e5 : (64 + 2 + 7 : ℕ) = 73 := rfl
  unfold BigFloat.Quo BigFloat.uquo BigFloat.setExpAndRound BigFloat.bexp hundred
  simp only [bitLen_hundred, e1, e3, e4, e5, and_self, if_true]
  rw [if_neg (by unfold MinExp; omega), if_neg (by unfold MaxExp; omega), hround]
  congr 1
  omega

/-- Rounding `N / D` to the nearest integer gives `a` when `N` is within 50 of
`a * D` and `D` is at least 128. -/
theorem round_to_cents (N D a : Nat) (hD : 128 ≤ D) (h1 : 2 * N ≤ 2 * (a * D) + 100)
    (h2 : 2 * (a * D) ≤ 2 * N + 100) :
    (if 2 * (N % D) > D ∨ (2 * (N % D) = D ∧ N / D % 2 = 1) then N / D + 1 else N / D) = a := by
  have hDpos : 0 < D := by omega
  by_cases h : a * D ≤ N
  · have hdm : N / D = a ∧ N % D = N - a * D :=
      (Nat.div_mod_unique hDpos).mpr ⟨by rw [Nat.mul_comm D a]; omega, by omega⟩
    rw [hdm.1, hdm.2, if_neg (by omega)]
  · have ha : 1 ≤ a := by
      rcases Nat.eq_zero_or_pos a with h0 | h0
      · rw [h0] at h; simp at h
      · exact h0
    have hmul : a * D = (a - 1) * D + D := by
      have : a = (a - 1) + 1 := by omega
      conv_lhs => rw [this]
      ring
    have hdm : N / D = a - 1 ∧ N % D = N - (a - 1) * D :=
      (Nat.div_mod_unique hDpos).mpr ⟨by rw [Nat.mul_comm D (a - 1)]; omega, by omega⟩
    rw [hdm.1, hdm.2, if_pos (by left; omega)]
    omega

theorem padDigits_two (n : Nat) :
    padDigits 2 n = [Nat.digitChar (n / 10 % 10), Nat.digitChar (n % 10)] := by
  simp [padDigits]

/-- `Text('f', 2)` of a finite value `M * 2^(-s)` within `50 * 2^(-s)` of
`a / 100`, `s ≥ 7`: the digits of `a / 100`, a point, and `a % 100` on two
digits. -/
theorem Text_two_spec (neg : Bool) (M s a : Nat) (hs : 7 ≤ s)
    (h1 : 200 * M ≤ 2 * (a * 2 ^ s) + 100) (h2 : 2 * (a * 2 ^ s) ≤ 200 * M + 100) :
    BigFloat.Text { prec := 64, neg := neg, form := Form.finite, mant := M, exp2 := -(s : Int) } 2 =
      (if neg = true then "-" else "") ++ Nat.repr (a / 100) ++ "." ++
        String.mk [Nat.digitChar (a % 100 / 10), Nat.digitChar (a % 10)] := by
  have hD : 128 ≤ 2 ^ s := by
    have : 2 ^ 7 ≤ 2 ^ s := Nat.pow_le_pow_right (by norm_num) hs
    simpa using this
  have hr := round_to_cents (M * 10 ^ 2) (2 ^ s) a hD (by omega) (by omega)
  have hneg : ¬ (0 : Int) ≤ -(s : Int) := by omega
  have htn : (-(-(s : Int))).toNat = s := by omega
  unfold BigFloat.Text
  simp only [hneg, htn, if_false, or_false, reduceCtorEq, hr]
  have e100 : (10 : ℕ) ^ 2 = 100 := by norm_num
  have ed1 : a % 100 / 10 % 10 = a % 100 / 10 := by omega
  have ed2 : a % 100 % 10 = a % 10 := by omega
  rw [padDigits_two, e100, ed1, ed2, ← String.append_assoc]

theorem SetInt64_spec (v : Int) (h : inInt64 v) (hv : v ≠ 0) :
    BigFloat.SetInt64 v =
      { prec := 64, neg := decide (v < 0), form := Form.finite, mant := v.natAbs, exp2 := 0 } := by
  unfold inInt64 minInt64 maxInt64 at h
  have hu : ((if v < 0 then wrap64 (-v) else v) % 2 ^ 64).toNat = v.natAbs := by
    unfold wrap64
    split_ifs <;> omega
  have hpos : v.natAbs ≠ 0 := by omega
  have hlen : bitLen v.natAbs ≤ 64 := (bitLen_le_iff _ _).mpr (by omega)
  unfold BigFloat.SetInt64 BigFloat.setBits64
  simp only [hu, if_neg hpos, if_true]
  unfold BigFloat.round
  simp only [ne_eq, not_true_eq_false, if_false, hlen, if_true]

/-- The formatter on every `int64`: sign, integer part of `|v| / 100`, a point
and `|v| % 100` on two digits. -/
theorem formatInt64ToString_spec (v : Int) (h : inInt64 v) :
    formatInt64ToString v =
      (if v < 0 then "-" else "") ++ Nat.repr (v.natAbs / 100) ++ "." ++
        String.mk [Nat.digitChar (v.natAbs % 100 / 10), Nat.digitChar (v.natAbs % 10)] := by
  by_cases hv : v = 0
  · subst hv
    decide
  · have hpos : 0 < v.natAbs := by omega
    have hb : v.natAbs ≤ 2 ^ 63 := by
      unfold inInt64 minInt64 maxInt64 at h
      omega
    obtain ⟨M, s, hq, hs, h1, h2⟩ := Quo_hundred_spec v.natAbs (decide (v < 0)) hpos hb
    unfold formatInt64ToString
    simp only [SetInt64_spec v h hv, hq]
    rw [Text_two_spec (decide (v < 0)) M s v.natAbs hs h1 h2]
    simp only [decide_eq_true_eq]

/-! ## Facts for the later claims -/

theorem lt_two_pow_bitLen (m : Nat) : m < 2 ^ bitLen m :=
  (bitLen_le_iff m (bitLen m)).mp le_rfl

/-- The truncated magnitude of a value with exponent at most 63 is below `2^63`. -/
theorem trunc_lt (m : Nat) (e : Int) (h : e + bitLen m ≤ 63) :
    (if 0 ≤ e then m * 2 ^ e.toNat else m / 2 ^ (-e).toNat) < 2 ^ 63 := by
  have hm := lt_two_pow_bitLen m
  split_ifs with he
  · have h1 : m * 2 ^ e.toNat < 2 ^ bitLen m * 2 ^ e.toNat :=
      Nat.mul_lt_mul_of_pos_right hm (Nat.pow_pos (by norm_num))
    have h2 : 2 ^ bitLen m * 2 ^ e.toNat ≤ 2 ^ 63 := by
      rw [← pow_add]
      exact Nat.pow_le_pow_right (by norm_num) (by omega)
    exact lt_of_lt_of_le h1 h2
  · rw [Nat.div_lt_iff_lt_mul (Nat.pow_pos (by norm_num))]
    have h2 : 2 ^ bitLen m ≤ 2 ^ 63 * 2 ^ (-e).toNat := by
      rw [← pow_add]
      exact Nat.pow_le_pow_right (by norm_num) (by omega)
    exact lt_of_lt_of_le hm h2

/-- `Int64` always returns a value of the `int64` range. -/
theorem Int64_inInt64 (x : BigFloat) : inInt64 x.Int64 := by
  unfold BigFloat.Int64
  cases hf : x.form with
  | zero => simp only; decide
  | inf => simp only; split_ifs <;> decide
  | finite =>
    simp only
    by_cases h0 : x.bexp ≤ 0
    · rw [if_pos h0]; decide
    · rw [if_neg h0]
      by_cases h63 : x.bexp ≤ 63
      · rw [if_pos h63]
        have ht := trunc_lt x.mant x.exp2 h63
        unfold inInt64 minInt64 maxInt64
        by_cases he : 0 ≤ x.exp2
        · rw [if_pos he] at ht
          simp only [if_pos he]
          generalize x.mant * 2 ^ x.exp2.toNat = n at ht ⊢
          split_ifs <;> omega
        · rw [if_neg he] at ht
          simp only [if_neg he]
          generalize x.mant / 2 ^ (-x.exp2).toNat = n at ht ⊢
          split_ifs <;> omega
      · rw [if_neg h63]
        split_ifs <;> decide

theorem parseToInt64_inInt64 (s : String) : inInt64 (parseToInt64 s).1 := by
  unfold parseToInt64
  cases BigFloat.SetString s with
  | none => show inInt64 0; decide
  | some f => exact Int64_inInt64 _

/-- The function returns a nil error exactly when both headers parse, every
subtotal passes its checks and the wrapped sum of the tax cents is the declared
total; the value is then the wrapped sum of the two header amounts. -/
theorem CalculateInvoiceTotal_ok_iff (isPrintTab : Nat → Bool) (invoice : Invoice) :
    (CalculateInvoiceTotal isPrintTab invoice).2 = none ↔
      (parsesOK invoice.LineExtensionAmount ∧ parsesOK invoice.TaxTotal.TaxAmount ∧
        (∀ x ∈ invoice.TaxTotal.TaxSubtotal, subtotalPasses isPrintTab x) ∧
        wrap64 (taxSum invoice.TaxTotal.TaxSubtotal) = totalTaxCents invoice) := by
  constructor
  · exact CalculateInvoiceTotal_ok_inv isPrintTab invoice
  · rintro ⟨hl, ht, hall, hs⟩
    rw [CalculateInvoiceTotal_all_pass _ _ hl ht hall, if_neg (not_not.mpr hs)]

theorem CalculateInvoiceTotal_ok_value (isPrintTab : Nat → Bool) (invoice : Invoice)
    (h : (CalculateInvoiceTotal isPrintTab invoice).2 = none) :
    CalculateInvoiceTotal isPrintTab invoice =
      (wrap64 (lineCents invoice + totalTaxCents invoice), none) := by
  obtain ⟨hl, ht, hall, hs⟩ := CalculateInvoiceTotal_ok_inv isPrintTab invoice h
  rw [CalculateInvoiceTotal_all_pass _ _ hl ht hall, if_neg (not_not.mpr hs)]

/-- Whenever the function returns an error, the value it returns is 0. -/
theorem CalculateInvoiceTotal_error_value (isPrintTab : Nat → Bool) (invoice : Invoice)
    (h : (CalculateInvoiceTotal isPrintTab invoice).2 ≠ none) :
    (CalculateInvoiceTotal isPrintTab invoice).1 = 0 := by
  by_cases hl : parsesOK invoice.LineExtensionAmount
  · by_cases ht : parsesOK invoice.TaxTotal.TaxAmount
    · rcases list_all_or_first (subtotalPasses isPrintTab) invoice.TaxTotal.TaxSubtotal with
        hall | ⟨pre, st, post, h1, h2, h3⟩
      · rw [CalculateInvoiceTotal_all_pass _ _ hl ht hall] at h ⊢
        split_ifs at h ⊢ with hne
        · rfl
        · exact absurd rfl h
      · rw [CalculateInvoiceTotal_first_failure _ _ pre st post hl ht h1 h2 h3]
    · rw [invalid_TaxTotal_TaxAmount _ _ hl ht]
  · rw [invalid_LineExtensionAmount _ _ hl]

theorem letter_facts (c : Char) (h : isASCIILetter c) :
    c ≠ '0' ∧ c ≠ '.' ∧ c ≠ '_' ∧ c ≠ '-' ∧ c ≠ '+' ∧ 10 ≤ digitVal c ∧ ¬ isDecDigit c := by
  refine ⟨?_, ?_, ?_, ?_, ?_, ?_, ?_⟩
  · rintro rfl; revert h; decide
  · rintro rfl; revert h; decide
  · rintro rfl; revert h; decide
  · rintro rfl; revert h; decide
  · rintro rfl; revert h; decide
  · unfold isASCIILetter at h
    unfold digitVal MaxBase
    split_ifs <;> omega
  · unfold isASCIILetter at h
    unfold isDecDigit
    omega

/-- The mantissa scanner reports an error on input that starts with a letter. -/
theorem natScan_letter (c : Char) (rest : List Char) (h : isASCIILetter c) :
    (natScan (c :: rest)).err = true := by
  obtain ⟨h0, hdot, hsep, _, _, hdig, _⟩ := letter_facts c h
  have hscan : natScan (c :: rest) = natScanLoop 10 (c :: rest) 0 0 none true Prev.dot false := by
    unfold natScan
    split
    · rename_i heq
      exact absurd (List.cons.inj heq).1 h0
    · rename_i heq
      exact absurd (List.cons.inj heq).1 h0
    · rfl
  rw [hscan, natScanLoop, if_neg (fun h' => hdot h'.1), if_neg hsep, if_pos hdig]
  rfl

/-- The float scanner rejects input that starts with a letter. -/
theorem scan_letter (c : Char) (rest : List Char) (h : isASCIILetter c) :
    BigFloat.scan (c :: rest) = none := by
  obtain ⟨_, _, _, hm, hp, _, _⟩ := letter_facts c h
  unfold BigFloat.scan
  simp only [hm, hp, or_self, if_false, natScan_letter c rest h, if_true]

/-- `parseToInt64` rejects the empty string and every string of ASCII letters
other than `Inf` and `inf`. -/
theorem letters_rejected (s : String) (hall : ∀ c ∈ s.toList, isASCIILetter c)
    (h1 : s ≠ "Inf") (h2 : s ≠ "inf") : ¬ parsesOK s := by
  have hnot : ∀ t : String, (∃ c ∈ t.toList, ¬ isASCIILetter c) → s ≠ t := by
    rintro t ⟨c, hc, hn⟩ rfl
    exact hn (hall c hc)
  have h3 : s ≠ "+Inf" := hnot _ ⟨'+', by decide, by decide⟩
  have h4 : s ≠ "+inf" := hnot _ ⟨'+', by decide, by decide⟩
  have h5 : s ≠ "-Inf" := hnot _ ⟨'-', by decide, by decide⟩
  have h6 : s ≠ "-inf" := hnot _ ⟨'-', by decide, by decide⟩
  have hscan : BigFloat.scan s.toList = none := by
    cases hs : s.toList with
    | nil => rfl
    | cons c rest => exact scan_letter c rest (hall c (by rw [hs]; exact List.mem_cons_self _ _))
  unfold parsesOK parseToInt64 BigFloat.SetString BigFloat.Parse
  simp only [h1, h2, h3, h4, h5, h6, or_self, if_false, hscan]
  simp

theorem parseUintLoop_ok_digits (cs : List Char) (n v : Nat)
    (h : parseUintLoop cs n = Except.ok v) : ∀ c ∈ cs, isDecDigit c := by
  induction cs generalizing n with
  | nil => intro c hc; exact absurd hc (List.not_mem_nil c)
  | cons d cs ih =>
    unfold parseUintLoop at h
    by_cases hd : 48 ≤ d.toNat ∧ d.toNat ≤ 57
    · rw [if_pos hd] at h
      split_ifs at h with hov
      intro c hc
      rcases List.mem_cons.mp hc with rfl | hc
      · exact hd
      · exact ih _ h c hc
    · rw [if_neg hd] at h
      cases h

/-- `strconv.Atoi` accepts only an optional sign followed by decimal digits. -/
theorem atoiOK_isPlainInt (isPrintTab : Nat → Bool) (s : String) (h : atoiOK isPrintTab s) :
    isPlainInt s := by
  unfold atoiOK Atoi at h
  unfold isPlainInt
  simp only at h
  generalize (if s.toList.head? = some '+' ∨ s.toList.head? = some '-' then s.toList.tail
    else s.toList) = body at h ⊢
  by_cases hb : body = []
  · rw [if_pos hb] at h
    cases h
  · rw [if_neg hb] at h
    refine ⟨hb, ?_⟩
    cases hp : parseUintLoop body 0 with
    | error e =>
      rw [hp] at h
      cases e <;> cases h
    | ok v => exact parseUintLoop_ok_digits body 0 v hp

theorem parseUintLoop_letter (c : Char) (cs : List Char) (n : Nat) (h : isASCIILetter c) :
    parseUintLoop (c :: cs) n = Except.error NumErr.invalid := by
  have hd := (letter_facts c h).2.2.2.2.2.2
  unfold isDecDigit at hd
  rw [parseUintLoop, if_neg hd]

/-- `strconv.Atoi` on a string of ASCII letters: `ErrSyntax`. -/
theorem Atoi_letters (isPrintTab : Nat → Bool) (s : String)
    (hall : ∀ c ∈ s.toList, isASCIILetter c) :
    Atoi isPrintTab s = (0, some (atoiError isPrintTab s NumErr.invalid)) := by
  unfold Atoi
  cases hs : s.toList with
  | nil => simp
  | cons c rest =>
    have hc : isASCIILetter c := hall c (by rw [hs]; exact List.mem_cons_self _ _)
    obtain ⟨_, _, _, hm, hp, _, _⟩ := letter_facts c hc
    have hh : ¬ ((c :: rest).head? = some '+' ∨ (c :: rest).head? = some '-') := by
      simp [hm, hp]
    simp only [hh, if_false, parseUintLoop_letter c rest 0 hc]
    simp

theorem appendEscapedRune_letter (isPrintTab : Nat → Bool) (c : Char) (h : isASCIILetter c) :
    appendEscapedRune isPrintTab c = [c] := by
  unfold isASCIILetter at h
  unfold appendEscapedRune IsPrint
  simp only
  rw [if_neg (by omega), if_pos]
  rw [if_pos (by omega), if_pos (by omega)]

theorem flatten_escaped_letters (isPrintTab : Nat → Bool) (cs : List Char)
    (hall : ∀ c ∈ cs, isASCIILetter c) :
    (cs.map (appendEscapedRune isPrintTab)).flatten = cs := by
  induction cs with
  | nil => rfl
  | cons c cs ih =>
    rw [List.map_cons, List.flatten_cons, appendEscapedRune_letter _ c (hall c (List.mem_cons_self _ _)),
      ih (fun d hd => hall d (List.mem_cons_of_mem _ hd))]
    rfl

/-- The text of the `strconv.Atoi` error on a string of ASCII letters. -/
theorem atoiError_letters (isPrintTab : Nat → Bool) (s : String)
    (hall : ∀ c ∈ s.toList, isASCIILetter c) :
    atoiError isPrintTab s NumErr.invalid =
      "strconv.Atoi: parsing " ++ String.mk [Char.ofNat 34] ++ s ++ String.mk [Char.ofNat 34] ++
        ": invalid syntax" := by
  unfold atoiError Quote
  rw [flatten_escaped_letters isPrintTab _ hall]
  apply String.ext
  simp only [String.data_append, List.append_assoc, String.toList]
  rfl

theorem round_eq (p : Nat) (b : Bool) (m : Nat) (e : Int) (s : Bool) :
    (⟨p, b, Form.finite, m, e⟩ : BigFloat).round s =
      { (⟨p, false, Form.finite, m, e⟩ : BigFloat).round s with neg := b } := by
  unfold BigFloat.round BigFloat.bexp
  simp only
  split_ifs <;> rfl

/-- The result of `setExpAndRound` depends on the receiver only through its
precision, and carries its sign. -/
theorem setExpAndRound_eq (p : Nat) (b : Bool) (f : Form) (m : Nat) (e : Int) (M : Nat)
    (E : Int) (s : Bool) :
    (⟨p, b, f, m, e⟩ : BigFloat).setExpAndRound M E s =
      { (⟨p, false, Form.zero, 0, 0⟩ : BigFloat).setExpAndRound M E s with neg := b } := by
  unfold BigFloat.setExpAndRound BigFloat.bexp
  simp only
  split_ifs
  · rfl
  · rfl
  · rw [round_eq p b M E s]

/-- Division of a finite value with the opposite sign gives the opposite
quotient. -/
theorem Quo_negate (x y : BigFloat) (hx : x.form = Form.finite) :
    BigFloat.Quo x.negate x.negate y = (BigFloat.Quo x x y).negate := by
  obtain ⟨p, b, f, m, e⟩ := x
  obtain ⟨p', b', f', m', e'⟩ := y
  simp only at hx
  subst hx
  unfold BigFloat.Quo BigFloat.uquo
  simp only [BigFloat.negate, true_and, false_and, or_false, reduceCtorEq, false_or, if_false]
  by_cases hy : f' = Form.finite
  · simp only [hy, if_true]
    rw [setExpAndRound_eq _ ((!b) != b'), setExpAndRound_eq _ (b != b')]
    simp only [BigFloat.mk.injEq, true_and, and_true]
    cases b <;> cases b' <;> rfl
  · simp only [hy, if_false]
    split_ifs <;> (cases b <;> cases b' <;> rfl)

/-- Multiplication of a value with the opposite sign gives the opposite
product, when one of the factors is finite. -/
theorem Mul_negate (x y : BigFloat) (h : x.form = Form.finite ∨ y.form = Form.finite) :
    BigFloat.Mul x.negate x.negate y = (BigFloat.Mul x x y).negate := by
  obtain ⟨p, b, f, m, e⟩ := x
  obtain ⟨p', b', f', m', e'⟩ := y
  simp only at h
  unfold BigFloat.Mul BigFloat.umul
  simp only [BigFloat.negate]
  by_cases hxy : f = Form.finite ∧ f' = Form.finite
  · simp only [hxy, and_self, if_true]
    rw [setExpAndRound_eq _ ((!b) != b'), setExpAndRound_eq _ (b != b')]
    simp only [BigFloat.mk.injEq, true_and, and_true]
    cases b <;> cases b' <;> rfl
  · rw [if_neg hxy, if_neg hxy]
    have hnan : ¬ ((f = Form.zero ∧ f' = Form.inf) ∨ (f = Form.inf ∧ f' = Form.zero)) := by
      rintro (⟨h1, h2⟩ | ⟨h1, h2⟩) <;> rcases h with h | h <;> simp_all
    rw [if_neg hnan, if_neg hnan]
    split_ifs <;> (cases b <;> cases b' <;> rfl)

theorem round_negate (z : BigFloat) (sbit : Bool) (hz : z.form = Form.finite) :
    z.negate.round sbit = (z.round sbit).negate := by
  obtain ⟨p, b, f, m, e⟩ := z
  simp only at hz
  subst hz
  unfold BigFloat.negate
  simp only
  rw [round_eq p (!b), round_eq p b]


theorem round_negate_mk (p : Nat) (b : Bool) (m : Nat) (e : Int) (sbit : Bool) :
    (⟨p, !b, Form.finite, m, e⟩ : BigFloat).round sbit =
      ((⟨p, b, Form.finite, m, e⟩ : BigFloat).round sbit).negate :=
  round_negate ⟨p, b, Form.finite, m, e⟩ sbit rfl

theorem Quo_negate_mk (p : Nat) (b : Bool) (m : Nat) (e : Int) (y : BigFloat) :
    BigFloat.Quo ⟨p, !b, Form.finite, m, e⟩ ⟨p, !b, Form.finite, m, e⟩ y =
      (BigFloat.Quo ⟨p, b, Form.finite, m, e⟩ ⟨p, b, Form.finite, m, e⟩ y).negate :=
  Quo_negate ⟨p, b, Form.finite, m, e⟩ y rfl

theorem Mul_negate_mk (p : Nat) (b : Bool) (m : Nat) (e : Int) (y : BigFloat) :
    BigFloat.Mul ⟨p, !b, Form.finite, m, e⟩ ⟨p, !b, Form.finite, m, e⟩ y =
      (BigFloat.Mul ⟨p, b, Form.finite, m, e⟩ ⟨p, b, Form.finite, m, e⟩ y).negate :=
  Mul_negate ⟨p, b, Form.finite, m, e⟩ y (Or.inl rfl)

/-- `(*Float).scan` is the sign followed by `scanBody`. -/
theorem scan_cons_eq (c : Char) (rest : List Char) :
    BigFloat.scan (c :: rest) =
      scanBody (decide (c = '-')) (if c = '-' ∨ c = '+' then rest else c :: rest) := by
  rfl

theorem scanFinish_negate (mres : Nat) (exp2 exp5 : Int) (rest : List Char) :
    scanFinish true mres exp2 exp5 rest =
      (scanFinish false mres exp2 exp5 rest).map (fun p => (p.1.negate, p.2)) := by
  unfold scanFinish
  split_ifs
  · simp only [Option.map_some']
    rw [← round_negate_mk]
    rfl
  · simp only [Option.map_some']
    rw [← Quo_negate_mk]
    rfl
  · simp only [Option.map_some']
    rw [← Mul_negate_mk]
    rfl
  · rfl

theorem scanBody_negate (s1 : List Char) :
    scanBody true s1 = (scanBody false s1).map (fun p => (p.1.negate, p.2)) := by
  unfold scanBody
  split_ifs
  · rfl
  · rfl
  · rfl
  · exact scanFinish_negate _ _ _ _

/-- Scanning a number with a `-` in front gives the opposite value. -/
theorem scan_minus (c : Char) (cs : List Char) (hm : c ≠ '-') (hp : c ≠ '+') :
    BigFloat.scan ('-' :: c :: cs) =
      (BigFloat.scan (c :: cs)).map (fun p => (p.1.negate, p.2)) := by
  rw [scan_cons_eq, scan_cons_eq]
  have h1 : (if ('-' : Char) = '-' ∨ ('-' : Char) = '+' then c :: cs else '-' :: c :: cs) =
      c :: cs := rfl
  have h2 : (if c = '-' ∨ c = '+' then cs else c :: cs) = c :: cs := by
    rw [if_neg]
    rintro (h | h)
    · exact hm h
    · exact hp h
  have h3 : decide (('-' : Char) = '-') = true := rfl
  have h4 : decide (c = '-') = false := by simp [hm]
  rw [h1, h2, h3, h4]
  exact scanBody_negate _

/-- `Int64` of the opposite float is the opposite integer, away from the ends of
the `int64` range. -/
theorem Int64_negate (g : BigFloat) (h : strictInt64 g.Int64) :
    g.negate.Int64 = -g.Int64 := by
  obtain ⟨p, b, f, m, e⟩ := g
  unfold strictInt64 minInt64 maxInt64 at h
  unfold BigFloat.Int64 BigFloat.negate BigFloat.bexp at *
  simp only at h ⊢
  cases f with
  | zero => simp
  | inf =>
    simp only at h
    cases b <;> simp [minInt64, maxInt64] at h
  | finite =>
    simp only at h ⊢
    by_cases h0 : e + (bitLen m : Int) ≤ 0
    · simp only [h0, if_true, neg_zero]
    · simp only [h0, if_false] at h ⊢
      by_cases h63 : e + (bitLen m : Int) ≤ 63
      · simp only [h63, if_true]
        cases b <;> simp
      · simp only [h63, if_false] at h
        cases b <;> simp [minInt64, maxInt64] at h

theorem digit_facts (c : Char) (h : isDecDigit c) :
    c ≠ '-' ∧ c ≠ '+' ∧ c ≠ 'I' ∧ c ≠ 'i' := by
  refine ⟨?_, ?_, ?_, ?_⟩ <;> (rintro rfl; revert h; decide)

/-- The parse of a string that starts with a digit is given by `scanBody`. -/
theorem Parse_digit_head (s : String) (c : Char) (cs : List Char) (hs : s.toList = c :: cs)
    (hd : isDecDigit c) :
    BigFloat.Parse s =
      match scanBody false (c :: cs) with
      | some (f, []) => some f
      | _ => none := by
  obtain ⟨hm, hp, hI, hi⟩ := digit_facts c hd
  have hlit : ∀ (d : Char) (ds : List Char), ¬ isDecDigit d → s ≠ String.mk (d :: ds) := by
    rintro d ds hnd rfl
    simp only [String.toList] at hs
    rw [(List.cons.inj hs).1] at hnd
    exact hnd hd
  unfold BigFloat.Parse
  rw [if_neg, if_neg, hs, scan_cons_eq]
  · have h2 : (if c = '-' ∨ c = '+' then cs else c :: cs) = c :: cs := by
      rw [if_neg]
      rintro (h | h)
      · exact hm h
      · exact hp h
    have h4 : decide (c = '-') = false := by simp [hm]
    rw [h2, h4]
  · rintro (h | h)
    · exact hlit '-' ['I', 'n', 'f'] (by decide) h
    · exact hlit '-' ['i', 'n', 'f'] (by decide) h
  · rintro (h | h | h | h)
    · exact hlit 'I' ['n', 'f'] (by decide) h
    · exact hlit 'i' ['n', 'f'] (by decide) h
    · exact hlit '+' ['I', 'n', 'f'] (by decide) h
    · exact hlit '+' ['i', 'n', 'f'] (by decide) h

/-- The parse of `-` followed by a string that starts with a digit. -/
theorem Parse_minus_digit_head (s : String) (c : Char) (cs : List Char)
    (hs : s.toList = c :: cs) (hd : isDecDigit c) :
    BigFloat.Parse ("-" ++ s) =
      match scanBody true (c :: cs) with
      | some (f, []) => some f
      | _ => none := by
  have hs' : ("-" ++ s).toList = '-' :: c :: cs := by
    simp only [String.toList, String.data_append]
    rw [show s.data = c :: cs from hs]
    rfl
  have hlit : ∀ (d : Char) (ds : List Char), (d ≠ '-' ∨ ∃ d' ds', ds = d' :: ds' ∧ ¬ isDecDigit d') →
      "-" ++ s ≠ String.mk (d :: ds) := by
    intro d ds hcond heq
    rw [heq] at hs'
    simp only [String.toList] at hs'
    have h1 := (List.cons.inj hs').1
    have h2 := (List.cons.inj hs').2
    rcases hcond with h | ⟨d', ds', rfl, hnd⟩
    · exact h h1
    · rw [(List.cons.inj h2).1] at hnd
      exact hnd hd
  unfold BigFloat.Parse
  rw [if_neg, if_neg, hs', scan_cons_eq]
  · rfl
  · rintro (h | h)
    · exact hlit '-' ['I', 'n', 'f'] (Or.inr ⟨'I', ['n', 'f'], rfl, by decide⟩) h
    · exact hlit '-' ['i', 'n', 'f'] (Or.inr ⟨'i', ['n', 'f'], rfl, by decide⟩) h
  · rintro (h | h | h | h)
    · exact hlit 'I' ['n', 'f'] (Or.inl (by decide)) h
    · exact hlit 'i' ['n', 'f'] (Or.inl (by decide)) h
    · exact hlit '+' ['I', 'n', 'f'] (Or.inl (by decide)) h
    · exact hlit '+' ['i', 'n', 'f'] (Or.inl (by decide)) h

/-- `parseToInt64` of `-` followed by a string that starts with a digit, parses
and gives a value strictly inside the `int64` range: the opposite value. -/
theorem parseToInt64_minus (s : String) (c : Char) (cs : List Char) (hs : s.toList = c :: cs)
    (hd : isDecDigit c) (hok : parsesOK s) (hstrict : strictInt64 (parseToInt64 s).1) :
    parseToInt64 ("-" ++ s) = (-(parseToInt64 s).1, none) := by
  have hP := Parse_digit_head s c cs hs hd
  have hPm := Parse_minus_digit_head s c cs hs hd
  rw [scanBody_negate] at hPm
  unfold parsesOK at hok
  unfold parseToInt64 BigFloat.SetString at hok hstrict ⊢
  cases hb : scanBody false (c :: cs) with
  | none =>
    rw [hb] at hP
    rw [hP] at hok
    cases hok
  | some p =>
    obtain ⟨f, r⟩ := p
    rw [hb] at hP hPm
    cases r with
    | cons a r =>
      rw [hP] at hok
      cases hok
    | nil =>
      simp only [Option.map_some'] at hP hPm
      rw [hP] at hstrict ⊢
      rw [hPm]
      simp only at hstrict ⊢
      rw [Mul_negate f hundred (Or.inr rfl), Int64_negate _ hstrict]

theorem unsignedDecimal_head (s : String) (h : isUnsignedDecimal s) :
    ∃ c cs, s.toList = c :: cs ∧ isDecDigit c := by
  obtain ⟨ip, fp, hne, hip, _, hcs⟩ := h
  cases ip with
  | nil => exact absurd rfl hne
  | cons c ip =>
    have hc : isDecDigit c := hip c (List.mem_cons_self _ _)
    rcases hcs with ⟨h1, _⟩ | h1
    · exact ⟨c, ip, h1, hc⟩
    · exact ⟨c, ip ++ '.' :: fp, h1, hc⟩

/-- `parseToInt64` of `-` followed by an unsigned decimal string. -/
theorem parseToInt64_minus_decimal (s : String) (h : isUnsignedDecimal s) (hok : parsesOK s)
    (hstrict : strictInt64 (parseToInt64 s).1) :
    parseToInt64 ("-" ++ s) = (-(parseToInt64 s).1, none) := by
  obtain ⟨c, cs, hs, hd⟩ := unsignedDecimal_head s h
  exact parseToInt64_minus s c cs hs hd hok hstrict

theorem wrap64_neg_of_strict (x : Int) (h : strictInt64 x) : wrap64 (-x) = -x := by
  unfold strictInt64 minInt64 maxInt64 at h
  unfold wrap64
  omega

theorem inInt64_of_strict (x : Int) (h : strictInt64 x) : inInt64 x := by
  unfold strictInt64 at h
  unfold inInt64
  omega

/-- A passing subtotal with unsigned amounts stays passing when its two amounts
are negated, and its tax cents are negated. -/
theorem negateSubtotal_passes (isPrintTab : Nat → Bool) (st : TaxSubtotal)
    (hda : isUnsignedDecimal st.TaxableAmount) (hdt : isUnsignedDecimal st.TaxAmount)
    (hsa : strictInt64 (taxableCents st)) (hst : strictInt64 (taxCents st))
    (hsp : strictInt64 (taxableCents st * percentOf isPrintTab st))
    (hpass : subtotalPasses isPrintTab st) :
    subtotalPasses isPrintTab (negateSubtotal st) ∧
      taxCents (negateSubtotal st) = -taxCents st := by
  obtain ⟨⟨h1, h2, h3⟩, h4⟩ := hpass
  have ea := parseToInt64_minus_decimal st.TaxableAmount hda h1 hsa
  have et := parseToInt64_minus_decimal st.TaxAmount hdt h2 hst
  have hta : taxableCents (negateSubtotal st) = -taxableCents st := by
    unfold taxableCents negateSubtotal
    simp only
    rw [ea]
  have htt : taxCents (negateSubtotal st) = -taxCents st := by
    unfold taxCents negateSubtotal
    simp only
    rw [et]
  have hpc : percentOf isPrintTab (negateSubtotal st) = percentOf isPrintTab st := rfl
  refine ⟨⟨⟨?_, ?_, h3⟩, ?_⟩, htt⟩
  · show (parseToInt64 ("-" ++ st.TaxableAmount)).2 = none
    rw [ea]
  · show (parseToInt64 ("-" ++ st.TaxAmount)).2 = none
    rw [et]
  · rw [hta, htt, hpc, neg_mul, wrap64_neg_of_strict _ hsp, Int.neg_tdiv]
    rw [wrap64_of_inInt64 _ (inInt64_of_strict _ hsp)] at h4
    rw [h4]

theorem negate_subtotals (isPrintTab : Nat → Bool) (l : List TaxSubtotal)
    (hd : ∀ st ∈ l, isUnsignedDecimal st.TaxableAmount ∧ isUnsignedDecimal st.TaxAmount)
    (hs : ∀ st ∈ l, strictInt64 (taxableCents st) ∧ strictInt64 (taxCents st) ∧
      strictInt64 (taxableCents st * percentOf isPrintTab st))
    (hpass : ∀ st ∈ l, subtotalPasses isPrintTab st) :
    (∀ st ∈ l.map negateSubtotal, subtotalPasses isPrintTab st) ∧
      taxSum (l.map negateSubtotal) = -taxSum l := by
  induction l with
  | nil => exact ⟨fun st hst => absurd hst (List.not_mem_nil st), by simp [taxSum]⟩
  | cons a l ih =>
    obtain ⟨ih1, ih2⟩ := ih (fun st h => hd st (List.mem_cons_of_mem _ h))
      (fun st h => hs st (List.mem_cons_of_mem _ h))
      (fun st h => hpass st (List.mem_cons_of_mem _ h))
    have ha := negateSubtotal_passes isPrintTab a (hd a (List.mem_cons_self _ _)).1
      (hd a (List.mem_cons_self _ _)).2 (hs a (List.mem_cons_self _ _)).1
      (hs a (List.mem_cons_self _ _)).2.1 (hs a (List.mem_cons_self _ _)).2.2
      (hpass a (List.mem_cons_self _ _))
    constructor
    · intro st hst
      rw [List.map_cons] at hst
      rcases List.mem_cons.mp hst with rfl | hst
      · exact ha.1
      · exact ih1 st hst
    · unfold taxSum at ih2 ⊢
      simp only [List.map_cons, List.sum_cons]
      rw [ha.2, ih2]
      ring

/-- Negation symmetry of the validator. -/
theorem negateInvoice_spec (isPrintTab : Nat → Bool) (invoice : Invoice)
    (hdl : isUnsignedDecimal invoice.LineExtensionAmount)
    (hdt : isUnsignedDecimal invoice.TaxTotal.TaxAmount)
    (hds : ∀ st ∈ invoice.TaxTotal.TaxSubtotal,
      isUnsignedDecimal st.TaxableAmount ∧ isUnsignedDecimal st.TaxAmount)
    (hsl : strictInt64 (lineCents invoice)) (hst : strictInt64 (totalTaxCents invoice))
    (hss : ∀ st ∈ invoice.TaxTotal.TaxSubtotal, strictInt64 (taxableCents st) ∧
      strictInt64 (taxCents st) ∧ strictInt64 (taxableCents st * percentOf isPrintTab st))
    (hsum : strictInt64 (taxSum invoice.TaxTotal.TaxSubtotal))
    (hadd : strictInt64 (lineCents invoice + totalTaxCents invoice))
    (hok : (CalculateInvoiceTotal isPrintTab invoice).2 = none) :
    CalculateInvoiceTotal isPrintTab (negateInvoice invoice) =
      (-(CalculateInvoiceTotal isPrintTab invoice).1, none) := by
  obtain ⟨hl, ht, hall, hs⟩ := CalculateInvoiceTotal_ok_inv isPrintTab invoice hok
  have el := parseToInt64_minus_decimal invoice.LineExtensionAmount hdl hl hsl
  have et := parseToInt64_minus_decimal invoice.TaxTotal.TaxAmount hdt ht hst
  obtain ⟨hpass, hsumneg⟩ := negate_subtotals isPrintTab _ hds hss hall
  have hl' : parsesOK (negateInvoice invoice).LineExtensionAmount := by
    show (parseToInt64 ("-" ++ invoice.LineExtensionAmount)).2 = none
    rw [el]
  have ht' : parsesOK (negateInvoice invoice).TaxTotal.TaxAmount := by
    show (parseToInt64 ("-" ++ invoice.TaxTotal.TaxAmount)).2 = none
    rw [et]
  have hL : lineCents (negateInvoice invoice) = -lineCents invoice := by
    show (parseToInt64 ("-" ++ invoice.LineExtensionAmount)).1 = _
    rw [el]
    rfl
  have hT : totalTaxCents (negateInvoice invoice) = -totalTaxCents invoice := by
    show (parseToInt64 ("-" ++ invoice.TaxTotal.TaxAmount)).1 = _
    rw [et]
    rfl
  rw [wrap64_of_inInt64 _ (inInt64_of_strict _ hsum)] at hs
  rw [CalculateInvoiceTotal_ok_value _ _ hok,
    CalculateInvoiceTotal_all_pass isPrintTab (negateInvoice invoice) hl' ht' hpass]
  have hS : taxSum (negateInvoice invoice).TaxTotal.TaxSubtotal =
      -taxSum invoice.TaxTotal.TaxSubtotal := hsumneg
  rw [hS, hT, hL, hs, wrap64_neg_of_strict _ hst, if_neg (not_not.mpr rfl),
    wrap64_of_inInt64 _ (inInt64_of_strict _ hadd)]
  congr 1
  rw [← neg_add]
  exact wrap64_neg_of_strict _ hadd

theorem validInvoice_unsigned :
    isUnsignedDecimal validInvoice.LineExtensionAmount ∧
    isUnsignedDecimal validInvoice.TaxTotal.TaxAmount ∧
    ∀ st ∈ validInvoice.TaxTotal.TaxSubtotal,
      isUnsignedDecimal st.TaxableAmount ∧ isUnsignedDecimal st.TaxAmount := by
  refine ⟨⟨['1', '5', '0', '0'], ['0', '0'], by decide, by decide, by decide, Or.inr rfl⟩,
    ⟨['2', '5', '0'], ['0', '0'], by decide, by decide, by decide, Or.inr rfl⟩, ?_⟩
  intro st hst
  simp only [validInvoice, List.mem_cons, List.mem_singleton, List.not_mem_nil, or_false] at hst
  rcases hst with rfl | rfl
  · exact ⟨⟨['1', '0', '0', '0'], ['0', '0'], by decide, by decide, by decide, Or.inr rfl⟩,
      ⟨['2', '0', '0'], ['0', '0'], by decide, by decide, by decide, Or.inr rfl⟩⟩
  · exact ⟨⟨['5', '0', '0'], ['0', '0'], by decide, by decide, by decide, Or.inr rfl⟩,
      ⟨['5', '0'], ['0', '0'], by decide, by decide, by decide, Or.inr rfl⟩⟩

/-! ## Facts on saturation -/

theorem decDigit_facts (c : Char) (h : isDecDigit c) :
    c ≠ '.' ∧ c ≠ '_' ∧ digitVal c = c.toNat - 48 ∧ digitVal c < 10 := by
  refine ⟨?_, ?_, ?_, ?_⟩
  · rintro rfl; revert h; decide
  · rintro rfl; revert h; decide
  · unfold isDecDigit at h
    unfold digitVal
    rw [if_pos h]
  · unfold isDecDigit at h
    unfold digitVal
    rw [if_pos h]
    omega

/-- One step of the mantissa loop on a decimal digit. -/
theorem natScanLoop_digit (c : Char) (rest : List Char) (z count : Nat) (dp : Option Nat)
    (fracOk : Bool) (prev : Prev) (inv : Bool) (h : isDecDigit c) :
    natScanLoop 10 (c :: rest) z count dp fracOk prev inv =
      natScanLoop 10 rest (z * 10 + (c.toNat - 48)) (count + 1) dp fracOk Prev.digit inv := by
  obtain ⟨hdot, hsep, hval, hlt⟩ := decDigit_facts c h
  rw [natScanLoop, if_neg (fun h' => hdot h'.1), if_neg hsep, if_neg (by omega), hval]

/-- The mantissa loop over a run of decimal digits. -/
theorem natScanLoop_digits (ds tail : List Char) (z count : Nat) (dp : Option Nat)
    (fracOk : Bool) (inv : Bool) (h : ∀ c ∈ ds, isDecDigit c) :
    natScanLoop 10 (ds ++ tail) z count dp fracOk Prev.digit inv =
      natScanLoop 10 tail (digitsVal z ds) (count + ds.length) dp fracOk Prev.digit inv := by
  induction ds generalizing z count with
  | nil => rfl
  | cons c ds ih =>
    rw [List.cons_append, natScanLoop_digit c _ z count dp fracOk _ inv (h c (List.mem_cons_self _ _)),
      ih _ _ (fun d hd => h d (List.mem_cons_of_mem _ hd))]
    simp only [digitsVal, List.foldl_cons, List.length_cons]
    congr 1
    omega

/-- The mantissa scanner on input that starts with a decimal digit followed by
nothing, a digit or a point. -/
theorem natScan_digit_head (c : Char) (rest : List Char) (h : isDecDigit c)
    (hrest : ∀ d ds, rest = d :: ds → isDecDigit d ∨ d = '.') :
    natScan (c :: rest) =
      natScanLoop 10 rest (c.toNat - 48) 1 none true Prev.digit false := by
  by_cases h0 : c = '0'
  · subst h0
    cases rest with
    | nil => rfl
    | cons d ds =>
      have hd := hrest d ds rfl
      have hnot : ∀ x : Char, ¬ (isDecDigit x ∨ x = '.') → d ≠ x := by
        rintro x hx rfl
        exact hx hd
      unfold natScan
      simp only
      rw [if_neg, if_neg, if_neg]
      · rfl
      · rintro (h1 | h1)
        · exact hnot 'x' (by decide) h1
        · exact hnot 'X' (by decide) h1
      · rintro (h1 | h1)
        · exact hnot 'o' (by decide) h1
        · exact hnot 'O' (by decide) h1
      · rintro (h1 | h1)
        · exact hnot 'b' (by decide) h1
        · exact hnot 'B' (by decide) h1
  · have hscan : natScan (c :: rest) =
        natScanLoop 10 (c :: rest) 0 0 none true Prev.dot false := by
      unfold natScan
      split
      · rename_i heq
        exact absurd (List.cons.inj heq).1 h0
      · rename_i heq
        exact absurd (List.cons.inj heq).1 h0
      · rfl
    rw [hscan, natScanLoop_digit c rest 0 0 none true _ false h, Nat.zero_mul, Nat.zero_add,
      Nat.zero_add]

theorem digitsVal_append (z : Nat) (a b : List Char) :
    digitsVal z (a ++ b) = digitsVal (digitsVal z a) b := by
  unfold digitsVal
  rw [List.foldl_append]

/-- The mantissa scanner on an unsigned decimal number: the value of all the
digits in base 10, no error, nothing left unread, and a count that is minus the
number of fractional digits when there are some. -/
theorem natScan_decimal (cs ip fp : List Char) (h : isUnsignedDecimalOf cs ip fp) :
    (natScan cs).res = decimalValue (ip ++ fp) ∧ (natScan cs).base = 10 ∧
      (natScan cs).err = false ∧ (natScan cs).rest = [] ∧
      (if (natScan cs).count < 0 then (natScan cs).count else 0) = -(fp.length : Int) := by
  obtain ⟨hne, hip, hfp, hcs⟩ := h
  cases ip with
  | nil => exact absurd rfl hne
  | cons c ip =>
    have hc := hip c (List.mem_cons_self _ _)
    have hip' : ∀ d ∈ ip, isDecDigit d := fun d hd => hip d (List.mem_cons_of_mem _ hd)
    have hval : digitsVal (c.toNat - 48) ip = decimalValue (c :: ip) := by
      simp [decimalValue, digitsVal]
    rcases hcs with ⟨h1, h2⟩ | h1
    · subst h2
      rw [h1, natScan_digit_head c ip hc]
      · have := natScanLoop_digits ip [] (c.toNat - 48) 1 none true false hip'
        rw [List.append_nil] at this
        rw [this, hval, List.append_nil]
        simp [natScanLoop, natScanFinish]
        omega
      · intro d ds hd
        left
        exact hip' d (by rw [hd]; exact List.mem_cons_self _ _)
    · rw [h1, List.cons_append, natScan_digit_head c (ip ++ '.' :: fp) hc]
      · rw [natScanLoop_digits ip ('.' :: fp) (c.toNat - 48) 1 none true false hip', hval,
          natScanLoop, if_pos ⟨rfl, rfl⟩]
        cases fp with
        | nil =>
          simp [natScanLoop, natScanFinish, decimalValue]
        | cons d fp =>
          rw [natScanLoop_digit d fp _ _ _ _ _ _ (hfp d (List.mem_cons_self _ _))]
          have := natScanLoop_digits fp [] (decimalValue (c :: ip) * 10 + (d.toNat - 48))
            (1 + ip.length + 1) (some (1 + ip.length)) false
            (false || decide (Prev.digit = Prev.sep))
            (fun x hx => hfp x (List.mem_cons_of_mem _ hx))
          rw [List.append_nil] at this
          rw [this]
          have hv : digitsVal (decimalValue (c :: ip) * 10 + (d.toNat - 48)) fp =
              decimalValue ((c :: ip) ++ d :: fp) := by
            simp [decimalValue, digitsVal, List.foldl_append]
          rw [hv]
          simp [natScanLoop, natScanFinish]
          omega
      · intro d ds hd
        cases ip with
        | nil =>
          right
          simp at hd
          exact hd.1.symm
        | cons e ip =>
          left
          simp at hd
          rw [← hd.1]
          exact hip' e (List.mem_cons_self _ _)

/-- A positive integer value below `2^n` has exponent at most `n`. -/
theorem bexp_le_of_value_lt (m e n : Nat) (hm : 0 < m) (h : m * 2 ^ e < 2 ^ n) :
    (e : Int) + bitLen m ≤ n := by
  have he : e ≤ n := by
    by_contra hcon
    have h1 : 2 ^ n ≤ 2 ^ e := Nat.pow_le_pow_right (by norm_num) (by omega)
    have h2 : 2 ^ e ≤ m * 2 ^ e := Nat.le_mul_of_pos_left _ hm
    omega
  have h3 : m < 2 ^ (n - e) := by
    have h4 : 2 ^ n = 2 ^ (n - e) * 2 ^ e := by
      rw [← pow_add]
      congr 1
      omega
    rw [h4] at h
    exact Nat.lt_of_mul_lt_mul_right h
  have := (bitLen_le_iff m (n - e)).mpr h3
  omega

/-- The relative error bound of one rounding, from the half-ulp bound. -/
theorem round_rel_bound (R q T H : Nat) (h1 : 2 * R ≤ 2 * q + T) (h2 : H * T ≤ R) :
    R * (2 * H - 1) ≤ q * (2 * H) := by
  rcases Nat.eq_zero_or_pos H with h0 | h0
  · subst h0
    simp
  · have h3 : 2 * R * H ≤ (2 * q + T) * H := Nat.mul_le_mul_right _ h1
    have h4 : (2 * q + T) * H = 2 * q * H + H * T := by ring
    have h5 : R * (2 * H - 1) + R = 2 * R * H := by
      have : 2 * H - 1 + 1 = 2 * H := by omega
      calc R * (2 * H - 1) + R = R * (2 * H - 1 + 1) := by ring
        _ = R * (2 * H) := by rw [this]
        _ = 2 * R * H := by ring
    have h6 : q * (2 * H) = 2 * q * H := by ring
    omega

/-- A relative error bound at a finer precision holds at a coarser one. -/
theorem rel_bound_coarser (R q N j : Nat) (hj : 0 < j) (hN : 0 < N)
    (h : R * (N * j - 1) ≤ q * (N * j)) : R * (N - 1) ≤ q * N := by
  have h1 : (N - 1) * j ≤ N * j - 1 := by
    have : (N - 1) * j + j = N * j := by
      calc (N - 1) * j + j = (N - 1 + 1) * j := by ring
        _ = N * j := by rw [Nat.sub_add_cancel hN]
    omega
  have h2 : R * (N - 1) * j ≤ q * N * j := by
    calc R * (N - 1) * j = R * ((N - 1) * j) := by ring
      _ ≤ R * (N * j - 1) := Nat.mul_le_mul_left _ h1
      _ ≤ q * (N * j) := h
      _ = q * N * j := by ring
  exact Nat.le_of_mul_le_mul_right h2 hj

/-- Bernoulli's inequality in the form `(1 + 1/D)^c * (1 - c/D) ≤ 1`. -/
theorem bernoulli_bound (D : Nat) : ∀ c : Nat, c ≤ D → (D + 1) ^ c * (D - c) ≤ D ^ (c + 1) := by
  intro c
  induction c with
  | zero => intro _; simp
  | succ c ih =>
    intro hc
    have h1 := ih (by omega)
    obtain ⟨e, he⟩ : ∃ e, D = c + 1 + e := ⟨D - (c + 1), by omega⟩
    have h2 : D - (c + 1) = e := by omega
    have h3 : D - c = e + 1 := by omega
    rw [h2]
    rw [h3] at h1
    have h4 : (D + 1) * e ≤ (e + 1) * D := by
      have : (D + 1) * e = D * e + e := by ring
      have : (e + 1) * D = D * e + D := by ring
      omega
    calc (D + 1) ^ (c + 1) * e = (D + 1) ^ c * ((D + 1) * e) := by rw [pow_succ]; ring
      _ ≤ (D + 1) ^ c * ((e + 1) * D) := Nat.mul_le_mul_left _ h4
      _ = ((D + 1) ^ c * (e + 1)) * D := by ring
      _ ≤ D ^ (c + 1) * D := Nat.mul_le_mul_right _ h1
      _ = D ^ (c + 1 + 1) := by rw [pow_succ D (c + 1)]

/-- The accumulated rounding error of fewer than `2^64` roundings at 128 bits
is below a factor of two. -/
theorem approx_value_le (V a c : Nat) (hc : c < 2 ^ 64)
    (h : V * (2 ^ 128 - 1) ^ c ≤ 5 ^ a * (2 ^ 128) ^ c) : V ≤ 2 * 5 ^ a := by
  have hB := bernoulli_bound (2 ^ 128 - 1) c (by omega)
  rw [show (2 : Nat) ^ 128 - 1 + 1 = 2 ^ 128 by norm_num, pow_succ (2 ^ 128 - 1) c] at hB
  have hDc : 0 < (2 ^ 128 - 1) ^ c := Nat.pow_pos (by norm_num)
  have hD2 : 2 ^ 128 - 1 ≤ 2 * (2 ^ 128 - 1 - c) := by omega
  have hD0 : 0 < 2 ^ 128 - 1 := by norm_num
  generalize (2 ^ 128 - 1 - c) = Dm at hB hD2
  generalize (2 ^ 128 - 1 : Nat) = D at h hB hDc hD2 hD0
  generalize ((2 : Nat) ^ 128) ^ c = Nc at h hB
  generalize D ^ c = Dc at h hB hDc
  generalize 5 ^ a = F at h ⊢
  have h1 : (V * Dm) * Dc ≤ (F * D) * Dc := by
    calc (V * Dm) * Dc = (V * Dc) * Dm := by ring
      _ ≤ (F * Nc) * Dm := Nat.mul_le_mul_right _ h
      _ = F * (Nc * Dm) := by ring
      _ ≤ F * (Dc * D) := Nat.mul_le_mul_left _ hB
      _ = (F * D) * Dc := by ring
  have h2 : V * Dm ≤ F * D := Nat.le_of_mul_le_mul_right h1 hDc
  have h3 : V * D ≤ (2 * F) * D := by
    calc V * D ≤ V * (2 * Dm) := Nat.mul_le_mul_left _ hD2
      _ = 2 * (V * Dm) := by ring
      _ ≤ 2 * (F * D) := Nat.mul_le_mul_left _ h2
      _ = (2 * F) * D := by ring
  exact Nat.le_of_mul_le_mul_right h3 hD0

/-- The product of two finite floats whose exponent stays in range is the
rounded product of the mantissas. -/
theorem Mul_finite_eq (zp : Nat) (zn : Bool) (zf : Form) (zm : Nat) (ze : Int)
    (xp : Nat) (xn : Bool) (xm : Nat) (xe : Int) (yp : Nat) (yn : Bool) (ym : Nat) (ye : Int)
    (hzp : zp ≠ 0) (hlo : MinExp ≤ xe + ye + bitLen (xm * ym))
    (hhi : xe + ye + bitLen (xm * ym) ≤ MaxExp) :
    BigFloat.Mul ⟨zp, zn, zf, zm, ze⟩ ⟨xp, xn, Form.finite, xm, xe⟩ ⟨yp, yn, Form.finite, ym, ye⟩ =
      BigFloat.round ⟨zp, xn != yn, Form.finite, xm * ym, xe + ye⟩ false := by
  unfold BigFloat.Mul BigFloat.umul BigFloat.setExpAndRound BigFloat.bexp
  simp only [and_self, if_true, if_neg hzp]
  rw [if_neg (not_lt.mpr hlo), if_neg (not_lt.mpr hhi)]

/-- The product of two finite floats whose exponent exceeds `MaxExp` is an
infinity. -/
theorem Mul_finite_inf (zp : Nat) (zn : Bool) (zf : Form) (zm : Nat) (ze : Int)
    (xp : Nat) (xn : Bool) (xm : Nat) (xe : Int) (yp : Nat) (yn : Bool) (ym : Nat) (ye : Int)
    (hzp : zp ≠ 0) (hhi : MaxExp < xe + ye + bitLen (xm * ym)) :
    BigFloat.Mul ⟨zp, zn, zf, zm, ze⟩ ⟨xp, xn, Form.finite, xm, xe⟩ ⟨yp, yn, Form.finite, ym, ye⟩ =
      ⟨zp, xn != yn, Form.inf, xm * ym, xe + ye⟩ := by
  have hMax : MaxExp = 2 ^ 31 - 1 := rfl
  have hMin : MinExp = -(2 ^ 31) := rfl
  unfold BigFloat.Mul BigFloat.umul BigFloat.setExpAndRound BigFloat.bexp
  simp only [and_self, if_true, if_neg hzp]
  rw [if_neg (by omega), if_pos hhi]

/-- Rounding leaves a mantissa that fits the precision unchanged. -/
theorem round_fits (z : BigFloat) (s : Bool) (h : bitLen z.mant ≤ z.prec) : z.round s = z := by
  unfold BigFloat.round
  by_cases hf : z.form ≠ Form.finite
  · rw [if_pos hf]
  · rw [if_neg hf]
    simp only
    rw [if_pos h]

/-- Rounding to nearest even at any exponent: an infinity, when the mantissa
overflows at the largest exponent, or the half-ulp bounds of `round_spec`. -/
theorem round_spec_inf (z : BigFloat) (sbit : Bool) (hf : z.form = Form.finite)
    (hp : 0 < z.prec) (hbits : z.prec < bitLen z.mant) :
    ((z.round sbit).form = Form.inf ∧ (z.round sbit).neg = z.neg) ∨
    ∃ M t : Nat, z.round sbit = { z with mant := M, exp2 := z.exp2 + (t : Int) } ∧ 0 < t ∧
      2 ^ (z.prec - 1) ≤ M ∧ M < 2 ^ z.prec ∧
      2 * (M * 2 ^ t) ≤ 2 * z.mant + 2 ^ t ∧
      2 * z.mant + (if sbit = true then 2 else 0) ≤ 2 * (M * 2 ^ t) + 2 ^ t := by
  by_cases hexp : z.bexp < MaxExp
  · exact Or.inr (round_spec z sbit hf hp hbits hexp)
  · obtain ⟨hc1, hc2⟩ := round_core z.mant (bitLen z.mant - z.prec - 1) sbit
    generalize hr : bitLen z.mant - z.prec - 1 = r at hc1 hc2
    generalize (if sbit = true then 2 else 0) = c at hc2 ⊢
    have hpos : 0 < 2 ^ (r + 1) := Nat.pow_pos (by norm_num)
    have hlo : 2 ^ (z.prec - 1) * 2 ^ (r + 1) ≤ z.mant := by
      have := (lt_bitLen_iff z.mant (bitLen z.mant - 1)).mp (by omega)
      rw [← pow_add]
      rwa [show bitLen z.mant - 1 = z.prec - 1 + (r + 1) by omega] at this
    have hhi : z.mant < 2 ^ z.prec * 2 ^ (r + 1) := by
      rw [← pow_add]
      exact (bitLen_le_iff _ _).mp (by omega)
    have hm_lo : 2 ^ (z.prec - 1) ≤ z.mant / 2 ^ (r + 1) :=
      (Nat.le_div_iff_mul_le hpos).mpr hlo
    have hm_hi : z.mant / 2 ^ (r + 1) < 2 ^ z.prec :=
      (Nat.div_lt_iff_lt_mul hpos).mpr hhi
    unfold BigFloat.round
    rw [if_neg (by simp [hf]), if_neg (not_le.mpr hbits)]
    simp only [hr]
    split_ifs with hinc hcarry hov
    · exact Or.inl ⟨rfl, rfl⟩
    · exact absurd (not_lt.mp hexp) hov
    · right
      refine ⟨z.mant / 2 ^ (r + 1) + 1, r + 1, ?_, by omega, by omega, by omega, ?_, ?_⟩
      · simp only [Nat.cast_add, Nat.cast_one]
      · rw [if_pos hinc] at hc1
        exact hc1
      · rw [if_pos hinc] at hc2
        exact hc2
    · right
      refine ⟨z.mant / 2 ^ (r + 1), r + 1, ?_, by omega, hm_lo, hm_hi, ?_, ?_⟩
      · simp only [Nat.cast_add, Nat.cast_one]
      · rw [if_neg hinc] at hc1
        exact hc1
      · rw [if_neg hinc] at hc2
        exact hc2

/-- The product of two rounded powers of five whose exact product is below
`2^E / 2`, for an exponent `E` below `MaxExp`, is a rounded power of five. -/
theorem Mul_approx (z x y : BigFloat) (p px py a b c d E : Nat) (hp : p = 128 ∨ p = 192)
    (hz : z.prec = p) (hx : approxPow5 x px a c) (hy : approxPow5 y py b d)
    (hcd : c + d < 2 ^ 64) (hv : 2 * 5 ^ (a + b) < 2 ^ E) (hE : (E : Int) < MaxExp) :
    approxPow5 (z.Mul x y) p (a + b) (c + d + 1) := by
  obtain ⟨hxf, -, hxn, hxm, hxe, hxv⟩ := hx
  obtain ⟨hyf, -, hyn, hym, hye, hyv⟩ := hy
  obtain ⟨zp, zn, zf, zm, ze⟩ := z
  obtain ⟨xp, xn, xf, xm, xe⟩ := x
  obtain ⟨yp, yn, yf, ym, ye⟩ := y
  simp only [BigFloat.natValue] at hz hxf hxn hxm hxe hyf hyn hym hye hxv hyv
  subst hz hxf hxn hyf hyn
  obtain ⟨ex, rfl⟩ := Int.eq_ofNat_of_zero_le hxe
  obtain ⟨ey, rfl⟩ := Int.eq_ofNat_of_zero_le hye
  simp only [Int.toNat_ofNat] at hxv hyv
  have hzp0 : zp ≠ 0 := by rcases hp with h | h <;> omega
  have hzp1 : 0 < zp := Nat.pos_of_ne_zero hzp0
  have hV : (xm * ym * 2 ^ (ex + ey)) * (2 ^ 128 - 1) ^ (c + d) ≤
      5 ^ (a + b) * (2 ^ 128) ^ (c + d) := by
    calc (xm * ym * 2 ^ (ex + ey)) * (2 ^ 128 - 1) ^ (c + d)
        = (xm * 2 ^ ex * (2 ^ 128 - 1) ^ c) * (ym * 2 ^ ey * (2 ^ 128 - 1) ^ d) := by
          rw [pow_add, pow_add]; ring
      _ ≤ (5 ^ a * (2 ^ 128) ^ c) * (5 ^ b * (2 ^ 128) ^ d) := Nat.mul_le_mul hxv hyv
      _ = 5 ^ (a + b) * (2 ^ 128) ^ (c + d) := by
          rw [pow_add, pow_add]; ring
  have hVlt : xm * ym * 2 ^ (ex + ey) < 2 ^ E :=
    lt_of_le_of_lt (approx_value_le _ _ _ hcd hV) hv
  have hq : 0 < xm * ym := Nat.mul_pos hxm hym
  have hbexp := bexp_le_of_value_lt (xm * ym) (ex + ey) _ hq hVlt
  have hm : MinExp = -(2 ^ 31) := rfl
  rw [Mul_finite_eq _ _ _ _ _ _ _ _ _ _ _ _ _ hzp0 (by push_cast at hbexp ⊢; omega)
    (by push_cast at hbexp ⊢; omega)]
  have hDN : (2 ^ 128 - 1 : Nat) ≤ 2 ^ 128 := Nat.sub_le _ _
  by_cases hbits : bitLen (xm * ym) ≤ zp
  · rw [round_fits _ _ hbits]
    refine ⟨rfl, rfl, rfl, hq, by positivity, ?_⟩
    simp only [BigFloat.natValue]
    rw [show ((ex : Int) + (ey : Int)).toNat = ex + ey by omega]
    calc xm * ym * 2 ^ (ex + ey) * (2 ^ 128 - 1) ^ (c + d + 1)
        = (xm * ym * 2 ^ (ex + ey) * (2 ^ 128 - 1) ^ (c + d)) * (2 ^ 128 - 1) := by
          rw [pow_succ]; ring
      _ ≤ (5 ^ (a + b) * (2 ^ 128) ^ (c + d)) * 2 ^ 128 := Nat.mul_le_mul hV hDN
      _ = 5 ^ (a + b) * (2 ^ 128) ^ (c + d + 1) := by
          rw [pow_succ (2 ^ 128) (c + d)]; ring
  · obtain ⟨M, t, hr, ht, hMlo, hMhi, hup, -⟩ :=
      round_spec ⟨zp, false != false, Form.finite, xm * ym, (ex : Int) + (ey : Int)⟩ false rfl hzp1
        (by simpa using hbits)
        (by simp only [BigFloat.bexp]; push_cast at hbexp ⊢; omega)
    rw [hr]
    simp only at hMlo hMhi hup ⊢
    have hMpos : 0 < M := lt_of_lt_of_le (Nat.pow_pos (by norm_num)) hMlo
    refine ⟨rfl, rfl, rfl, hMpos, by positivity, ?_⟩
    simp only [BigFloat.natValue]
    rw [show ((ex : Int) + (ey : Int) + (t : Int)).toNat = t + (ex + ey) by omega]
    have hrel : (M * 2 ^ t) * (2 * 2 ^ (zp - 1) - 1) ≤ (xm * ym) * (2 * 2 ^ (zp - 1)) :=
      round_rel_bound _ _ _ _ hup (Nat.mul_le_mul_right _ hMlo)
    have hrel128 : (M * 2 ^ t) * (2 ^ 128 - 1) ≤ (xm * ym) * 2 ^ 128 := by
      refine rel_bound_coarser _ _ _ (2 ^ (zp - 128)) (Nat.pow_pos (by norm_num))
        (Nat.pow_pos (by norm_num)) ?_
      have : 2 ^ 128 * 2 ^ (zp - 128) = 2 * 2 ^ (zp - 1) := by
        rcases hp with h | h <;> subst h <;> norm_num
      rw [this]
      exact hrel
    calc M * 2 ^ (t + (ex + ey)) * (2 ^ 128 - 1) ^ (c + d + 1)
        = ((M * 2 ^ t) * (2 ^ 128 - 1)) * (2 ^ (ex + ey) * (2 ^ 128 - 1) ^ (c + d)) := by
          rw [pow_succ, pow_add 2 t]; ring
      _ ≤ ((xm * ym) * 2 ^ 128) * (2 ^ (ex + ey) * (2 ^ 128 - 1) ^ (c + d)) :=
          Nat.mul_le_mul_right _ hrel128
      _ = (xm * ym * 2 ^ (ex + ey) * (2 ^ 128 - 1) ^ (c + d)) * 2 ^ 128 := by ring
      _ ≤ (5 ^ (a + b) * (2 ^ 128) ^ (c + d)) * 2 ^ 128 := Nat.mul_le_mul_right _ hV
      _ = 5 ^ (a + b) * (2 ^ 128) ^ (c + d + 1) := by
          rw [pow_succ (2 ^ 128) (c + d)]; ring

/-- The loop of `pow5` keeps rounded powers of five: started with `z` near
`5^a` and `f` near `5^b`, it ends near `5^(a + n * b)`, with at most that many
roundings, as long as `5^(a + n * b)` is below `2^E / 2` for an exponent `E`
below `MaxExp`.  The last squaring of `f`, which may overflow, is not used. -/
theorem pow5Loop_approx (K E : Nat) (hK : 2 * 5 ^ K < 2 ^ E) (hE : (E : Int) < MaxExp)
    (hK64 : K < 2 ^ 64) :
    ∀ (fuel n : Nat) (z f : BigFloat) (a b cz cf : Nat), n ≤ fuel →
      approxPow5 z 128 a cz → (n ≠ 0 → approxPow5 f 192 b cf) → cz ≤ a → cf < b →
      a + n * b ≤ K →
      ∃ c, c ≤ a + n * b ∧ approxPow5 (pow5Loop fuel n z f) 128 (a + n * b) c := by
  have hmono : ∀ x, x ≤ K → 2 * 5 ^ x < 2 ^ E := fun x hx =>
    lt_of_le_of_lt (Nat.mul_le_mul_left _ (Nat.pow_le_pow_right (by norm_num) hx)) hK
  intro fuel
  induction fuel with
  | zero =>
    intro n z f a b cz cf hn hz _ hcz _ _
    have : n = 0 := by omega
    subst this
    exact ⟨cz, by omega, by simpa [pow5Loop] using hz⟩
  | succ fuel ih =>
    intro n z f a b cz cf hn hz hf hcz hcf hK'
    rw [pow5Loop]
    by_cases h0 : n = 0
    · subst h0
      rw [if_pos rfl]
      exact ⟨cz, by omega, by simpa using hz⟩
    · rw [if_neg h0]
      have hf0 := hf h0
      have hb : a + b ≤ K := by
        have : b ≤ n * b := Nat.le_mul_of_pos_left _ (Nat.pos_of_ne_zero h0)
        omega
      obtain ⟨h, rfl | rfl⟩ : ∃ h, n = 2 * h ∨ n = 2 * h + 1 := ⟨n / 2, by omega⟩
      · rw [if_neg (by omega), show 2 * h / 2 = h by omega]
        have e : a + 2 * h * b = a + h * (b + b) := by ring
        rw [e] at hK' ⊢
        have hf' : h ≠ 0 → approxPow5 (f.Mul f f) 192 (b + b) (cf + cf + 1) := by
          intro hh
          have : b + b ≤ h * (b + b) := Nat.le_mul_of_pos_left _ (Nat.pos_of_ne_zero hh)
          exact Mul_approx f f f 192 192 192 b b cf cf E (Or.inr rfl) hf0.2.1 hf0 hf0 (by omega)
            (hmono _ (by omega)) hE
        exact ih h z (f.Mul f f) a (b + b) cz (cf + cf + 1) (by omega) hz hf' hcz (by omega) hK'
      · rw [if_pos (by omega), show (2 * h + 1) / 2 = h by omega]
        have e : a + (2 * h + 1) * b = a + b + h * (b + b) := by ring
        rw [e] at hK' ⊢
        have hz' : approxPow5 (z.Mul z f) 128 (a + b) (cz + cf + 1) :=
          Mul_approx z z f 128 128 192 a b cz cf E (Or.inl rfl) hz.2.1 hz hf0 (by omega)
            (hmono _ hb) hE
        have hf' : h ≠ 0 → approxPow5 (f.Mul f f) 192 (b + b) (cf + cf + 1) := by
          intro hh
          have : b + b ≤ h * (b + b) := Nat.le_mul_of_pos_left _ (Nat.pos_of_ne_zero hh)
          exact Mul_approx f f f 192 192 192 b b cf cf E (Or.inr rfl) hf0.2.1 hf0 hf0 (by omega)
            (hmono _ (by omega)) hE
        exact ih h (z.Mul z f) (f.Mul f f) (a + b) (b + b) (cz + cf + 1) (cf + cf + 1) (by omega)
          hz' hf' (by omega) (by omega) hK'

/-- The conversion of a positive integer that fits the precision is exact. -/
theorem setBits64_exact (p : Nat) (neg : Bool) (x : Nat) (hp : p ≠ 0) (hx : 0 < x)
    (hbits : bitLen x ≤ p) :
    BigFloat.setBits64 p neg x = ⟨p, neg, Form.finite, x, 0⟩ := by
  unfold BigFloat.setBits64
  simp only [if_neg hp, if_neg (Nat.pos_iff_ne_zero.mp hx)]
  exact round_fits _ _ hbits

/-- The float `pow5 128 k` is a rounded power of five, finite, positive and at
most `5^k * (2^128 / (2^128 - 1))^c` for some `c ≤ k`, whenever `5^k` is below
`2^E / 2` for an exponent `E` below `MaxExp`. -/
theorem pow5_approx (k E : Nat) (hK : 2 * 5 ^ k < 2 ^ E) (hE : (E : Int) < MaxExp) :
    ∃ c, c ≤ k ∧ approxPow5 (pow5 (64 + 64) k) 128 k c := by
  have hkE : k < E := by
    have h1 : 2 ^ k ≤ 5 ^ k := Nat.pow_le_pow_left (by norm_num) k
    have h2 : 0 < 5 ^ k := Nat.pow_pos (by norm_num)
    have h3 : 2 ^ k < 2 ^ E := by omega
    exact (Nat.pow_lt_pow_iff_right (by norm_num : 1 < 2)).mp h3
  have hMax : MaxExp = 2 ^ 31 - 1 := rfl
  have hk64 : k < 2 ^ 64 := by omega
  unfold pow5 pow5tabMax
  by_cases h : k ≤ 27
  · rw [if_pos h]
    have hlt : 5 ^ k < 2 ^ 128 :=
      lt_of_le_of_lt (Nat.pow_le_pow_right (by norm_num) h) (by norm_num)
    rw [setBits64_exact (64 + 64) false (5 ^ k) (by norm_num) (Nat.pow_pos (by norm_num))
      ((bitLen_le_iff _ _).mpr hlt)]
    exact ⟨0, Nat.zero_le _, rfl, rfl, rfl, Nat.pow_pos (by norm_num), le_rfl, by
      simp [BigFloat.natValue]⟩
  · rw [if_neg h]
    rw [setBits64_exact (64 + 64) false (5 ^ 27) (by norm_num) (Nat.pow_pos (by norm_num))
      ((bitLen_le_iff _ _).mpr (by norm_num)),
      setBits64_exact (64 + 64 + 64) false 5 (by norm_num) (by norm_num)
      ((bitLen_le_iff _ _).mpr (by norm_num))]
    have hz : approxPow5 ⟨64 + 64, false, Form.finite, 5 ^ 27, 0⟩ 128 27 0 :=
      ⟨rfl, rfl, rfl, Nat.pow_pos (by norm_num), le_rfl, by simp [BigFloat.natValue]⟩
    have hf : approxPow5 ⟨64 + 64 + 64, false, Form.finite, 5, 0⟩ 192 1 0 :=
      ⟨rfl, rfl, rfl, by norm_num, le_rfl, by simp [BigFloat.natValue]⟩
    have := pow5Loop_approx k E hK hE hk64 k (k - 27) _ _ 27 1 0 0 (by omega) hz (fun _ => hf)
      (by omega) (by omega) (by omega)
    rw [show 27 + (k - 27) * 1 = k by omega] at this
    exact this

/-- The quotient of a finite float by a finite float whose exponent stays in
range is the rounded quotient of the padded mantissas. -/
theorem Quo_finite_eq (zp : Nat) (zn : Bool) (zf : Form) (zm : Nat) (ze : Int)
    (xp : Nat) (xn : Bool) (xm : Nat) (xe : Int) (yp : Nat) (yn : Bool) (ym : Nat) (ye : Int)
    (hzp : zp ≠ 0)
    (hlo : MinExp ≤ xe - ye - ((zp + 2 + bitLen ym : Nat) : Int) +
      bitLen (xm * 2 ^ (zp + 2 + bitLen ym) / ym))
    (hhi : xe - ye - ((zp + 2 + bitLen ym : Nat) : Int) +
      bitLen (xm * 2 ^ (zp + 2 + bitLen ym) / ym) ≤ MaxExp) :
    BigFloat.Quo ⟨zp, zn, zf, zm, ze⟩ ⟨xp, xn, Form.finite, xm, xe⟩ ⟨yp, yn, Form.finite, ym, ye⟩ =
      BigFloat.round ⟨zp, xn != yn, Form.finite, xm * 2 ^ (zp + 2 + bitLen ym) / ym,
        xe - ye - ((zp + 2 + bitLen ym : Nat) : Int)⟩
        (decide (xm * 2 ^ (zp + 2 + bitLen ym) % ym ≠ 0)) := by
  unfold BigFloat.Quo BigFloat.uquo BigFloat.setExpAndRound BigFloat.bexp
  simp only [and_self, if_true, if_neg hzp]
  rw [if_neg (not_lt.mpr hlo), if_neg (not_lt.mpr hhi)]

/-- The quotient of a finite float by a finite float whose exponent exceeds
`MaxExp` is an infinity. -/
theorem Quo_finite_inf (zp : Nat) (zn : Bool) (zf : Form) (zm : Nat) (ze : Int)
    (xp : Nat) (xn : Bool) (xm : Nat) (xe : Int) (yp : Nat) (yn : Bool) (ym : Nat) (ye : Int)
    (hzp : zp ≠ 0)
    (hhi : MaxExp < xe - ye - ((zp + 2 + bitLen ym : Nat) : Int) +
      bitLen (xm * 2 ^ (zp + 2 + bitLen ym) / ym)) :
    BigFloat.Quo ⟨zp, zn, zf, zm, ze⟩ ⟨xp, xn, Form.finite, xm, xe⟩ ⟨yp, yn, Form.finite, ym, ye⟩ =
      ⟨zp, xn != yn, Form.inf, xm * 2 ^ (zp + 2 + bitLen ym) / ym,
        xe - ye - ((zp + 2 + bitLen ym : Nat) : Int)⟩ := by
  have hMax : MaxExp = 2 ^ 31 - 1 := rfl
  have hMin : MinExp = -(2 ^ 31) := rfl
  unfold BigFloat.Quo BigFloat.uquo BigFloat.setExpAndRound BigFloat.bexp
  simp only [and_self, if_true, if_neg hzp]
  rw [if_neg (by omega), if_pos hhi]

/-- The half-ulp lower bound of a rounded quotient, cleared of the division. -/
theorem quo_lower_gen (A B X c : Nat) (hB : 0 < B) (h : 2 * (A / B) + c ≤ X)
    (hc : A % B ≠ 0 → c = 2) : 2 * A ≤ X * B := by
  have hdm := Nat.div_add_mod A B
  have hlt := Nat.mod_lt A hB
  by_cases h0 : A % B = 0
  · have h1 : 2 * (A / B) ≤ X := by omega
    have h2 : 2 * (A / B) * B ≤ X * B := Nat.mul_le_mul_right _ h1
    have h3 : 2 * (A / B) * B = 2 * (B * (A / B)) := by ring
    omega
  · have hc2 := hc h0
    have h1 : 2 * (A / B) + 2 ≤ X := by omega
    have h2 : (2 * (A / B) + 2) * B ≤ X * B := Nat.mul_le_mul_right _ h1
    have h3 : (2 * (A / B) + 2) * B = 2 * (B * (A / B)) + 2 * B := by ring
    omega

/-- The chain of bounds from the decimal value, through the rounded power of
five, to the rounded quotient. -/
theorem quo_chain (m W Pm A2 F K2 Pe2 Dc Nc Dm D : Nat) (hF : 0 < F) (hDc : 0 < Dc)
    (hA : 2 * (m * K2) ≤ W * Pm) (hB : A2 * F ≤ 100 * m) (hC : Pm * Pe2 * Dc ≤ F * Nc)
    (hD : Nc * Dm ≤ Dc * D) :
    2 * A2 * K2 * Pe2 * Dm ≤ W * 100 * D := by
  have h : (2 * A2 * K2 * Pe2 * Dm) * (F * Dc) ≤ (W * 100 * D) * (F * Dc) := by
    calc (2 * A2 * K2 * Pe2 * Dm) * (F * Dc)
        = (A2 * F) * (2 * K2 * Pe2 * Dm * Dc) := by ring
      _ ≤ (100 * m) * (2 * K2 * Pe2 * Dm * Dc) := Nat.mul_le_mul_right _ hB
      _ = (2 * (m * K2)) * (100 * Pe2 * Dm * Dc) := by ring
      _ ≤ (W * Pm) * (100 * Pe2 * Dm * Dc) := Nat.mul_le_mul_right _ hA
      _ = (Pm * Pe2 * Dc) * (W * 100 * Dm) := by ring
      _ ≤ (F * Nc) * (W * 100 * Dm) := Nat.mul_le_mul_right _ hC
      _ = (Nc * Dm) * (W * 100 * F) := by ring
      _ ≤ (Dc * D) * (W * 100 * F) := Nat.mul_le_mul_right _ hD
      _ = (W * 100 * D) * (F * Dc) := by ring
  exact Nat.le_of_mul_le_mul_right h (Nat.mul_pos hF hDc)

/-- The mantissa of the quotient from its bound against `2^64 * (D - c)`, seven
bits below the exponent. -/
theorem sat_mant_bound (M c Y : Nat) (hc : c < 2 ^ 31)
    (h : 2 ^ 64 * (2 ^ 128 - 1 - c) * 2 ^ 7 * Y ≤ (2 * M + 1) * 100 * (2 ^ 128 - 1))
    (hM : M < 2 ^ 64) (hY : 0 < Y) : Y = 1 ∧ 11805916207174113034 ≤ M := by
  have h1 : Y = 1 := by
    by_contra hne
    have h2 : 2 ≤ Y := by omega
    have h3 : 2 ^ 64 * (2 ^ 128 - 1 - c) * 2 ^ 7 * 2 ≤ 2 ^ 64 * (2 ^ 128 - 1 - c) * 2 ^ 7 * Y :=
      Nat.mul_le_mul_left _ h2
    omega
  subst h1
  refine ⟨rfl, ?_⟩
  omega

/-- The quotient of the scanned mantissa `m * 2^(-k)` by the rounded power of
five `pow5 128 k`, for a decimal value `m / 10^k` of at least `2^63 / 100`: an
infinity, or a finite float of 64 bits close enough to saturation. -/
theorem Quo_pow5_near (neg : Bool) (m k c : Nat) (P : BigFloat) (hP : approxPow5 P 128 k c)
    (hc : c ≤ k) (hk : k < 2 ^ 31) (hbig : 2 ^ 63 * 10 ^ k ≤ 100 * m) :
    saturating (BigFloat.Quo ⟨64, neg, Form.finite, m, -(k : Int)⟩
      ⟨64, neg, Form.finite, m, -(k : Int)⟩ P) neg := by
  obtain ⟨Pp, Pn, Pf, Pm, Pe⟩ := P
  obtain ⟨hPf, -, hPn, hPm, hPe, hPv⟩ := hP
  simp only [BigFloat.natValue] at hPf hPn hPm hPe hPv
  subst hPf hPn
  obtain ⟨pe, rfl⟩ := Int.eq_ofNat_of_zero_le hPe
  simp only [Int.toNat_ofNat] at hPv
  have hneg : (neg != false) = neg := by cases neg <;> rfl
  have hm2 : 2 * 10 ^ k ≤ m := by
    generalize 10 ^ k = T at hbig ⊢
    omega
  have hmpos : 0 < m := lt_of_lt_of_le (by positivity) hm2
  have hPle : Pm * 2 ^ pe ≤ 2 * 5 ^ k := approx_value_le _ _ _ (by omega) hPv
  obtain ⟨K, hK⟩ : ∃ K, K = 64 + 2 + bitLen Pm := ⟨_, rfl⟩
  have hPm2 : Pm < 2 ^ bitLen Pm := lt_two_pow_bitLen Pm
  have hq_lo : 2 ^ 66 ≤ m * 2 ^ K / Pm := by
    rw [Nat.le_div_iff_mul_le hPm]
    have : 2 ^ K = 2 ^ 66 * 2 ^ bitLen Pm := by rw [← pow_add, hK]
    rw [this]
    calc 2 ^ 66 * Pm ≤ 2 ^ 66 * 2 ^ bitLen Pm := Nat.mul_le_mul_left _ hPm2.le
      _ ≤ m * (2 ^ 66 * 2 ^ bitLen Pm) := Nat.le_mul_of_pos_left _ hmpos
  have hq_big : 2 ^ (k + pe + K) ≤ m * 2 ^ K / Pm := by
    rw [Nat.le_div_iff_mul_le hPm]
    have h10 : (10 : Nat) ^ k = 2 ^ k * 5 ^ k := by rw [← Nat.mul_pow]
    calc 2 ^ (k + pe + K) * Pm = (2 ^ k * (Pm * 2 ^ pe)) * 2 ^ K := by
          rw [pow_add, pow_add]; ring
      _ ≤ (2 ^ k * (2 * 5 ^ k)) * 2 ^ K :=
          Nat.mul_le_mul_right _ (Nat.mul_le_mul_left _ hPle)
      _ = (2 * 10 ^ k) * 2 ^ K := by rw [h10]; ring
      _ ≤ m * 2 ^ K := Nat.mul_le_mul_right _ hm2
  have hbl_lo : 66 < bitLen (m * 2 ^ K / Pm) := (lt_bitLen_iff _ _).mpr hq_lo
  have hbl_big : k + pe + K < bitLen (m * 2 ^ K / Pm) := (lt_bitLen_iff _ _).mpr hq_big
  have hMax : MaxExp = 2 ^ 31 - 1 := rfl
  have hMin : MinExp = -(2 ^ 31) := rfl
  by_cases hov : MaxExp < -(k : Int) - pe - (K : Int) + bitLen (m * 2 ^ K / Pm)
  · have hQ := Quo_finite_inf 64 neg Form.finite m (-(k : Int)) 64 neg m (-(k : Int)) Pp false Pm
      pe (by norm_num)
    rw [← hK] at hQ
    rw [hQ hov]
    exact Or.inl ⟨rfl, hneg⟩
  have hQ := Quo_finite_eq 64 neg Form.finite m (-(k : Int)) 64 neg m (-(k : Int)) Pp false Pm pe
    (by norm_num)
  rw [← hK] at hQ
  rw [hQ (by omega) (by omega)]
  rcases round_spec_inf ⟨64, neg != false, Form.finite, m * 2 ^ K / Pm, -(k : Int) - pe - (K : Int)⟩
      (decide (m * 2 ^ K % Pm ≠ 0)) rfl (by norm_num) (by simp only; omega) with
    ⟨hinf, hn⟩ | ⟨M, t, hr, ht, hMlo, hMhi, hup, hlow⟩
  · exact Or.inl ⟨hinf, by rw [hn]; exact hneg⟩
  simp only at hr hMlo hMhi hup hlow
  rw [hr]
  have hA : 2 * (m * 2 ^ K) ≤ (2 * (M * 2 ^ t) + 2 ^ t) * Pm :=
    quo_lower_gen (m * 2 ^ K) Pm _ _ hPm hlow (fun h => by simp [h])
  have hB : 2 ^ 63 * 2 ^ k * 5 ^ k ≤ 100 * m := by
    have : (10 : Nat) ^ k = 2 ^ k * 5 ^ k := by rw [← Nat.mul_pow]
    rw [this] at hbig
    calc 2 ^ 63 * 2 ^ k * 5 ^ k = 2 ^ 63 * (2 ^ k * 5 ^ k) := by ring
      _ ≤ 100 * m := hbig
  have hc' : c < 2 ^ 31 := by omega
  have hBern := bernoulli_bound (2 ^ 128 - 1) c (by omega)
  rw [show (2 : Nat) ^ 128 - 1 + 1 = 2 ^ 128 by norm_num, pow_succ (2 ^ 128 - 1) c] at hBern
  have hG := quo_chain m (2 * (M * 2 ^ t) + 2 ^ t) Pm (2 ^ 63 * 2 ^ k) (5 ^ k) (2 ^ K) (2 ^ pe)
    ((2 ^ 128 - 1) ^ c) ((2 ^ 128) ^ c) (2 ^ 128 - 1 - c) (2 ^ 128 - 1)
    (Nat.pow_pos (by norm_num)) (Nat.pow_pos (by norm_num)) hA hB hPv hBern
  have hM64 : M < 2 ^ 64 := hMhi
  have hM63 : 2 ^ 63 ≤ M := hMlo
  have hMpos : 0 < M := lt_of_lt_of_le (by norm_num) hM63
  refine Or.inr ⟨M, -(k : Int) - pe - (K : Int) + t, by rw [hneg], hMpos, hM64, ?_⟩
  by_cases hT : k + pe + K ≤ t + 6
  · by_cases he : 0 ≤ -(k : Int) - pe - (K : Int) + t
    · left
      refine ⟨he, ?_⟩
      calc 2 ^ 63 ≤ M := hM63
        _ ≤ 100 * M := Nat.le_mul_of_pos_left _ (by norm_num)
        _ ≤ 100 * M * 2 ^ (-(k : Int) - pe - (K : Int) + t).toNat :=
          Nat.le_mul_of_pos_right _ (Nat.pow_pos (by norm_num))
    · right; left
      refine ⟨by omega, ?_⟩
      have h1 : (2 : Nat) ^ (-(-(k : Int) - pe - (K : Int) + t)).toNat ≤ 2 ^ 6 :=
        Nat.pow_le_pow_right (by norm_num) (by omega)
      calc 2 ^ 63 * 2 ^ (-(-(k : Int) - pe - (K : Int) + t)).toNat ≤ 2 ^ 63 * 2 ^ 6 :=
          Nat.mul_le_mul_left _ h1
        _ ≤ 100 * 2 ^ 63 := by norm_num
        _ ≤ 100 * M := Nat.mul_le_mul_left _ hM63
  · right; right
    obtain ⟨j, hj⟩ : ∃ j, k + pe + K = t + 7 + j := ⟨k + pe + K - (t + 7), by omega⟩
    have hpow : 2 ^ k * 2 ^ K * 2 ^ pe = 2 ^ 7 * 2 ^ j * 2 ^ t := by
      rw [← pow_add, ← pow_add, ← pow_add, ← pow_add]
      congr 1
      omega
    have hG2 : (2 ^ 64 * (2 ^ 128 - 1 - c) * 2 ^ 7 * 2 ^ j) * 2 ^ t ≤
        ((2 * M + 1) * 100 * (2 ^ 128 - 1)) * 2 ^ t := by
      calc (2 ^ 64 * (2 ^ 128 - 1 - c) * 2 ^ 7 * 2 ^ j) * 2 ^ t
          = 2 ^ 64 * (2 ^ 128 - 1 - c) * (2 ^ 7 * 2 ^ j * 2 ^ t) := by ring
        _ = 2 ^ 64 * (2 ^ 128 - 1 - c) * (2 ^ k * 2 ^ K * 2 ^ pe) := by rw [hpow]
        _ = 2 * (2 ^ 63 * 2 ^ k) * 2 ^ K * 2 ^ pe * (2 ^ 128 - 1 - c) := by ring
        _ ≤ (2 * (M * 2 ^ t) + 2 ^ t) * 100 * (2 ^ 128 - 1) := hG
        _ = ((2 * M + 1) * 100 * (2 ^ 128 - 1)) * 2 ^ t := by ring
    have hG3 := Nat.le_of_mul_le_mul_right hG2 (Nat.pow_pos (by norm_num))
    obtain ⟨hj1, hC⟩ := sat_mant_bound M c (2 ^ j) hc' hG3 hM64 (Nat.pow_pos (by norm_num))
    have hj0 : j = 0 := by
      by_contra hne
      have : 2 ^ 1 ≤ 2 ^ j := Nat.pow_le_pow_right (by norm_num) (by omega)
      omega
    exact ⟨by omega, hC⟩

/-- An integer of at least `2^63 / 100` rounded to 64 bits is an infinity or
close enough to saturation. -/
theorem round_int_near (neg : Bool) (m : Nat) (hbig : 2 ^ 63 ≤ 100 * m) :
    saturating (BigFloat.round ⟨64, neg, Form.finite, m, 0⟩ false) neg := by
  have hmpos : 0 < m := by
    by_contra h0
    have h1 : m = 0 := by omega
    subst h1
    norm_num at hbig
  by_cases hbits : bitLen m ≤ 64
  · rw [round_fits _ _ hbits]
    refine Or.inr ⟨m, 0, rfl, hmpos, (bitLen_le_iff _ _).mp hbits, ?_⟩
    left
    refine ⟨le_rfl, ?_⟩
    simpa using hbig
  · rcases round_spec_inf ⟨64, neg, Form.finite, m, 0⟩ false rfl (by norm_num)
        (by simp only; omega) with ⟨hinf, hn⟩ | ⟨M, t, hr, ht, hMlo, hMhi, hup, -⟩
    · exact Or.inl ⟨hinf, hn⟩
    simp only at hr hMlo hMhi hup
    have hM63 : 2 ^ 63 ≤ M := hMlo
    refine Or.inr ⟨M, 0 + (t : Int), hr, lt_of_lt_of_le (by norm_num) hM63, hMhi, ?_⟩
    left
    refine ⟨by omega, ?_⟩
    calc 2 ^ 63 ≤ M := hM63
      _ ≤ 100 * M := Nat.le_mul_of_pos_left _ (by norm_num)
      _ ≤ 100 * M * 2 ^ (0 + (t : Int)).toNat :=
        Nat.le_mul_of_pos_right _ (Nat.pow_pos (by norm_num))

/-- A rounding to 64 bits whose shift is at most 6 cannot reach `2^70 - 24`. -/
theorem carry_forced (M t q : Nat) (hM : M < 2 ^ 64) (hq : 2 ^ 70 ≤ q + 24)
    (hlow : 2 * q ≤ 2 * (M * 2 ^ t) + 2 ^ t) : 7 ≤ t := by
  by_contra hcon
  have h1 : 2 ^ t ≤ 2 ^ 6 := Nat.pow_le_pow_right (by norm_num) (by omega)
  have h2 : (2 * M + 1) * 2 ^ t ≤ (2 ^ 65 - 1) * 2 ^ 6 := Nat.mul_le_mul (by omega) h1
  have h3 : (2 * M + 1) * 2 ^ t = 2 * (M * 2 ^ t) + 2 ^ t := by ring
  omega

/-- The length of a number rounded to 64 bits is at most 64 plus the shift. -/
theorem bits_le_shift (M t q : Nat) (hM : M < 2 ^ 64)
    (hlow : 2 * q ≤ 2 * (M * 2 ^ t) + 2 ^ t) : bitLen q ≤ 64 + t := by
  rw [bitLen_le_iff, pow_add]
  have h1 : (2 * M + 1) * 2 ^ t ≤ (2 ^ 65 - 1) * 2 ^ t := Nat.mul_le_mul_right _ (by omega)
  have h2 : (2 * M + 1) * 2 ^ t = 2 * (M * 2 ^ t) + 2 ^ t := by ring
  have h3 : (2 ^ 65 - 1) * 2 ^ t + 2 ^ t = 2 * (2 ^ 64 * 2 ^ t) := by
    have : (2 ^ 65 - 1) * 2 ^ t + 2 ^ t = (2 ^ 65 - 1 + 1) * 2 ^ t := by ring
    rw [this]
    norm_num
    ring
  have h4 : 0 < 2 ^ t := Nat.pow_pos (by norm_num)
  omega

/-- The exponent of `100 * M * 2^e` for a value close enough to saturation:
64 or more, or 63 with a product of at least `2^70 - 24` seven bits down. -/
theorem near_bexp (M : Nat) (e : Int) (h : nearSaturation M e) :
    64 ≤ e + bitLen (M * 100) ∨ (e = -7 ∧ 2 ^ 70 ≤ M * 100 + 24 ∧ 69 < bitLen (M * 100)) := by
  obtain ⟨hMpos, hM, h1 | h2 | h3⟩ := h
  · left
    obtain ⟨h0, hv⟩ := h1
    obtain ⟨n, rfl⟩ := Int.eq_ofNat_of_zero_le h0
    simp only [Int.toNat_ofNat] at hv
    have hlt : M * 100 < 2 ^ bitLen (M * 100) := lt_two_pow_bitLen _
    have h3 : 2 ^ 63 < 2 ^ (bitLen (M * 100) + n) := by
      rw [pow_add]
      calc 2 ^ 63 ≤ 100 * M * 2 ^ n := hv
        _ = M * 100 * 2 ^ n := by ring
        _ < 2 ^ bitLen (M * 100) * 2 ^ n :=
          Nat.mul_lt_mul_of_pos_right hlt (Nat.pow_pos (by norm_num))
    have h4 := (Nat.pow_lt_pow_iff_right (by norm_num : 1 < 2)).mp h3
    omega
  · left
    obtain ⟨h0, hv⟩ := h2
    obtain ⟨n, hn⟩ : ∃ n : Nat, e = -(n : Int) := ⟨(-e).toNat, by omega⟩
    subst hn
    simp only [neg_neg, Int.toNat_ofNat] at hv
    have h3 : 63 + n < bitLen (M * 100) := by
      rw [lt_bitLen_iff, pow_add]
      calc 2 ^ 63 * 2 ^ n ≤ 100 * M := hv
        _ = M * 100 := by ring
    omega
  · right
    obtain ⟨h0, hv⟩ := h3
    refine ⟨h0, by omega, ?_⟩
    rw [lt_bitLen_iff]
    omega

/-- The product with `big.NewFloat(100)` of a finite float close enough to
saturation is an infinity or a finite float of exponent 64 or more, of the
same sign. -/
theorem Mul_hundred_big (neg : Bool) (M : Nat) (e : Int) (h : nearSaturation M e) :
    (BigFloat.Mul ⟨64, neg, Form.finite, M, e⟩ ⟨64, neg, Form.finite, M, e⟩ hundred).neg = neg ∧
      ((BigFloat.Mul ⟨64, neg, Form.finite, M, e⟩ ⟨64, neg, Form.finite, M, e⟩ hundred).form =
          Form.inf ∨
        ((BigFloat.Mul ⟨64, neg, Form.finite, M, e⟩ ⟨64, neg, Form.finite, M, e⟩ hundred).form =
          Form.finite ∧
        64 ≤ (BigFloat.Mul ⟨64, neg, Form.finite, M, e⟩ ⟨64, neg, Form.finite, M, e⟩
          hundred).bexp)) := by
  have hb := near_bexp M e h
  obtain ⟨hMpos, hM, -⟩ := h
  have hMax : MaxExp = 2 ^ 31 - 1 := rfl
  have hMin : MinExp = -(2 ^ 31) := rfl
  have hβ : 63 ≤ e + bitLen (M * 100) := by
    rcases hb with h1 | ⟨h1, -, h2⟩ <;> omega
  have hneg : (neg != false) = neg := by cases neg <;> rfl
  unfold hundred
  by_cases hov : MaxExp < e + 0 + bitLen (M * 100)
  · rw [Mul_finite_inf 64 neg Form.finite M e 64 neg M e 53 false 100 0 (by norm_num) hov]
    exact ⟨hneg, Or.inl rfl⟩
  rw [Mul_finite_eq 64 neg Form.finite M e 64 neg M e 53 false 100 0 (by norm_num) (by omega)
    (by omega)]
  rw [hneg, add_zero]
  by_cases hbits : bitLen (M * 100) ≤ 64
  · rw [round_fits _ _ hbits]
    refine ⟨rfl, Or.inr ⟨rfl, ?_⟩⟩
    simp only [BigFloat.bexp]
    rcases hb with h1 | ⟨h1, -, h2⟩ <;> omega
  · rcases round_spec_inf ⟨64, neg, Form.finite, M * 100, e⟩ false rfl (by norm_num)
        (by simp only; omega) with ⟨hinf, hn⟩ | ⟨M', t, hr, ht, hMlo, hMhi, -, hlow⟩
    · exact ⟨hn, Or.inl hinf⟩
    simp only [Bool.false_eq_true, if_false, add_zero] at hr hMlo hMhi hlow
    rw [hr]
    refine ⟨rfl, Or.inr ⟨rfl, ?_⟩⟩
    simp only [BigFloat.bexp]
    have hbM : bitLen M' = 64 := by
      have h1 : bitLen M' ≤ 64 := (bitLen_le_iff _ _).mpr hMhi
      have h2 : 63 < bitLen M' := (lt_bitLen_iff _ _).mpr hMlo
      omega
    have hsh := bits_le_shift M' t _ hMhi hlow
    rcases hb with h1 | ⟨h1, h2, -⟩
    · omega
    · have := carry_forced M' t _ hMhi h2 hlow
      omega

/-- The conversion to `int64` of an infinity or of a finite float of exponent
64 or more saturates. -/
theorem Int64_saturated (g : BigFloat)
    (h : g.form = Form.inf ∨ (g.form = Form.finite ∧ 64 ≤ g.bexp)) :
    g.Int64 = if g.neg = true then minInt64 else maxInt64 := by
  unfold BigFloat.Int64
  rcases h with h | ⟨h, hb⟩
  · rw [h]
  · rw [h]
    simp only
    rw [if_neg (by omega), if_neg (by omega)]

/-- The product with `big.NewFloat(100)` of an infinity is an infinity of the
same sign. -/
theorem Mul_inf_hundred (f : BigFloat) (h : f.form = Form.inf) :
    (f.Mul f hundred).form = Form.inf ∧ (f.Mul f hundred).neg = f.neg := by
  obtain ⟨p, b, fm, m, e⟩ := f
  simp only at h
  subst h
  unfold BigFloat.Mul hundred
  simp only
  rw [if_neg (by simp), if_neg (by simp), if_pos (Or.inl True.intro)]
  exact ⟨rfl, by cases b <;> rfl⟩

/-- The product with 100 of a float that is an infinity or close enough to
saturation converts to the end of the `int64` range on its side. -/
theorem Mul_saturating (f : BigFloat) (neg : Bool) (h : saturating f neg) :
    (f.Mul f hundred).Int64 = if neg = true then minInt64 else maxInt64 := by
  rcases h with ⟨hinf, hn⟩ | ⟨M, e, hf, hnear⟩
  · obtain ⟨h1, h2⟩ := Mul_inf_hundred f hinf
    rw [Int64_saturated _ (Or.inl h1), h2, hn]
  · subst hf
    obtain ⟨hn, hform⟩ := Mul_hundred_big neg M e hnear
    rw [Int64_saturated _ hform, hn]

theorem digitsVal_lt (ds : List Char) (h : ∀ c ∈ ds, isDecDigit c) :
    ∀ z : Nat, digitsVal z ds < (z + 1) * 10 ^ ds.length := by
  induction ds with
  | nil => intro z; simp [digitsVal]
  | cons c ds ih =>
    intro z
    have hc := (decDigit_facts c (h c (List.mem_cons_self _ _))).2.2
    have h1 := ih (fun d hd => h d (List.mem_cons_of_mem _ hd)) (z * 10 + (c.toNat - 48))
    have h2 : (z * 10 + (c.toNat - 48) + 1) * 10 ^ ds.length ≤ ((z + 1) * 10) * 10 ^ ds.length :=
      Nat.mul_le_mul_right _ (by omega)
    have h3 : digitsVal z (c :: ds) = digitsVal (z * 10 + (c.toNat - 48)) ds := rfl
    rw [h3, List.length_cons, pow_succ]
    calc digitsVal (z * 10 + (c.toNat - 48)) ds < (z * 10 + (c.toNat - 48) + 1) * 10 ^ ds.length := h1
      _ ≤ ((z + 1) * 10) * 10 ^ ds.length := h2
      _ = (z + 1) * (10 ^ ds.length * 10) := by ring

/-- The value of `n` decimal digits is below `10^n`. -/
theorem decimalValue_lt (ds : List Char) (h : ∀ c ∈ ds, isDecDigit c) :
    decimalValue ds < 10 ^ ds.length := by
  have := digitsVal_lt ds h 0
  simpa [decimalValue] using this

theorem digitsVal_ge (ds : List Char) : ∀ z : Nat, z * 10 ^ ds.length ≤ digitsVal z ds := by
  induction ds with
  | nil => intro z; simp [digitsVal]
  | cons c ds ih =>
    intro z
    have h1 := ih (z * 10 + (c.toNat - 48))
    have h3 : digitsVal z (c :: ds) = digitsVal (z * 10 + (c.toNat - 48)) ds := rfl
    rw [h3, List.length_cons, pow_succ]
    calc z * (10 ^ ds.length * 10) = (z * 10) * 10 ^ ds.length := by ring
      _ ≤ (z * 10 + (c.toNat - 48)) * 10 ^ ds.length := Nat.mul_le_mul_right _ (by omega)
      _ ≤ digitsVal (z * 10 + (c.toNat - 48)) ds := h1

/-- The scan of an unsigned decimal number with a nonzero value ends in
`scanFinish` with the value of the digits and minus the number of fractional
digits as decimal exponent. -/
theorem scanBody_decimal (neg : Bool) (cs ip fp : List Char) (h : isUnsignedDecimalOf cs ip fp)
    (hm : decimalValue (ip ++ fp) ≠ 0) :
    scanBody neg cs = scanFinish neg (decimalValue (ip ++ fp))
      ((bitLen (decimalValue (ip ++ fp)) : Int) + -(fp.length : Int) + 0)
      (-(fp.length : Int) + 0) [] := by
  obtain ⟨h1, h2, h3, h4, h5⟩ := natScan_decimal cs ip fp h
  have he : scanExponent [] = ⟨0, 10, false, []⟩ := rfl
  unfold scanBody scanExp2 scanExp5
  rw [h4, he, h5, h3, h2, h1]
  simp only [Bool.false_eq_true, if_false, if_neg hm, true_or, if_true]

/-- Cancelling a power of two in a strict bound by a power of two. -/
theorem pow_two_cancel (T A B : Nat) (hT : 0 < T) (h : T * 2 ^ A < 2 ^ B) :
    A ≤ B ∧ T < 2 ^ (B - A) := by
  have he : A ≤ B := by
    by_contra hcon
    have h1 : 2 ^ B ≤ 2 ^ A := Nat.pow_le_pow_right (by norm_num) (by omega)
    have h2 : 2 ^ A ≤ T * 2 ^ A := Nat.le_mul_of_pos_left _ hT
    omega
  refine ⟨he, ?_⟩
  have h4 : 2 ^ B = 2 ^ (B - A) * 2 ^ A := by
    rw [← pow_add]
    congr 1
    omega
  rw [h4] at h
  exact Nat.lt_of_mul_lt_mul_right h

/-- The float scanned from a decimal number `m / 10^k` of at least `2^63 / 100`
whose binary exponent passes the range check is an infinity or close enough to
saturation. -/
theorem scanFinish_decimal_sat (neg : Bool) (m k : Nat)
    (hrange : (bitLen m : Int) - (k : Int) ≤ MaxExp) (hbig : 2 ^ 63 * 10 ^ k ≤ 100 * m) :
    ∃ f, scanFinish neg m ((bitLen m : Int) + -(k : Int) + 0) (-(k : Int) + 0) [] =
        some (f, []) ∧ saturating f neg := by
  have hMax : MaxExp = 2 ^ 31 - 1 := rfl
  have hMin : MinExp = -(2 ^ 31) := rfl
  have h10 : (10 : Nat) ^ k = 2 ^ k * 5 ^ k := by rw [← Nat.mul_pow]
  have h5 : 0 < 5 ^ k := Nat.pow_pos (by norm_num)
  have hmB : m < 2 ^ bitLen m := lt_two_pow_bitLen m
  -- 2 * 5^k * 2^(62 + k) < 2^(7 + bitLen m)
  have hlt : (2 * 5 ^ k) * 2 ^ (62 + k) < 2 ^ (7 + bitLen m) := by
    have e1 : (2 * 5 ^ k) * 2 ^ (62 + k) = 2 ^ 63 * 10 ^ k := by
      rw [h10, pow_add]; ring
    have e2 : 2 ^ (7 + bitLen m) = 128 * 2 ^ bitLen m := by
      rw [pow_add]; norm_num
    rw [e1, e2]
    omega
  obtain ⟨hle, hE⟩ := pow_two_cancel _ _ _ (by positivity) hlt
  have hkE : k < 7 + bitLen m - (62 + k) := by
    have h1 : 2 ^ k ≤ 5 ^ k := Nat.pow_le_pow_left (by norm_num) k
    have h3 : 2 ^ k < 2 ^ (7 + bitLen m - (62 + k)) := by omega
    exact (Nat.pow_lt_pow_iff_right (by norm_num : 1 < 2)).mp h3
  have hk31 : k < 2 ^ 31 := by omega
  unfold scanFinish
  rw [if_pos ⟨by omega, by omega⟩]
  have hexp : (bitLen m : Int) + -(k : Int) + 0 - (bitLen m : Int) = -(k : Int) := by omega
  rw [hexp]
  by_cases hk : k = 0
  · subst hk
    rw [if_pos (by simp)]
    simp only [Nat.cast_zero, neg_zero]
    exact ⟨_, rfl, round_int_near neg m (by simpa using hbig)⟩
  · rw [if_neg (by omega), if_pos (by omega)]
    have hk' : (-(-(k : Int) + 0)).toNat = k := by omega
    rw [hk']
    obtain ⟨c, hc, hP⟩ := pow5_approx k (7 + bitLen m - (62 + k)) hE (by omega)
    exact ⟨_, rfl, Quo_pow5_near neg m k c _ hP hc hk31 hbig⟩

/-- The scan of a decimal number whose binary exponent exceeds `MaxExp` fails
with an exponent overflow. -/
theorem scanFinish_decimal_rejected (neg : Bool) (m k : Nat)
    (hover : MaxExp < (bitLen m : Int) - (k : Int)) :
    scanFinish neg m ((bitLen m : Int) + -(k : Int) + 0) (-(k : Int) + 0) [] = none := by
  unfold scanFinish
  rw [if_neg]
  omega

/-- The scan of an unsigned decimal number whose value times 100 is at least
`2^63` and whose binary exponent is at most `MaxExp`, with either sign: a
float whose product with 100 converts to the end of the `int64` range on its
side. -/
theorem scanBody_saturates (neg : Bool) (cs ip fp : List Char)
    (h : isUnsignedDecimalOf cs ip fp) (hrange : decimalExp2 ip fp ≤ MaxExp)
    (hbig : 2 ^ 63 * 10 ^ fp.length ≤ 100 * decimalValue (ip ++ fp)) :
    ∃ f, scanBody neg cs = some (f, []) ∧
      (f.Mul f hundred).Int64 = if neg = true then minInt64 else maxInt64 := by
  have hne : decimalValue (ip ++ fp) ≠ 0 := by
    intro h0
    rw [h0] at hbig
    have : 0 < 2 ^ 63 * 10 ^ fp.length := by positivity
    omega
  obtain ⟨f, hs, hsat⟩ := scanFinish_decimal_sat neg (decimalValue (ip ++ fp)) fp.length
    hrange hbig
  exact ⟨f, by rw [scanBody_decimal neg cs ip fp h hne, hs], Mul_saturating f neg hsat⟩

/-- The scan of an unsigned decimal number with a nonzero value whose binary
exponent exceeds `MaxExp` fails, with either sign. -/
theorem scanBody_rejected (neg : Bool) (cs ip fp : List Char)
    (h : isUnsignedDecimalOf cs ip fp) (hne : decimalValue (ip ++ fp) ≠ 0)
    (hover : MaxExp < decimalExp2 ip fp) : scanBody neg cs = none := by
  rw [scanBody_decimal neg cs ip fp h hne]
  exact scanFinish_decimal_rejected neg _ _ hover

/-- The number of characters of an unsigned decimal number bounds its number of
digits. -/
theorem decimal_length (cs ip fp : List Char) (h : isUnsignedDecimalOf cs ip fp) :
    (ip ++ fp).length ≤ cs.length := by
  obtain ⟨-, -, -, ⟨h1, h2⟩ | h1⟩ := h
  · subst h1 h2
    simp
  · subst h1
    simp

set_option maxRecDepth 100000 in
theorem ten_pow_21306 : ((10 : Nat) ^ 106) ^ 201 ≤ (2 ^ 256) ^ 256 * (2 ^ 256) ^ 20 * 2 ^ 121 := by
  decide

set_option maxRecDepth 100000 in
theorem ten_pow_11646 : ((10 : Nat) ^ 54) ^ 215 * 10 ^ 36 ≤ (2 ^ 256) ^ 151 * 2 ^ 34 := by
  decide

/-- Bounds of two powers of ten by powers of two combine along a division with
remainder of the exponent. -/
theorem pow_le_pow_combine (a b c d q n E : Nat) (h1 : 10 ^ a ≤ 2 ^ b) (h2 : 10 ^ c ≤ 2 ^ d)
    (hn : n ≤ a * q + c) (hE : b * q + d ≤ E) : 10 ^ n ≤ 2 ^ E := by
  calc 10 ^ n ≤ 10 ^ (a * q + c) := Nat.pow_le_pow_right (by decide) hn
    _ = (10 ^ a) ^ q * 10 ^ c := by rw [pow_add, pow_mul]
    _ ≤ (2 ^ b) ^ q * 2 ^ d := Nat.mul_le_mul (Nat.pow_le_pow_left h1 _) h2
    _ = 2 ^ (b * q + d) := by rw [pow_add, pow_mul]
    _ ≤ 2 ^ E := Nat.pow_le_pow_right (by decide) hE

/-- A power of ten with at most 646456992 digits is below `2^E` for every
`E ≥ 2^31 - 1`: `10^21306 ≤ 2^70777` and `10^11646 ≤ 2^38690`, with
`646456992 = 21306 * 30341 + 11646` and `2^31 - 1 = 70777 * 30341 + 38690`. -/
theorem ten_pow_le_two_pow (n E : Nat) (hn : n ≤ 646456992) (hE : 2147483647 ≤ E) :
    10 ^ n ≤ 2 ^ E := by
  have ha : (10 : Nat) ^ (106 * 201) ≤ 2 ^ (256 * 256 + 256 * 20 + 121) := by
    rw [pow_mul, pow_add, pow_add, pow_mul, pow_mul]
    exact ten_pow_21306
  have hb : (10 : Nat) ^ (54 * 215 + 36) ≤ 2 ^ (256 * 151 + 34) := by
    rw [pow_add, pow_mul, pow_add, pow_mul]
    exact ten_pow_11646
  exact pow_le_pow_combine _ _ _ _ 30341 n E ha hb (by omega) (by omega)

/-- An unsigned decimal number of at most 646456992 characters has a binary
exponent of at most `MaxExp`. -/
theorem decimalExp2_le_of_length (cs ip fp : List Char) (h : isUnsignedDecimalOf cs ip fp)
    (hlen : cs.length ≤ 646456992) : decimalExp2 ip fp ≤ MaxExp := by
  have hdig : ∀ c ∈ ip ++ fp, isDecDigit c := by
    intro c hc
    rcases List.mem_append.mp hc with h1 | h1
    · exact h.2.1 c h1
    · exact h.2.2.1 c h1
  have hlt := decimalValue_lt (ip ++ fp) hdig
  have hl := decimal_length cs ip fp h
  obtain ⟨E, hE⟩ : ∃ E : Nat, E = 2147483647 := ⟨_, rfl⟩
  have hpow := ten_pow_le_two_pow (ip ++ fp).length E (by omega) (by omega)
  have hbits : bitLen (decimalValue (ip ++ fp)) ≤ E :=
    (bitLen_le_iff _ _).mpr (lt_of_lt_of_le hlt hpow)
  have hMax : MaxExp = 2 ^ 31 - 1 := rfl
  unfold decimalExp2
  omega

/-- An unsigned decimal string whose value times 100 is at least `2^63` and
whose binary exponent is at most `MaxExp` parses to the maximum `int64`, and
with `-` in front to the minimum `int64`, with a nil error. -/
theorem parseToInt64_saturates (s : String) (ip fp : List Char)
    (h : isUnsignedDecimalOf s.toList ip fp) (hrange : decimalExp2 ip fp ≤ MaxExp)
    (hbig : 2 ^ 63 * 10 ^ fp.length ≤ 100 * decimalValue (ip ++ fp)) :
    parseToInt64 s = (maxInt64, none) ∧ parseToInt64 ("-" ++ s) = (minInt64, none) := by
  obtain ⟨c, cs, hs, hd⟩ := unsignedDecimal_head s ⟨ip, fp, h⟩
  obtain ⟨f, hf, hv⟩ := scanBody_saturates false s.toList ip fp h hrange hbig
  obtain ⟨g, hg, hw⟩ := scanBody_saturates true s.toList ip fp h hrange hbig
  rw [hs] at hf hg
  constructor
  · unfold parseToInt64 BigFloat.SetString
    rw [Parse_digit_head s c cs hs hd, hf]
    simp only
    rw [hv]
    rfl
  · unfold parseToInt64 BigFloat.SetString
    rw [Parse_minus_digit_head s c cs hs hd, hg]
    simp only
    rw [hw]
    rfl

/-- An unsigned decimal string with a nonzero value whose binary exponent
exceeds `MaxExp` is rejected by `parseToInt64`, with or without `-` in
front. -/
theorem parseToInt64_rejected (s : String) (ip fp : List Char)
    (h : isUnsignedDecimalOf s.toList ip fp) (hne : decimalValue (ip ++ fp) ≠ 0)
    (hover : MaxExp < decimalExp2 ip fp) :
    parseToInt64 s = (0, some ("invalid value: " ++ s)) ∧
      parseToInt64 ("-" ++ s) = (0, some ("invalid value: " ++ ("-" ++ s))) := by
  obtain ⟨c, cs, hs, hd⟩ := unsignedDecimal_head s ⟨ip, fp, h⟩
  have hf := scanBody_rejected false s.toList ip fp h hne hover
  have hg := scanBody_rejected true s.toList ip fp h hne hover
  rw [hs] at hf hg
  constructor
  · unfold parseToInt64 BigFloat.SetString
    rw [Parse_digit_head s c cs hs hd, hf]
  · unfold parseToInt64 BigFloat.SetString
    rw [Parse_minus_digit_head s c cs hs hd, hg]

/-- A nine followed by `N` nines is an unsigned decimal number of value at
least `10^N`. -/
theorem nines_decimal (N : Nat) :
    isUnsignedDecimalOf ('9' :: List.replicate N '9') ('9' :: List.replicate N '9') [] ∧
      10 ^ N ≤ decimalValue (('9' :: List.replicate N '9') ++ []) := by
  refine ⟨⟨List.cons_ne_nil _ _, ?_, ?_, Or.inl ⟨rfl, rfl⟩⟩, ?_⟩
  · intro c hc
    rcases List.mem_cons.mp hc with h | h
    · rw [h]; decide
    · rw [List.eq_of_mem_replicate h]; decide
  · intro c hc
    exact absurd hc (List.not_mem_nil c)
  · rw [List.append_nil]
    have h1 := digitsVal_ge (List.replicate N '9') (0 * 10 + (('9' : Char).toNat - 48))
    rw [List.length_replicate] at h1
    have h2 : decimalValue ('9' :: List.replicate N '9') =
        digitsVal (0 * 10 + (('9' : Char).toNat - 48)) (List.replicate N '9') := rfl
    rw [h2]
    have h3 : 0 * 10 + (('9' : Char).toNat - 48) = 9 := by decide
    rw [h3] at h1 ⊢
    calc 10 ^ N ≤ 9 * 10 ^ N := Nat.le_mul_of_pos_left _ (by norm_num)
      _ ≤ digitsVal 9 (List.replicate N '9') := h1

/-- The binary exponent of a nine followed by `N ≥ 7 * j` nines, where
`23 * j` reaches `MaxExp`, exceeds `MaxExp`: `10^7 ≥ 2^23`. -/
theorem nines_exp2 (N j : Nat) (h7 : 7 * j ≤ N) (h23 : 2 ^ 31 - 1 ≤ 23 * j) :
    MaxExp < decimalExp2 ('9' :: List.replicate N '9') [] := by
  have hval := (nines_decimal N).2
  unfold decimalExp2
  generalize decimalValue (('9' :: List.replicate N '9') ++ []) = m at hval ⊢
  have hpow : 2 ^ (23 * j) ≤ m := by
    calc 2 ^ (23 * j) = (2 ^ 23) ^ j := by rw [pow_mul]
      _ ≤ (10 ^ 7) ^ j := Nat.pow_le_pow_left (by norm_num) j
      _ = 10 ^ (7 * j) := by rw [pow_mul]
      _ ≤ 10 ^ N := Nat.pow_le_pow_right (by decide) h7
      _ ≤ m := hval
  have hbits : 23 * j < bitLen m := (lt_bitLen_iff _ _).mpr hpow
  have hMax : MaxExp = 2 ^ 31 - 1 := rfl
  have hl : (([] : List Char).length : Int) = 0 := rfl
  rw [hl]
  omega

/-- The value of a nine followed by at least 20 nines, times 100, is above
`2^63`, and is not zero. -/
theorem nines_big (N : Nat) (hN : 20 ≤ N) :
    2 ^ 63 * 10 ^ ([] : List Char).length ≤
        100 * decimalValue (('9' :: List.replicate N '9') ++ []) ∧
      decimalValue (('9' :: List.replicate N '9') ++ []) ≠ 0 := by
  have h1 := (nines_decimal N).2
  have h2 : (10 : Nat) ^ 20 ≤ 10 ^ N := Nat.pow_le_pow_right (by decide) hN
  generalize decimalValue (('9' :: List.replicate N '9') ++ []) = m at h1 ⊢
  generalize (10 : Nat) ^ N = P at h1 h2
  have h3 : (10 : Nat) ^ 20 = 100000000000000000000 := by norm_num
  have h4 : (2 : Nat) ^ 63 * 10 ^ ([] : List Char).length = 9223372036854775808 := by
    norm_num
  constructor <;> omega

/-- The string `longNines` has 700000000 characters. -/
theorem longNines_length : longNines.length = 700000000 := by
  unfold longNines
  rw [String.length_mk, List.length_cons, List.length_replicate]

/-! ## The claims -/

set_option maxRecDepth 100000 in
/-- C1 (evaluation at the failing input): the decimal string `0.53` is 53 cents
exactly, yet `parseToInt64` returns 52 with a nil error, because 0.53 is rounded
to a 64-bit binary mantissa below 0.53 before it is multiplied by 100 and
truncated. -/
theorem C1_parseToInt64_loses_a_cent : parseToInt64 "0.53" = (52, none) := by
  decide

set_option maxRecDepth 100000 in
/-- C2 (evaluation at the failing input): formatting 53 cents gives `0.53`, and
parsing that string back gives 52, not 53. -/
theorem C2_round_trip_fails_at_53 :
    formatInt64ToString 53 = "0.53" ∧ parseToInt64 (formatInt64ToString 53) = (52, none) := by
  decide

/-- C3: for every `int64` value `v` (the smallest and the largest included),
`formatInt64ToString v` is a `-` exactly when `v < 0`, then the base-10 digits
of `|v| / 100` (integer division; `0` when the quotient is 0), then `.`, then
`|v| % 100` on exactly two digits. -/
theorem C3_formatInt64ToString (v : Int) (h : inInt64 v) :
    formatInt64ToString v =
      (if v < 0 then "-" else "") ++ Nat.repr (v.natAbs / 100) ++ "." ++
        String.mk [Nat.digitChar (v.natAbs % 100 / 10), Nat.digitChar (v.natAbs % 10)] :=
  formatInt64ToString_spec v h

set_option maxRecDepth 100000 in
/-- Witness of C3: the smallest `int64` is printed as `-92233720368547758.08`. -/
theorem C3_formatInt64ToString_witness :
    inInt64 (-9223372036854775808) ∧
    formatInt64ToString (-9223372036854775808) = "-92233720368547758.08" :=
  ⟨by decide, C3_formatInt64ToString (-9223372036854775808) (by decide)⟩

/-- C4: when no intermediate value overflows `int64` (the products taxable
times percent and the running sums that the loop computes, and the final
addition), `CalculateInvoiceTotal` returns a nil error if and only if both
header amounts parse, every subtotal parses and satisfies
`(taxable_cents * percent) / 100 = tax_cents` with division toward zero, and
the sum of the subtotals' tax cents is the parsed total; and then the value
returned is `line_cents + totalTax_cents`. -/
theorem C4_no_error_iff (isPrintTab : Nat → Bool) (invoice : Invoice)
    (hov : parsesOK invoice.LineExtensionAmount → parsesOK invoice.TaxTotal.TaxAmount →
      loopNoOverflow isPrintTab invoice.TaxTotal.TaxSubtotal 0)
    (hadd : (CalculateInvoiceTotal isPrintTab invoice).2 = none →
      inInt64 (lineCents invoice + totalTaxCents invoice)) :
    ((CalculateInvoiceTotal isPrintTab invoice).2 = none ↔
      (parsesOK invoice.LineExtensionAmount ∧ parsesOK invoice.TaxTotal.TaxAmount ∧
        (∀ st ∈ invoice.TaxTotal.TaxSubtotal, subtotalExact isPrintTab st) ∧
        taxSum invoice.TaxTotal.TaxSubtotal = totalTaxCents invoice)) ∧
    ((CalculateInvoiceTotal isPrintTab invoice).2 = none →
      (CalculateInvoiceTotal isPrintTab invoice).1 =
        lineCents invoice + totalTaxCents invoice) := by
  have hsum : parsesOK invoice.LineExtensionAmount → parsesOK invoice.TaxTotal.TaxAmount →
      (∀ x ∈ invoice.TaxTotal.TaxSubtotal, subtotalExact isPrintTab x) →
      wrap64 (taxSum invoice.TaxTotal.TaxSubtotal) = taxSum invoice.TaxTotal.TaxSubtotal := by
    intro hl ht hall
    by_cases hnil : invoice.TaxTotal.TaxSubtotal = []
    · rw [hnil]; rfl
    · have := (loopNoOverflow_spec isPrintTab _ 0 (hov hl ht)).2 hall hnil
      rw [zero_add] at this
      exact wrap64_of_inInt64 _ this
  refine ⟨⟨?_, ?_⟩, ?_⟩
  · intro h
    obtain ⟨hl, ht, hall, hs⟩ := CalculateInvoiceTotal_ok_inv isPrintTab invoice h
    have hex := ((loopNoOverflow_spec isPrintTab _ 0 (hov hl ht)).1).mp hall
    exact ⟨hl, ht, hex, by rw [← hsum hl ht hex]; exact hs⟩
  · rintro ⟨hl, ht, hex, hs⟩
    have hall := ((loopNoOverflow_spec isPrintTab _ 0 (hov hl ht)).1).mpr hex
    rw [CalculateInvoiceTotal_all_pass _ _ hl ht hall, hsum hl ht hex, if_neg (not_not.mpr hs)]
  · intro h
    obtain ⟨hl, ht, hall, hs⟩ := CalculateInvoiceTotal_ok_inv isPrintTab invoice h
    have hfit := hadd h
    rw [CalculateInvoiceTotal_all_pass _ _ hl ht hall, if_neg (not_not.mpr hs)]
    exact wrap64_of_inInt64 _ hfit

set_option maxRecDepth 100000 in
/-- Witness of C4: the valid invoice of the test suite has no overflow, meets
every condition and totals 175000 cents. -/
theorem C4_no_error_iff_witness :
    (parsesOK validInvoice.LineExtensionAmount → parsesOK validInvoice.TaxTotal.TaxAmount →
      loopNoOverflow (fun _ => true) validInvoice.TaxTotal.TaxSubtotal 0) ∧
    ((CalculateInvoiceTotal (fun _ => true) validInvoice).2 = none →
      inInt64 (lineCents validInvoice + totalTaxCents validInvoice)) ∧
    (CalculateInvoiceTotal (fun _ => true) validInvoice).2 = none ∧
    (CalculateInvoiceTotal (fun _ => true) validInvoice).1 = 150000 + 25000 :=
  ⟨by decide, by decide, by decide,
    (C4_no_error_iff (fun _ => true) validInvoice (by decide) (by decide)).2 (by decide)⟩

set_option maxRecDepth 100000 in
/-- C5 (counterexample): on `overflowInvoice` the function returns a nil error
although, in exact arithmetic, `100 * 184467440737095516 / 100` is not the
declared tax of 0 cents. -/
theorem C5_counterexample :
    (CalculateInvoiceTotal (fun _ => true) overflowInvoice).2 = none ∧
    ¬ (∀ st ∈ overflowInvoice.TaxTotal.TaxSubtotal,
        Int.tdiv (taxableCents st * percentOf (fun _ => true) st) 100 = taxCents st) := by
  decide

/-- C5 (amended): whenever `CalculateInvoiceTotal` returns a nil error, the
invariant holds in the `int64` arithmetic of the code: every subtotal parses and
its product taxable cents times percent, wrapped to `int64` and divided by 100
toward zero, is its tax cents, and the sum of the tax cents wrapped to `int64`
is the parsed total; so the exact equation holds for every subtotal whose
product fits in `int64`, and the exact sum is the total when it fits. -/
theorem C5_invariant_in_int64_arithmetic (isPrintTab : Nat → Bool) (invoice : Invoice)
    (h : (CalculateInvoiceTotal isPrintTab invoice).2 = none) :
    (∀ st ∈ invoice.TaxTotal.TaxSubtotal, subtotalParses isPrintTab st ∧
      Int.tdiv (wrap64 (taxableCents st * percentOf isPrintTab st)) 100 = taxCents st) ∧
    wrap64 (taxSum invoice.TaxTotal.TaxSubtotal) = totalTaxCents invoice ∧
    (∀ st ∈ invoice.TaxTotal.TaxSubtotal,
      inInt64 (taxableCents st * percentOf isPrintTab st) →
        Int.tdiv (taxableCents st * percentOf isPrintTab st) 100 = taxCents st) ∧
    (inInt64 (taxSum invoice.TaxTotal.TaxSubtotal) →
      taxSum invoice.TaxTotal.TaxSubtotal = totalTaxCents invoice) := by
  obtain ⟨_, _, hall, hs⟩ := CalculateInvoiceTotal_ok_inv isPrintTab invoice h
  refine ⟨hall, hs, ?_, ?_⟩
  · intro st hst hfit
    have := (hall st hst).2
    rwa [wrap64_of_inInt64 _ hfit] at this
  · intro hfit
    rwa [wrap64_of_inInt64 _ hfit] at hs

set_option maxRecDepth 100000 in
/-- Witness of C5 (amended): the valid invoice of the test suite. -/
theorem C5_invariant_in_int64_arithmetic_witness :
    (CalculateInvoiceTotal (fun _ => true) validInvoice).2 = none ∧
    wrap64 (taxSum validInvoice.TaxTotal.TaxSubtotal) = totalTaxCents validInvoice :=
  ⟨by decide, (C5_invariant_in_int64_arithmetic (fun _ => true) validInvoice (by decide)).2.1⟩

/-- C6: when both header amounts parse, the subtotals before position `i` pass
all their checks and subtotal `i` fails one (so `i` is the smallest index with a
failing check), `CalculateInvoiceTotal` returns 0 and the error of subtotal `i`
for its first failing check in the order TaxableAmount parse, TaxAmount parse,
Percent parse, arithmetic, with the index `i` in the message, whatever the later
subtotals and the declared tax total are. -/
theorem C6_first_failing_check (isPrintTab : Nat → Bool) (invoice : Invoice)
    (pre : List TaxSubtotal) (st : TaxSubtotal) (post : List TaxSubtotal)
    (hl : parsesOK invoice.LineExtensionAmount) (ht : parsesOK invoice.TaxTotal.TaxAmount)
    (hsub : invoice.TaxTotal.TaxSubtotal = pre ++ st :: post)
    (hpre : ∀ x ∈ pre, subtotalPasses isPrintTab x) (h : ¬ subtotalPasses isPrintTab st) :
    CalculateInvoiceTotal isPrintTab invoice =
      (0, some (firstFailureMessage isPrintTab pre.length st)) :=
  CalculateInvoiceTotal_first_failure isPrintTab invoice pre st post hl ht hsub hpre h

set_option maxRecDepth 100000 in
/-- Witness of C6: subtotal 1 has an invalid TaxAmount and an invalid Percent,
subtotal 2 an invalid TaxableAmount, and the tax total does not match; the error
is the TaxAmount error of subtotal 1. -/
theorem C6_first_failing_check_witness :
    parsesOK "1500.00" ∧ parsesOK "999.00" ∧
    (∀ x ∈ [(⟨"1000.00", "200.00", ⟨"S", "20"⟩⟩ : TaxSubtotal)],
      subtotalPasses (fun _ => true) x) ∧
    ¬ subtotalPasses (fun _ => true) ⟨"500.00", "def", ⟨"R", "gh"⟩⟩ ∧
    CalculateInvoiceTotal (fun _ => true)
        ⟨"1500.00", ⟨"999.00", [⟨"1000.00", "200.00", ⟨"S", "20"⟩⟩] ++
          ⟨"500.00", "def", ⟨"R", "gh"⟩⟩ :: [⟨"abc", "1.00", ⟨"S", "10"⟩⟩]⟩⟩ =
      (0, some "invalid TaxAmount in TaxSubtotal[1]: invalid value: def") :=
  ⟨by decide, by decide, by decide, by decide,
    C6_first_failing_check (fun _ => true)
      ⟨"1500.00", ⟨"999.00", [⟨"1000.00", "200.00", ⟨"S", "20"⟩⟩] ++
        ⟨"500.00", "def", ⟨"R", "gh"⟩⟩ :: [⟨"abc", "1.00", ⟨"S", "10"⟩⟩]⟩⟩
      [⟨"1000.00", "200.00", ⟨"S", "20"⟩⟩] ⟨"500.00", "def", ⟨"R", "gh"⟩⟩
      [⟨"abc", "1.00", ⟨"S", "10"⟩⟩] (by decide) (by decide) rfl (by decide) (by decide)⟩

/-- C7: when `parseToInt64` rejects `LineExtensionAmount`, the result is 0 with
the message `invalid LineExtensionAmount: invalid value: ` followed by that
string, whatever the rest of the invoice holds. -/
theorem C7_invalid_LineExtensionAmount (isPrintTab : Nat → Bool) (invoice : Invoice)
    (h : ¬ parsesOK invoice.LineExtensionAmount) :
    CalculateInvoiceTotal isPrintTab invoice =
      (0, some ("invalid LineExtensionAmount: invalid value: " ++
        invoice.LineExtensionAmount)) :=
  invalid_LineExtensionAmount isPrintTab invoice h

set_option maxRecDepth 100000 in
/-- Witness of C7: both header amounts invalid and an unparseable subtotal. -/
theorem C7_invalid_LineExtensionAmount_witness :
    ¬ parsesOK "abc" ∧
    CalculateInvoiceTotal (fun _ => true)
        ⟨"abc", ⟨"xyz", [⟨"q", "1.00", ⟨"S", "gh"⟩⟩]⟩⟩ =
      (0, some ("invalid LineExtensionAmount: invalid value: " ++ "abc")) :=
  ⟨by decide,
    C7_invalid_LineExtensionAmount (fun _ => true)
      ⟨"abc", ⟨"xyz", [⟨"q", "1.00", ⟨"S", "gh"⟩⟩]⟩⟩ (by decide)⟩

/-- C8: when `LineExtensionAmount` parses and `parseToInt64` rejects
`TaxTotal.TaxAmount`, the result is 0 with the message
`invalid TaxAmount in TaxTotal: invalid value: ` followed by that string, for
every list of subtotals. -/
theorem C8_invalid_TaxTotal_TaxAmount (isPrintTab : Nat → Bool) (invoice : Invoice)
    (hline : parsesOK invoice.LineExtensionAmount)
    (h : ¬ parsesOK invoice.TaxTotal.TaxAmount) :
    CalculateInvoiceTotal isPrintTab invoice =
      (0, some ("invalid TaxAmount in TaxTotal: invalid value: " ++
        invoice.TaxTotal.TaxAmount)) :=
  invalid_TaxTotal_TaxAmount isPrintTab invoice hline h

set_option maxRecDepth 100000 in
/-- Witness of C8: a valid line amount, an invalid total, and subtotals that are
unparseable or arithmetically wrong. -/
theorem C8_invalid_TaxTotal_TaxAmount_witness :
    parsesOK "1500.00" ∧ ¬ parsesOK "xyz" ∧
    CalculateInvoiceTotal (fun _ => true)
        ⟨"1500.00", ⟨"xyz", [⟨"q", "1.00", ⟨"S", "gh"⟩⟩, ⟨"1000.00", "250.00", ⟨"S", "20"⟩⟩]⟩⟩ =
      (0, some ("invalid TaxAmount in TaxTotal: invalid value: " ++ "xyz")) :=
  ⟨by decide, by decide,
    C8_invalid_TaxTotal_TaxAmount (fun _ => true)
      ⟨"1500.00", ⟨"xyz", [⟨"q", "1.00", ⟨"S", "gh"⟩⟩, ⟨"1000.00", "250.00", ⟨"S", "20"⟩⟩]⟩⟩
      (by decide) (by decide)⟩

set_option maxRecDepth 100000 in
/-- C9 (counterexample): on `overflowInvoice` the headers parse and subtotal 0
parses to `a = 100`, `t = 0`, `p = 184467440737095516`, for which `(a * p) / 100`
is `p`, different from `t`; yet no tax-calculation error is returned: the result
is 0 with a nil error, because the `int64` product wraps to `-16`. -/
theorem C9_counterexample :
    parsesOK overflowInvoice.LineExtensionAmount ∧
    parsesOK overflowInvoice.TaxTotal.TaxAmount ∧
    (∀ st ∈ overflowInvoice.TaxTotal.TaxSubtotal,
      subtotalParses (fun _ => true) st ∧
      Int.tdiv (taxableCents st * percentOf (fun _ => true) st) 100 ≠ taxCents st) ∧
    CalculateInvoiceTotal (fun _ => true) overflowInvoice = (0, none) := by
  decide

/-- C9 (amended): when both header amounts parse, the subtotals before position
`i` pass all their checks, and subtotal `i` parses to taxable cents `a`, tax
cents `t` and percent `p` such that the `int64` product `a * p` (wrapping on
overflow) divided by 100 toward zero differs from `t`, `CalculateInvoiceTotal`
returns 0 and the error
`incorrect tax calculation in TaxSubtotal[i]: a * p / 100 != t` with `i`, `a`,
`p`, `t` in signed base 10. -/
theorem C9_incorrect_tax_calculation (isPrintTab : Nat → Bool) (invoice : Invoice)
    (pre : List TaxSubtotal) (st : TaxSubtotal) (post : List TaxSubtotal)
    (hl : parsesOK invoice.LineExtensionAmount) (ht : parsesOK invoice.TaxTotal.TaxAmount)
    (hsub : invoice.TaxTotal.TaxSubtotal = pre ++ st :: post)
    (hpre : ∀ x ∈ pre, subtotalPasses isPrintTab x)
    (hparse : subtotalParses isPrintTab st)
    (hne : Int.tdiv (wrap64 (taxableCents st * percentOf isPrintTab st)) 100 ≠ taxCents st) :
    CalculateInvoiceTotal isPrintTab invoice =
      (0, some ("incorrect tax calculation in TaxSubtotal[" ++ fmtD pre.length ++ "]: " ++
        fmtD (taxableCents st) ++ " * " ++ fmtD (percentOf isPrintTab st) ++ " / 100 != " ++
        fmtD (taxCents st))) := by
  rw [CalculateInvoiceTotal_first_failure isPrintTab invoice pre st post hl ht hsub hpre
    (fun hp => hne hp.2)]
  unfold firstFailureMessage taxCalcMessage
  rw [if_neg (not_not.mpr hparse.1), if_neg (not_not.mpr hparse.2.1),
    if_neg (not_not.mpr hparse.2.2)]

set_option maxRecDepth 100000 in
/-- Witness of C9 (amended): the test `Incorrect tax calculation`. -/
theorem C9_incorrect_tax_calculation_witness :
    parsesOK wrongTaxInvoice.LineExtensionAmount ∧
    parsesOK wrongTaxInvoice.TaxTotal.TaxAmount ∧
    subtotalParses (fun _ => true) ⟨"1000.00", "250.00", ⟨"S", "20"⟩⟩ ∧
    CalculateInvoiceTotal (fun _ => true) wrongTaxInvoice =
      (0, some "incorrect tax calculation in TaxSubtotal[0]: 100000 * 20 / 100 != 25000") :=
  ⟨by decide, by decide, by decide,
    C9_incorrect_tax_calculation (fun _ => true) wrongTaxInvoice []
      ⟨"1000.00", "250.00", ⟨"S", "20"⟩⟩ [] (by decide) (by decide) rfl (by decide)
      (by decide) (by decide)⟩

set_option maxRecDepth 100000 in
/-- C10 (counterexample): on `sumOverflowInvoice` the headers parse, each of the
101 subtotals passes its checks (in exact arithmetic too), and the sum of their
tax cents, 9315605757223323558, differs from the parsed total
-9131138316486228058; yet no tax-sum error is returned: the running `int64` sum
wraps to the declared total and the result is that total with a nil error. -/
theorem C10_counterexample :
    parsesOK sumOverflowInvoice.LineExtensionAmount ∧
    parsesOK sumOverflowInvoice.TaxTotal.TaxAmount ∧
    (∀ st ∈ sumOverflowInvoice.TaxTotal.TaxSubtotal, subtotalExact (fun _ => true) st) ∧
    taxSum sumOverflowInvoice.TaxTotal.TaxSubtotal = 9315605757223323558 ∧
    totalTaxCents sumOverflowInvoice = -9131138316486228058 ∧
    CalculateInvoiceTotal (fun _ => true) sumOverflowInvoice =
      (-9131138316486228058, none) := by
  decide

/-- C10 (amended): with `S` the sum of the subtotals' tax cents as the code
accumulates it in `int64` (wrapping on overflow) and `T` the parsed total: when
both header amounts parse, every subtotal passes its checks and `S` differs
from `T`, `CalculateInvoiceTotal` returns 0 and the error
`total tax amount (T) does not match TaxSubtotal sum (S)`; and a tax-sum error
(with any two numbers in it) is returned only in that situation. -/
theorem C10_tax_sum_mismatch (isPrintTab : Nat → Bool) (invoice : Invoice) :
    (parsesOK invoice.LineExtensionAmount → parsesOK invoice.TaxTotal.TaxAmount →
      (∀ st ∈ invoice.TaxTotal.TaxSubtotal, subtotalPasses isPrintTab st) →
      wrap64 (taxSum invoice.TaxTotal.TaxSubtotal) ≠ totalTaxCents invoice →
      CalculateInvoiceTotal isPrintTab invoice =
        (0, some ("total tax amount (" ++ fmtD (totalTaxCents invoice) ++
          ") does not match TaxSubtotal sum (" ++
          fmtD (wrap64 (taxSum invoice.TaxTotal.TaxSubtotal)) ++ ")"))) ∧
    (∀ x y : Int, (CalculateInvoiceTotal isPrintTab invoice).2 = some (taxSumMessage x y) →
      parsesOK invoice.LineExtensionAmount ∧ parsesOK invoice.TaxTotal.TaxAmount ∧
      (∀ st ∈ invoice.TaxTotal.TaxSubtotal, subtotalPasses isPrintTab st) ∧
      wrap64 (taxSum invoice.TaxTotal.TaxSubtotal) ≠ totalTaxCents invoice) := by
  constructor
  · intro hl ht hall hne
    rw [CalculateInvoiceTotal_all_pass _ _ hl ht hall, if_pos hne]
    rfl
  · intro x y h
    have hc : ∀ m : String, firstChar m = some 'i' → some m ≠ some (taxSumMessage x y) := by
      intro m hm heq
      have h1 := firstChar_taxSumMessage x y
      rw [← Option.some.inj heq, hm] at h1
      exact absurd h1 (by decide)
    by_cases hl : parsesOK invoice.LineExtensionAmount
    · by_cases ht : parsesOK invoice.TaxTotal.TaxAmount
      · rcases list_all_or_first (subtotalPasses isPrintTab) invoice.TaxTotal.TaxSubtotal with
          hall | ⟨pre, st, post, h1, h2, h3⟩
        · refine ⟨hl, ht, hall, ?_⟩
          intro heq
          rw [CalculateInvoiceTotal_all_pass _ _ hl ht hall, if_neg (not_not.mpr heq)] at h
          cases h
        · rw [CalculateInvoiceTotal_first_failure _ _ pre st post hl ht h1 h2 h3] at h
          exact absurd h (hc _ (firstChar_firstFailureMessage _ _ _))
      · rw [invalid_TaxTotal_TaxAmount _ _ hl ht] at h
        exact absurd h (hc _ (by rw [firstChar_append _ _ (by decide)]; decide))
    · rw [invalid_LineExtensionAmount _ _ hl] at h
      exact absurd h (hc _ (by rw [firstChar_append _ _ (by decide)]; decide))

set_option maxRecDepth 100000 in
/-- Witness of C10 (amended): the test `Tax sum mismatch`. -/
theorem C10_tax_sum_mismatch_witness :
    parsesOK sumMismatchInvoice.LineExtensionAmount ∧
    parsesOK sumMismatchInvoice.TaxTotal.TaxAmount ∧
    (∀ st ∈ sumMismatchInvoice.TaxTotal.TaxSubtotal, subtotalPasses (fun _ => true) st) ∧
    wrap64 (taxSum sumMismatchInvoice.TaxTotal.TaxSubtotal) ≠
      totalTaxCents sumMismatchInvoice ∧
    CalculateInvoiceTotal (fun _ => true) sumMismatchInvoice =
      (0, some "total tax amount (35000) does not match TaxSubtotal sum (25000)") :=
  ⟨by decide, by decide, by decide, by decide,
    (C10_tax_sum_mismatch (fun _ => true) sumMismatchInvoice).1 (by decide) (by decide)
      (by decide) (by decide)⟩

/-- C11: the percent is read as a plain base-10 integer.  When both header
amounts parse, the subtotals before position `i` pass their checks, and subtotal
`i` has parseable `TaxableAmount` and `TaxAmount` but a `Percent` that is not an
optional `+` or `-` followed by one or more decimal digits,
`CalculateInvoiceTotal` returns 0 and an error whose message starts with
`invalid Percent in TaxSubtotal[i]: `; when the `Percent` is made of ASCII
letters only, the message is that prefix followed by
`strconv.Atoi: parsing "p": invalid syntax`, with `p` the `Percent`. -/
theorem C11_invalid_percent (isPrintTab : Nat → Bool) (invoice : Invoice)
    (pre : List TaxSubtotal) (st : TaxSubtotal) (post : List TaxSubtotal)
    (hl : parsesOK invoice.LineExtensionAmount) (ht : parsesOK invoice.TaxTotal.TaxAmount)
    (hsub : invoice.TaxTotal.TaxSubtotal = pre ++ st :: post)
    (hpre : ∀ x ∈ pre, subtotalPasses isPrintTab x)
    (h1 : parsesOK st.TaxableAmount) (h2 : parsesOK st.TaxAmount)
    (hp : ¬ isPlainInt st.TaxCategory.Percent) :
    (∃ detail : String, CalculateInvoiceTotal isPrintTab invoice =
      (0, some ("invalid Percent in TaxSubtotal[" ++ fmtD pre.length ++ "]: " ++ detail))) ∧
    ((∀ c ∈ st.TaxCategory.Percent.toList, isASCIILetter c) →
      CalculateInvoiceTotal isPrintTab invoice =
        (0, some ("invalid Percent in TaxSubtotal[" ++ fmtD pre.length ++ "]: " ++
          ("strconv.Atoi: parsing " ++ String.mk [Char.ofNat 34] ++ st.TaxCategory.Percent ++
            String.mk [Char.ofNat 34] ++ ": invalid syntax")))) := by
  have h3 : ¬ atoiOK isPrintTab st.TaxCategory.Percent :=
    fun h => hp (atoiOK_isPlainInt isPrintTab _ h)
  have hres := CalculateInvoiceTotal_first_failure isPrintTab invoice pre st post hl ht hsub
    hpre (fun h => h3 h.1.2.2)
  unfold firstFailureMessage at hres
  rw [if_neg (not_not.mpr h1), if_neg (not_not.mpr h2), if_pos h3] at hres
  refine ⟨⟨_, hres⟩, ?_⟩
  intro hall
  rw [hres, Atoi_letters isPrintTab _ hall, atoiError_letters isPrintTab _ hall]
  rfl

set_option maxRecDepth 100000 in
/-- Witness of C11: the test `Invalid Percent in TaxSubtotal`, percent `gh`. -/
theorem C11_invalid_percent_witness :
    parsesOK "1500.00" ∧ parsesOK "200.00" ∧ parsesOK "1000.00" ∧ ¬ isPlainInt "gh" ∧
    CalculateInvoiceTotal (fun _ => true)
        ⟨"1500.00", ⟨"200.00", [] ++ ⟨"1000.00", "200.00", ⟨"S", "gh"⟩⟩ :: []⟩⟩ =
      (0, some ("invalid Percent in TaxSubtotal[0]: strconv.Atoi: parsing " ++
        String.mk [Char.ofNat 34] ++ "gh" ++ String.mk [Char.ofNat 34] ++ ": invalid syntax")) :=
  ⟨by decide, by decide, by decide, by decide,
    (C11_invalid_percent (fun _ => true)
      ⟨"1500.00", ⟨"200.00", [] ++ ⟨"1000.00", "200.00", ⟨"S", "gh"⟩⟩ :: []⟩⟩
      [] ⟨"1000.00", "200.00", ⟨"S", "gh"⟩⟩ [] (by decide) (by decide) rfl (by decide)
      (by decide) (by decide) (by decide)).2 (by decide)⟩

/-- C12: whenever `parseToInt64` returns an error, the value is 0 and the
message is `invalid value: ` followed by the input verbatim; and it does return
an error for the empty string and for every string of ASCII letters other than
the two spellings `Inf` and `inf` of infinity. -/
theorem C12_invalid_value (s : String) :
    ((parseToInt64 s).2 ≠ none → parseToInt64 s = (0, some ("invalid value: " ++ s))) ∧
    ((∀ c ∈ s.toList, isASCIILetter c) → s ≠ "Inf" → s ≠ "inf" → (parseToInt64 s).2 ≠ none) ∧
    (parseToInt64 "").2 ≠ none :=
  ⟨fun h => parseToInt64_error s h, fun hall h1 h2 => letters_rejected s hall h1 h2,
    letters_rejected "" (fun c hc => absurd hc (List.not_mem_nil c)) (by decide) (by decide)⟩

set_option maxRecDepth 100000 in
/-- Witness of C12: the string `abc`. -/
theorem C12_invalid_value_witness :
    parseToInt64 "abc" = (0, some ("invalid value: " ++ "abc")) :=
  (C12_invalid_value "abc").1 ((C12_invalid_value "abc").2.1 (by decide) (by decide) (by decide))

/-- C13: whenever `CalculateInvoiceTotal` returns an error, the integer it
returns is 0; no partial total comes with an error. -/
theorem C13_error_returns_zero (isPrintTab : Nat → Bool) (invoice : Invoice)
    (h : (CalculateInvoiceTotal isPrintTab invoice).2 ≠ none) :
    (CalculateInvoiceTotal isPrintTab invoice).1 = 0 :=
  CalculateInvoiceTotal_error_value isPrintTab invoice h

set_option maxRecDepth 100000 in
/-- Witness of C13: the invoice of the test `Tax sum mismatch`, whose line
amount and running tax sum are both nonzero when the error is found. -/
theorem C13_error_returns_zero_witness :
    (CalculateInvoiceTotal (fun _ => true) sumMismatchInvoice).2 ≠ none ∧
    (CalculateInvoiceTotal (fun _ => true) sumMismatchInvoice).1 = 0 :=
  ⟨by decide, C13_error_returns_zero (fun _ => true) sumMismatchInvoice (by decide)⟩

set_option maxRecDepth 100000 in
/-- C14 (evaluation at the failing input): the two-decimal string `0.53` is
parsed to 52 cents, and formatting 52 cents gives `0.52`, not `0.53`. -/
theorem C14_format_after_parse_at_0_53 :
    parseToInt64 "0.53" = (52, none) ∧
    formatInt64ToString (parseToInt64 "0.53").1 = "0.52" := by
  decide

/-- C15: negation symmetry of the validator.  For an invoice whose monetary
strings are unsigned decimal strings, whose parsed amounts, products taxable
cents times percent, tax sum and final sum lie strictly inside the `int64`
range, and on which `CalculateInvoiceTotal` returns a total `t` with a nil
error, the invoice with `-` put in front of every monetary string (percents
unchanged) also returns a nil error, and returns `-t`. -/
theorem C15_negation_symmetry (isPrintTab : Nat → Bool) (invoice : Invoice)
    (hdl : isUnsignedDecimal invoice.LineExtensionAmount)
    (hdt : isUnsignedDecimal invoice.TaxTotal.TaxAmount)
    (hds : ∀ st ∈ invoice.TaxTotal.TaxSubtotal,
      isUnsignedDecimal st.TaxableAmount ∧ isUnsignedDecimal st.TaxAmount)
    (hsl : strictInt64 (lineCents invoice)) (hst : strictInt64 (totalTaxCents invoice))
    (hss : ∀ st ∈ invoice.TaxTotal.TaxSubtotal, strictInt64 (taxableCents st) ∧
      strictInt64 (taxCents st) ∧ strictInt64 (taxableCents st * percentOf isPrintTab st))
    (hsum : strictInt64 (taxSum invoice.TaxTotal.TaxSubtotal))
    (hadd : strictInt64 (lineCents invoice + totalTaxCents invoice))
    (hok : (CalculateInvoiceTotal isPrintTab invoice).2 = none) :
    CalculateInvoiceTotal isPrintTab (negateInvoice invoice) =
      (-(CalculateInvoiceTotal isPrintTab invoice).1, none) :=
  negateInvoice_spec isPrintTab invoice hdl hdt hds hsl hst hss hsum hadd hok

set_option maxRecDepth 100000 in
/-- Witness of C15: the valid invoice of the test suite totals 175000 cents, and
with all its amounts negated (the test `Negative values`) it totals -175000. -/
theorem C15_negation_symmetry_witness :
    (CalculateInvoiceTotal (fun _ => true) validInvoice).2 = none ∧
    negateInvoice validInvoice =
      ⟨"-1500.00", ⟨"-250.00",
        [⟨"-1000.00", "-200.00", ⟨"S", "20"⟩⟩, ⟨"-500.00", "-50.00", ⟨"R", "10"⟩⟩]⟩⟩ ∧
    CalculateInvoiceTotal (fun _ => true) (negateInvoice validInvoice) = (-(150000 + 25000), none) :=
  ⟨by decide, by decide,
    C15_negation_symmetry (fun _ => true) validInvoice validInvoice_unsigned.1
      validInvoice_unsigned.2.1 validInvoice_unsigned.2.2 (by decide) (by decide) (by decide)
      (by decide) (by decide) (by decide)⟩

/-- C16 (counterexample): the claim speaks of every plain decimal string, but
the string of 700000000 nines, whose value times 100 is far above `2^63`, is
not saturated: the integer written by its digits has more than `MaxExp` bits
(it is at least `10^699999999 ≥ 2^(23 * 99999999)`), the parse fails with an
exponent overflow, and `parseToInt64` returns 0 with the error
`invalid value`. -/
theorem C16_counterexample :
    isUnsignedDecimalOf longNines.toList ('9' :: List.replicate 699999999 '9') [] ∧
    longNines.length = 700000000 ∧
    2 ^ 63 * 10 ^ ([] : List Char).length ≤
      100 * decimalValue (('9' :: List.replicate 699999999 '9') ++ []) ∧
    MaxExp < decimalExp2 ('9' :: List.replicate 699999999 '9') [] ∧
    parseToInt64 longNines = (0, some ("invalid value: " ++ longNines)) :=
  ⟨(nines_decimal 699999999).1, longNines_length, (nines_big 699999999 (by decide)).1,
    nines_exp2 699999999 99999999 (by decide) (by decide),
    (parseToInt64_rejected longNines ('9' :: List.replicate 699999999 '9') []
      (nines_decimal 699999999).1 (nines_big 699999999 (by decide)).2
      (nines_exp2 699999999 99999999 (by decide) (by decide))).1⟩

/-- C16 (amended): `parseToInt64` saturates silently on a plain decimal string
exactly when the string passes the exponent range check of `big.Float`.  Let
`s` be an unsigned decimal string with integer digits `ip` and fractional
digits `fp` whose exact value times 100 is at least `2^63`, and let
`decimalExp2 ip fp` be the length in bits of the integer written by all its
digits less the number of fractional digits.  If that is at most
`MaxExp = 2^31 - 1`, as it is for every `s` of at most 646456992 characters,
then `parseToInt64 s` is the maximum `int64` with a nil error, and with `-` in
front, where the exact value times 100 is at most `-2^63`, it is the minimum
`int64` with a nil error.  Otherwise both strings are rejected: the result is
0 with the error `invalid value`.  The strings `Inf` and `-Inf` give the
maximum and the minimum `int64` with a nil error. -/
theorem C16_saturation (s : String) (ip fp : List Char)
    (h : isUnsignedDecimalOf s.toList ip fp)
    (hbig : 2 ^ 63 * 10 ^ fp.length ≤ 100 * decimalValue (ip ++ fp)) :
    (decimalExp2 ip fp ≤ MaxExp →
      parseToInt64 s = (maxInt64, none) ∧ parseToInt64 ("-" ++ s) = (minInt64, none)) ∧
    (s.length ≤ 646456992 → decimalExp2 ip fp ≤ MaxExp) ∧
    (MaxExp < decimalExp2 ip fp →
      parseToInt64 s = (0, some ("invalid value: " ++ s)) ∧
      parseToInt64 ("-" ++ s) = (0, some ("invalid value: " ++ ("-" ++ s)))) ∧
    parseToInt64 "Inf" = (maxInt64, none) ∧ parseToInt64 "-Inf" = (minInt64, none) := by
  have hne : decimalValue (ip ++ fp) ≠ 0 := by
    intro h0
    rw [h0] at hbig
    have : 0 < 2 ^ 63 * 10 ^ fp.length := by positivity
    omega
  exact ⟨fun hrange => parseToInt64_saturates s ip fp h hrange hbig,
    fun hlen => decimalExp2_le_of_length s.toList ip fp h hlen,
    fun hover => parseToInt64_rejected s ip fp h hne hover, by decide, by decide⟩

set_option maxRecDepth 100000 in
/-- Witness of C16: `92233720368547758.08` is exactly `2^63 / 100`, its 19
digits make an integer of 64 bits and a binary exponent of 62; it parses to the
maximum `int64`, and with `-` in front to the minimum. -/
theorem C16_saturation_witness :
    isUnsignedDecimalOf "92233720368547758.08".toList "92233720368547758".toList "08".toList ∧
    2 ^ 63 * 10 ^ 2 = 100 * decimalValue "9223372036854775808".toList ∧
    decimalExp2 "92233720368547758".toList "08".toList = 62 ∧
    parseToInt64 "92233720368547758.08" = (9223372036854775807, none) ∧
    parseToInt64 "-92233720368547758.08" = (-9223372036854775808, none) :=
  ⟨by unfold isUnsignedDecimalOf; decide, by decide, by decide,
    ((C16_saturation "92233720368547758.08" "92233720368547758".toList "08".toList
      (by unfold isUnsignedDecimalOf; decide) (by decide)).1 (by decide)).1,
    ((C16_saturation "92233720368547758.08" "92233720368547758".toList "08".toList
      (by unfold isUnsignedDecimalOf; decide) (by decide)).1 (by decide)).2⟩

/-- C17: for an invoice with no subtotals whose two header amounts parse,
`CalculateInvoiceTotal` returns a nil error if and only if the parsed
`TaxTotal.TaxAmount` is 0 cents, and then it returns the parsed
`LineExtensionAmount` cents; otherwise it returns 0 and the tax-sum error with a
subtotal sum of 0. -/
theorem C17_no_subtotals (isPrintTab : Nat → Bool) (invoice : Invoice)
    (hempty : invoice.TaxTotal.TaxSubtotal = [])
    (hl : parsesOK invoice.LineExtensionAmount) (ht : parsesOK invoice.TaxTotal.TaxAmount) :
    ((CalculateInvoiceTotal isPrintTab invoice).2 = none ↔ totalTaxCents invoice = 0) ∧
    (totalTaxCents invoice = 0 →
      CalculateInvoiceTotal isPrintTab invoice = (lineCents invoice, none)) ∧
    (totalTaxCents invoice ≠ 0 →
      CalculateInvoiceTotal isPrintTab invoice =
        (0, some ("total tax amount (" ++ fmtD (totalTaxCents invoice) ++
          ") does not match TaxSubtotal sum (" ++ fmtD 0 ++ ")"))) := by
  have hres := CalculateInvoiceTotal_all_pass isPrintTab invoice hl ht
    (by rw [hempty]; intro x hx; exact absurd hx (List.not_mem_nil x))
  rw [hempty] at hres
  have h0 : wrap64 (taxSum []) = 0 := by decide
  rw [h0] at hres
  refine ⟨⟨?_, ?_⟩, ?_, ?_⟩
  · intro h
    by_contra hne
    rw [hres, if_pos (fun h' => hne h'.symm)] at h
    cases h
  · intro hz
    rw [hres, if_neg (not_not.mpr hz.symm)]
  · intro hz
    rw [hres, if_neg (not_not.mpr hz.symm), hz, add_zero]
    rw [wrap64_of_inInt64 (lineCents invoice) (parseToInt64_inInt64 _)]
  · intro hne
    rw [hres, if_pos (fun h' => hne h'.symm)]
    rfl

set_option maxRecDepth 100000 in
/-- Witness of C17: no subtotals and a declared tax of 0 cents. -/
theorem C17_no_subtotals_witness :
    parsesOK "1500.00" ∧ parsesOK "0.00" ∧
    CalculateInvoiceTotal (fun _ => true) ⟨"1500.00", ⟨"0.00", []⟩⟩ = (150000, none) :=
  ⟨by decide, by decide,
    (C17_no_subtotals (fun _ => true) ⟨"1500.00", ⟨"0.00", []⟩⟩ rfl (by decide)
      (by decide)).2.1 (by decide)⟩

/-- C18: for every invoice and every permutation of its list of subtotals,
`CalculateInvoiceTotal` returns a nil error on the permuted invoice if and only
if it does on the original one, and then both return the same total. -/
theorem C18_order_of_subtotals (isPrintTab : Nat → Bool) (invoice : Invoice)
    (l : List TaxSubtotal) (hperm : List.Perm l invoice.TaxTotal.TaxSubtotal) :
    ((CalculateInvoiceTotal isPrintTab (withSubtotals invoice l)).2 = none ↔
      (CalculateInvoiceTotal isPrintTab invoice).2 = none) ∧
    ((CalculateInvoiceTotal isPrintTab invoice).2 = none →
      CalculateInvoiceTotal isPrintTab (withSubtotals invoice l) =
        CalculateInvoiceTotal isPrintTab invoice) := by
  have hiff : (CalculateInvoiceTotal isPrintTab (withSubtotals invoice l)).2 = none ↔
      (CalculateInvoiceTotal isPrintTab invoice).2 = none := by
    rw [CalculateInvoiceTotal_ok_iff, CalculateInvoiceTotal_ok_iff]
    have hsum : taxSum l = taxSum invoice.TaxTotal.TaxSubtotal := by
      unfold taxSum
      exact (hperm.map taxCents).sum_eq
    have hmem : (∀ x ∈ l, subtotalPasses isPrintTab x) ↔
        (∀ x ∈ invoice.TaxTotal.TaxSubtotal, subtotalPasses isPrintTab x) :=
      ⟨fun h x hx => h x (hperm.mem_iff.mpr hx), fun h x hx => h x (hperm.mem_iff.mp hx)⟩
    show (parsesOK invoice.LineExtensionAmount ∧ parsesOK invoice.TaxTotal.TaxAmount ∧
      (∀ x ∈ l, subtotalPasses isPrintTab x) ∧ wrap64 (taxSum l) = totalTaxCents invoice) ↔ _
    rw [hsum, hmem]
  refine ⟨hiff, ?_⟩
  intro h
  rw [CalculateInvoiceTotal_ok_value _ _ h, CalculateInvoiceTotal_ok_value _ _ (hiff.mpr h)]
  rfl

set_option maxRecDepth 100000 in
/-- Witness of C18: the valid invoice of the test suite with its two subtotals
swapped. -/
theorem C18_order_of_subtotals_witness :
    List.Perm [(⟨"500.00", "50.00", ⟨"R", "10"⟩⟩ : TaxSubtotal),
        ⟨"1000.00", "200.00", ⟨"S", "20"⟩⟩] validInvoice.TaxTotal.TaxSubtotal ∧
    (CalculateInvoiceTotal (fun _ => true) validInvoice).2 = none ∧
    CalculateInvoiceTotal (fun _ => true)
        (withSubtotals validInvoice
          [⟨"500.00", "50.00", ⟨"R", "10"⟩⟩, ⟨"1000.00", "200.00", ⟨"S", "20"⟩⟩]) =
      CalculateInvoiceTotal (fun _ => true) validInvoice :=
  ⟨List.Perm.swap _ _ [], by decide,
    (C18_order_of_subtotals (fun _ => true) validInvoice
      [⟨"500.00", "50.00", ⟨"R", "10"⟩⟩, ⟨"1000.00", "200.00", ⟨"S", "20"⟩⟩]
      (List.Perm.swap _ _ [])).2 (by decide)⟩

end TestFarmExpert
